import Mathlib

/-!
# Butterfly graph controller (`api/server/graph.cc`)

A shallow embedding of the graph controller of Butterfly: the command queue
between the control thread and the poller, the per-VNI topology (direct link
versus switch), the NIC branch builder and the firewall rule compiler.

Conventions of the embedding.

* A brick (`struct pg_brick *`) is a natural number; a `BrickShrPtr` is an
  `Option Brick`, `none` being the empty handle / `NULL`.
* A `std::map` is an association list kept in key order.  `mapFind`, `mapSet`
  and `mapErase` act on the first entry with the key, which is the entry an
  iterator returned by `find` designates.
* The state of the packetgraph library that the controller drives (the links
  between bricks, the rules installed in the firewalls) and the state of the
  poller thread (its snapshot, the commands it has executed) are fields of
  `Graph`, below the members of the C++ class.
* The poller runs concurrently with the control thread.  In the embedding the
  pending commands are executed, in FIFO order, when the control thread waits
  in `WaitEmptyQueue`, or when `PollerUpdate` is applied explicitly.
* A function whose C++ body can run into undefined behaviour (`back()` of an
  empty `std::string`, a `NULL` dereference) or never return (waiting for a
  queue nobody drains) returns an `Option`, `none` standing for these outcomes.
-/

/-! ## The model types of `app::` used by the controller -/

namespace app

/-- The family of an address, `app::Ip::Type()`. -/
inductive IpType where
  | V4
  | V6
deriving DecidableEq, Repr

/-- An `app::Ip`: its family and its textual form `Str()`. -/
structure Ip where
  Type_ : IpType
  Str : String
deriving DecidableEq, Repr

/-- An `app::Cidr`. -/
structure Cidr where
  address : Ip
  mask_size : Nat
deriving DecidableEq, Repr

/-- The direction of a rule, `app::Rule::Direction`. -/
inductive Direction where
  | INBOUND
  | OUTBOUND
deriving DecidableEq, Repr

/-- An `app::Rule`. -/
structure Rule where
  direction : Direction
  protocol : Int
  port_start : Int
  port_end : Int
  cidr : Cidr
  security_group : String
deriving DecidableEq, Repr

/-- An `app::Sg`: `members` is iterated in order, `rules` is a `std::map`. -/
structure Sg where
  id : String
  members : List Ip
  rules : List (String × Rule)
deriving DecidableEq, Repr

/-- The type of a NIC, `nic.type`. -/
inductive NicType where
  | VHOST_USER_SERVER
  | TAP
  | OTHER
deriving DecidableEq, Repr

/-- The fields of `app::Nic` that `graph.cc` reads. -/
structure Nic where
  id : String
  vni : Nat
  type : NicType
  ip_list : List Ip
  security_groups : List String
  ip_anti_spoof : Bool
  bypass_filtering : Bool
  packet_trace : Bool
  packet_trace_path : String
deriving DecidableEq, Repr

end app

/-- The globals read by the controller: `app::config.packet_trace`,
`app::model.security_groups` and the compile-time constant
`GRAPH_VHOST_MAX_SIZE` of `graph.h`. -/
structure App where
  packet_trace : Bool
  security_groups : List (String × app.Sg)
  GRAPH_VHOST_MAX_SIZE : Nat

/-! ## `std::map` and `std::string` helpers -/

/-- `m.find(k)`: the value of the first entry with key `k`. -/
def mapFind {K V : Type} [DecidableEq K] : List (K × V) → K → Option V
  | [], _ => none
  | (k', v) :: rest, k => if k' = k then some v else mapFind rest k

/-- Assignment through the iterator or reference obtained from `m.find(k)`. -/
def mapSet {K V : Type} [DecidableEq K] : List (K × V) → K → V → List (K × V)
  | [], _, _ => []
  | (k', v') :: rest, k, v =>
    if k' = k then (k', v) :: rest else (k', v') :: mapSet rest k v

/-- `m.erase(k)`, or `m.erase(it)` for `it = m.find(k)`. -/
def mapErase {K V : Type} [DecidableEq K] : List (K × V) → K → List (K × V)
  | [], _ => []
  | (k', v') :: rest, k => if k' = k then rest else (k', v') :: mapErase rest k

/-- The position at which `std::map::insert` puts a new key. -/
def mapPlace {K V : Type} (lt : K → K → Bool) (p : K × V) :
    List (K × V) → List (K × V)
  | [] => [p]
  | q :: rest => if lt p.1 q.1 then p :: q :: rest else q :: mapPlace lt p rest

/-- `m.insert(p)`: nothing happens when the key is already present. -/
def mapInsert {K V : Type} [DecidableEq K] (lt : K → K → Bool) (p : K × V)
    (m : List (K × V)) : List (K × V) :=
  match mapFind m p.1 with
  | some _ => m
  | none => mapPlace lt p m

/-- The order of `std::map<uint32_t, _>`. -/
def natLt (a b : Nat) : Bool := decide (a < b)

/-- The order of `std::map<std::string, _>`: lexicographic on the characters. -/
def strLt (a b : String) : Bool := decide (a.data < b.data)

/-- `s.back()`, which is undefined on the empty string (`none`). -/
def strBack (s : String) : Option Char := s.data.getLast?

/-- `s.pop_back()`. -/
def strPopBack (s : String) : String := ⟨s.data.dropLast⟩

/-- The strings `xs` separated by `sep`: `x1 sep x2 sep … xn`. -/
def joinWith (sep : String) : List String → String
  | [] => ""
  | [x] => x
  | x :: y :: rest => x ++ sep ++ joinWith sep (y :: rest)

/-! ## Multicast addresses -/

/-- The bytes, in memory order, of `htonl(v)`: `v` big-endian. -/
def htonlBytes (v : Nat) : List Nat :=
  [v / 2 ^ 24 % 256, v / 2 ^ 16 % 256, v / 2 ^ 8 % 256, v % 256]

/-- The bytes, in memory order, of the `uint32_t` `v` on the little-endian host
the controller runs on. -/
def hostBytes (v : Nat) : List Nat :=
  [v % 256, v / 2 ^ 8 % 256, v / 2 ^ 16 % 256, v / 2 ^ 24 % 256]

/-- `BuildMulticastIp4`: the returned `uint32_t`, as its four bytes in memory
(the address in network order). -/
def BuildMulticastIp4 (vni : Nat) : List Nat :=
  (htonlBytes vni).set 0 230

/-- `BuildMulticastIp6`: the sixteen bytes written to `multicast_ip`. -/
def BuildMulticastIp6 (vni : Nat) : List Nat :=
  let z : List Nat := List.replicate 16 0
  let z := z.set 0 255
  let z := z.set 15 ((hostBytes vni).getD 0 0)
  let z := z.set 14 ((hostBytes vni).getD 1 0)
  let z := z.set 13 ((hostBytes vni).getD 2 0)
  z.set 12 ((hostBytes vni).getD 3 0)

/-! ## Bricks, commands and the graph -/

/-- A brick of the packetgraph library. -/
abbrev Brick := Nat

/-- A shared handle on a brick; `none` is the empty handle. -/
abbrev BrickShrPtr := Option Brick

/-- The side of a brick, `PG_WEST_SIDE` or `PG_EAST_SIDE`. -/
inductive Side where
  | PG_WEST_SIDE
  | PG_EAST_SIDE
deriving DecidableEq, Repr

/-- The flags given to `pg_firewall_new`. -/
inductive FwFlags where
  | PG_NO_CONN_WORKER
deriving DecidableEq, Repr

/-- The payload of `UPDATE_POLL`: the first `size` cells of the two arrays. -/
structure RpcUpdatePoll where
  size : Nat
  pollables : List BrickShrPtr
  firewalls : List BrickShrPtr
deriving DecidableEq, Repr

/-- A command record.  `FW_NEW` carries, in `result`, the brick that
`pg_firewall_new` returns when the poller executes the command and that it
stores through the result pointer. -/
inductive RpcQueue where
  | EXIT
  | VHOST_START
  | VHOST_STOP
  | LINK (w e : BrickShrPtr)
  | UNLINK (b : BrickShrPtr)
  | UNLINK_EDGE (w e : BrickShrPtr)
  | ADD_VNI (vtep neighbor : BrickShrPtr) (vni : Nat) (multicast_ip : List Nat)
  | UPDATE_POLL (update_poll : RpcUpdatePoll)
  | FW_RELOAD (firewall : BrickShrPtr)
  | FW_NEW (name : String) (west_max east_max : Nat) (flags : FwFlags)
      (result : BrickShrPtr)
  | BRICK_DESTROY (b : BrickShrPtr)
  | NOTHING
deriving DecidableEq, Repr

/-- A NIC branch, `struct GraphNic`. -/
structure GraphNic where
  id : String
  enable : Bool
  firewall : BrickShrPtr
  antispoof : BrickShrPtr
  vhost : BrickShrPtr
  sniffer : BrickShrPtr
  head : BrickShrPtr
  packet_trace_path : String
deriving DecidableEq, Repr

/-- A VNI entry, `struct GraphVni`. -/
structure GraphVni where
  vni : Nat
  sw : BrickShrPtr
  nics : List (String × GraphNic)
deriving DecidableEq, Repr

/-- A rule installed in a firewall by `pg_firewall_rule_add`. -/
structure FwRule where
  firewall : BrickShrPtr
  filter : String
  side : Side
  priority : Nat
deriving DecidableEq, Repr

/-- The controller.  `started` to `queue_` are members of the C++ class
(`queue_` holds the pending commands, oldest first); `links` and `fw_rules`
are the state of the library; `poll_list` and `executed` belong to the poller:
the snapshot it polls and the commands it has dequeued, in order. -/
structure Graph where
  started : Bool
  vnis_ : List (Nat × GraphVni)
  nic_ : BrickShrPtr
  vtep_ : BrickShrPtr
  sniffer_ : BrickShrPtr
  isVtep6_ : Bool
  queue_ : List RpcQueue
  links : List (BrickShrPtr × BrickShrPtr)
  fw_rules : List FwRule
  poll_list : Option RpcUpdatePoll
  executed : List RpcQueue
deriving DecidableEq, Repr

/-! ## The brick library -/

/-- Modelled from the spec: `pg_brick_link`, which is part of the packetgraph
library; it connects `w` to `e` ("Connect two bricks"). -/
def pg_brick_link (links : List (BrickShrPtr × BrickShrPtr)) (w e : BrickShrPtr) :
    List (BrickShrPtr × BrickShrPtr) :=
  links ++ [(w, e)]

/-- Modelled from the spec: `pg_brick_unlink`, which is part of the packetgraph
library ("Remove all edges of brick b"). -/
def pg_brick_unlink (links : List (BrickShrPtr × BrickShrPtr)) (b : BrickShrPtr) :
    List (BrickShrPtr × BrickShrPtr) :=
  links.filter (fun p => decide (p.1 ≠ b ∧ p.2 ≠ b))

/-- Modelled from the spec: `pg_brick_unlink_edge`, which is part of the
packetgraph library ("Remove only the edge (west, east)"). -/
def pg_brick_unlink_edge (links : List (BrickShrPtr × BrickShrPtr))
    (w e : BrickShrPtr) : List (BrickShrPtr × BrickShrPtr) :=
  links.filter (fun p => decide (p ≠ (w, e)))

/-- Modelled from the spec: `pg_brick_chained_links`, which is part of the
packetgraph library; it links `w` to `s` and `s` to `e`. -/
def pg_brick_chained_links (links : List (BrickShrPtr × BrickShrPtr))
    (w s e : BrickShrPtr) : List (BrickShrPtr × BrickShrPtr) :=
  pg_brick_link (pg_brick_link links w s) s e

/-! ## The rule compiler -/

namespace Graph

/-- The member loop of `FwBuildRule` (lines 869-874): one ` src host` atom per
member, ` or` after every member but the last. -/
def FwBuildRule_members : List app.Ip → String → String
  | [], r => r
  | ip :: rest, r =>
    let r := r ++ (" src host " ++ ip.Str)
    if rest ≠ [] then FwBuildRule_members rest (r ++ " or")
    else FwBuildRule_members rest r

/-- The source clause of `FwBuildRule` (lines 849-881); `none` when the rule is
dropped there. -/
def FwBuildRule_source (a : App) (rule : app.Rule) : Option String :=
  if rule.security_group.length = 0 then
    if rule.cidr.mask_size ≠ 0 then
      some ("" ++ ("src net " ++ rule.cidr.address.Str ++ "/" ++
        toString rule.cidr.mask_size))
    else if rule.cidr.address.Type_ = app.IpType.V4 then some ("" ++ "ip")
    else some ("" ++ "ip6")
  else
    match mapFind a.security_groups rule.security_group with
    | none => none
    | some sg =>
      if sg.members.length > 0 then
        some (FwBuildRule_members sg.members ("" ++ " (") ++ ")")
      else none

/-- `IPPROTO_ICMP` of `netinet/in.h`. -/
def IPPROTO_ICMP : Int := 1

/-- `IPPROTO_TCP` of `netinet/in.h`. -/
def IPPROTO_TCP : Int := 6

/-- `IPPROTO_UDP` of `netinet/in.h`. -/
def IPPROTO_UDP : Int := 17

/-- `IPPROTO_ICMPV6` of `netinet/in.h`. -/
def IPPROTO_ICMPV6 : Int := 58

/-- The protocol clause of `FwBuildRule` (lines 883-908), appended to `r`. -/
def FwBuildRule_protocol (rule : app.Rule) (r : String) : String :=
  if rule.protocol = IPPROTO_ICMP then r ++ " and icmp"
  else if rule.protocol = IPPROTO_ICMPV6 then r ++ " and icmp6"
  else if rule.protocol = IPPROTO_TCP then r ++ " and tcp"
  else if rule.protocol = IPPROTO_UDP then r ++ " and udp"
  else if rule.protocol = -1 then r
  else if rule.cidr.address.Type_ = app.IpType.V4 then
    r ++ (" and (ip proto " ++ toString rule.protocol ++ ")")
  else r ++ (" and (ip6 proto " ++ toString rule.protocol ++ ")")

/-- `Graph::FwBuildRule`. -/
def FwBuildRule (a : App) (rule : app.Rule) : String :=
  if rule.direction = app.Direction.OUTBOUND then ""
  else
    match FwBuildRule_source a rule with
    | none => ""
    | some r =>
      let r := FwBuildRule_protocol rule r
      if rule.protocol = IPPROTO_TCP ∨ rule.protocol = IPPROTO_UDP then
        if rule.port_start < 65536 ∧ rule.port_end < 65536 then
          if rule.port_start = rule.port_end then
            r ++ (" dst port " ++ toString rule.port_end)
          else if rule.port_start < rule.port_end then
            r ++ (" dst portrange " ++ toString rule.port_start ++ "-" ++
              toString rule.port_end)
          else ""
        else ""
      else r

/-- The loop of `FwBuildSg` (lines 932-941). -/
def FwBuildSg_loop (a : App) : List (String × app.Rule) → String → String
  | [], r => r
  | p :: rest, r =>
    let fw_rule := FwBuildRule a p.2
    if fw_rule.length = 0 then FwBuildSg_loop a rest r
    else
      let r := r ++ ("(" ++ fw_rule ++ ")")
      if rest ≠ [] then FwBuildSg_loop a rest (r ++ "||")
      else FwBuildSg_loop a rest r

/-- The trailing-separator trim shared by `FwBuildSg` (lines 943-946) and
`FwUpdate` (lines 991-994): `if (r.back() == '|') { r.pop_back(); r.pop_back(); }`.
`back()` of an empty string is undefined behaviour: `none`. -/
def trimTrailing (r : String) : Option String :=
  match strBack r with
  | none => none
  | some c => if c = '|' then some (strPopBack (strPopBack r)) else some r

/-- `Graph::FwBuildSg`. -/
def FwBuildSg (a : App) (sg : app.Sg) : Option String :=
  trimTrailing (FwBuildSg_loop a sg.rules "")

/-- The inbound loop of `FwUpdate` (lines 973-989).  `FwBuildSg` is called on
every referenced group that the model knows. -/
def FwUpdate_in_loop (a : App) : List String → String → Option String
  | [], r => some r
  | id :: rest, r =>
    match mapFind a.security_groups id with
    | none => FwUpdate_in_loop a rest r
    | some sg =>
      match FwBuildSg a sg with
      | none => none
      | some sg_rules =>
        if sg_rules.length = 0 then FwUpdate_in_loop a rest r
        else
          let r := r ++ ("(" ++ sg_rules ++ ")")
          if rest ≠ [] then FwUpdate_in_loop a rest (r ++ "||")
          else FwUpdate_in_loop a rest r

/-- The inbound rule string `in_rules` of `FwUpdate` (lines 971-994). -/
def FwUpdate_in_rules (a : App) (nic : app.Nic) : Option String :=
  match FwUpdate_in_loop a nic.security_groups "" with
  | none => none
  | some r => trimTrailing r

/-- The outbound loop of `FwUpdate` (lines 998-1002). -/
def FwUpdate_out_loop : List app.Ip → String → String
  | [], r => r
  | ip :: rest, r =>
    let r := r ++ ("(src host " ++ ip.Str ++ ")")
    if rest ≠ [] then FwUpdate_out_loop rest (r ++ " || ")
    else FwUpdate_out_loop rest r

/-- The DHCP-request permit appended to every outbound rule string. -/
def dhcpPermit : String :=
  "(src host 0.0.0.0 and dst host 255.255.255.255 and " ++
  "udp src port 68 and udp dst port 67)"

/-- The outbound rule string `out_rules` of `FwUpdate` (lines 996-1011). -/
def FwUpdate_out_rules (nic : app.Nic) : String :=
  let out_rules := FwUpdate_out_loop nic.ip_list ""
  let out_rules := if out_rules.length > 0 then out_rules ++ " || " else out_rules
  out_rules ++ dhcpPermit

end Graph

/-! ## The command queue and the poller -/

namespace Graph

/-- `g_async_queue_push(queue_, a)`. -/
def push (g : Graph) (a : RpcQueue) : Graph :=
  { g with queue_ := g.queue_ ++ [a] }

/-- `Graph::exit`. -/
def exit (g : Graph) : Graph := push g RpcQueue.EXIT

/-- `Graph::vhost_start`. -/
def vhost_start (g : Graph) : Graph := push g RpcQueue.VHOST_START

/-- `Graph::vhost_stop`. -/
def vhost_stop (g : Graph) : Graph := push g RpcQueue.VHOST_STOP

/-- `Graph::link`. -/
def link (g : Graph) (w e : BrickShrPtr) : Graph := push g (RpcQueue.LINK w e)

/-- `Graph::unlink`. -/
def unlink (g : Graph) (b : BrickShrPtr) : Graph := push g (RpcQueue.UNLINK b)

/-- `Graph::unlink_edge`. -/
def unlink_edge (g : Graph) (w e : BrickShrPtr) : Graph :=
  push g (RpcQueue.UNLINK_EDGE w e)

/-- `Graph::fw_reload`. -/
def fw_reload (g : Graph) (b : BrickShrPtr) : Graph := push g (RpcQueue.FW_RELOAD b)

/-- `Graph::fw_new`; `result` is what the library will return for this call. -/
def fw_new (g : Graph) (name : String) (west_max east_max : Nat) (flags : FwFlags)
    (result : BrickShrPtr) : Graph :=
  push g (RpcQueue.FW_NEW name west_max east_max flags result)

/-- `Graph::nothing_new`. -/
def nothing_new (g : Graph) : Graph := push g RpcQueue.NOTHING

/-- `Graph::brick_destroy`. -/
def brick_destroy (g : Graph) (b : BrickShrPtr) : Graph :=
  push g (RpcQueue.BRICK_DESTROY b)

/-- `Graph::add_vni`. -/
def add_vni (g : Graph) (vtep neighbor : BrickShrPtr) (vni : Nat) : Graph :=
  push g (RpcQueue.ADD_VNI vtep neighbor vni
    (if g.isVtep6_ = false then BuildMulticastIp4 vni else BuildMulticastIp6 vni))

/-- The inner loop of `update_poll` (lines 1198-1210) over the NICs of a VNI. -/
def update_poll_nics (max : Nat) : List (String × GraphNic) → RpcUpdatePoll →
    RpcUpdatePoll
  | [], p => p
  | n :: rest, p =>
    if p.size + 1 ≥ max then p
    else if n.2.enable = false then update_poll_nics max rest p
    else update_poll_nics max rest
      { size := p.size + 1, pollables := p.pollables ++ [n.2.vhost],
        firewalls := p.firewalls ++ [n.2.firewall] }

/-- The outer loop of `update_poll` (lines 1195-1211) over the VNIs. -/
def update_poll_vnis (max : Nat) : List (Nat × GraphVni) → RpcUpdatePoll →
    RpcUpdatePoll
  | [], p => p
  | v :: rest, p => update_poll_vnis max rest (update_poll_nics max v.2.nics p)

/-- The snapshot that `update_poll` builds. -/
def snapshot (a : App) (g : Graph) : RpcUpdatePoll :=
  update_poll_vnis a.GRAPH_VHOST_MAX_SIZE g.vnis_
    { size := 0, pollables := [], firewalls := [] }

/-- `Graph::update_poll`. -/
def update_poll (a : App) (g : Graph) : Graph :=
  push g (RpcQueue.UPDATE_POLL (snapshot a g))

/-- The effect on the library and on the poller of one dequeued command other
than `EXIT` (the `switch` of `PollerUpdate`).  Only the links and the snapshot
are tracked. -/
def PollerExec (g : Graph) : RpcQueue → Graph
  | RpcQueue.LINK w e => { g with links := pg_brick_link g.links w e }
  | RpcQueue.UNLINK b => { g with links := pg_brick_unlink g.links b }
  | RpcQueue.UNLINK_EDGE w e => { g with links := pg_brick_unlink_edge g.links w e }
  | RpcQueue.UPDATE_POLL p => { g with poll_list := some p }
  | _ => g

/-- The loop of `PollerUpdate` on the pending commands `q`. -/
def PollerUpdate_loop : List RpcQueue → Graph → Bool × Graph
  | [], g => (true, { g with queue_ := [] })
  | c :: rest, g =>
    if c = RpcQueue.EXIT then
      (false, { g with queue_ := rest, executed := g.executed ++ [c] })
    else PollerUpdate_loop rest (PollerExec { g with executed := g.executed ++ [c] } c)

/-- `Graph::PollerUpdate`. -/
def PollerUpdate (g : Graph) : Bool × Graph := PollerUpdate_loop g.queue_ g

/-- `Graph::WaitEmptyQueue`: it returns once the poller has emptied the queue,
and never when the poller stops on an `EXIT` before that. -/
def WaitEmptyQueue (g : Graph) : Option Graph :=
  let g := (PollerUpdate (nothing_new g)).2
  if g.queue_.length > 0 then none else some g

/-- Every command ever pushed, in order: those executed, then those pending. -/
def history (g : Graph) : List RpcQueue := g.executed ++ g.queue_

/-! ## Firewall update -/

/-- Modelled from the spec: `pg_firewall_rule_flush`, which is part of the
packetgraph library ("flush all rules"). -/
def pg_firewall_rule_flush (rules : List FwRule) (fw : BrickShrPtr) : List FwRule :=
  rules.filter (fun r => decide (r.firewall ≠ fw))

/-- `Graph::FwUpdate`; `in_ok` and `out_ok` tell whether the two calls of
`pg_firewall_rule_add` succeed. -/
def FwUpdate (a : App) (in_ok out_ok : Bool) (g : Graph) (nic : app.Nic) :
    Option Graph :=
  if g.started = false then some g
  else if nic.bypass_filtering then some g
  else
    match mapFind g.vnis_ nic.vni with
    | none => some g
    | some itvni =>
      match mapFind itvni.nics nic.id with
      | none => some g
      | some itnic =>
        let fw := itnic.firewall
        match FwUpdate_in_rules a nic with
        | none => none
        | some in_rules =>
          let out_rules := FwUpdate_out_rules nic
          let g := { g with fw_rules := pg_firewall_rule_flush g.fw_rules fw }
          if in_rules.length > 0 ∧ in_ok = false then some g
          else
            let g := if in_rules.length > 0 then
              { g with fw_rules := g.fw_rules ++
                  [{ firewall := fw, filter := in_rules, side := Side.PG_WEST_SIDE,
                     priority := 0 }] }
              else g
            if out_rules.length > 0 ∧ out_ok = false then some g
            else
              let g := if out_rules.length > 0 then
                { g with fw_rules := g.fw_rules ++
                    [{ firewall := fw, filter := out_rules, side := Side.PG_EAST_SIDE,
                       priority := 1 }] }
                else g
              some (fw_reload g fw)

/-! ## Adding and removing NICs -/

/-- The results of the library calls that `NicAdd` makes. -/
structure NicAddEnv where
  /-- result of `pg_firewall_new` -/
  firewall : BrickShrPtr
  /-- result of `pg_antispoof_new` -/
  antispoof : BrickShrPtr
  /-- result of `pg_vhost_new` or `pg_tap_new` -/
  vhost : BrickShrPtr
  /-- result of `pg_print_new` -/
  sniffer : BrickShrPtr
  /-- whether `pg_brick_link` succeeds at line 541 or 551 -/
  link_ok : Bool
  /-- whether the library call of `LinkAndStalk` succeeds -/
  stalk_ok : Bool
  /-- result of `pg_switch_new` -/
  sw : BrickShrPtr
  /-- whether `pg_brick_unlink_edge` succeeds at line 580 -/
  unlink_edge_ok : Bool
  /-- whether the inbound `pg_firewall_rule_add` of `FwUpdate` succeeds -/
  rule_in_ok : Bool
  /-- whether the outbound `pg_firewall_rule_add` of `FwUpdate` succeeds -/
  rule_out_ok : Bool
deriving DecidableEq, Repr

/-- `Graph::LinkAndStalk`; `ok` tells whether its library call succeeds. -/
def LinkAndStalk (a : App) (ok : Bool) (g : Graph)
    (westBrick eastBrick sniffer : BrickShrPtr) : Bool × Graph :=
  if a.packet_trace then
    if ok = false then (false, g)
    else (true, { g with links :=
      (pg_brick_chained_links g.links westBrick sniffer eastBrick) })
  else
    if ok = false then (false, g)
    else (true, { g with links := pg_brick_link g.links westBrick eastBrick })

/-- Lines 461-557 of `NicAdd`: the bricks of the branch and its head.  The
second component is `none` when `NicAdd` returns `false` there. -/
def NicAdd_branch (a : App) (env : NicAddEnv) (g : Graph) (nic : app.Nic) :
    Option (Graph × Option GraphNic) :=
  match WaitEmptyQueue (fw_new g ("firewall-" ++ nic.id) 1 1
      FwFlags.PG_NO_CONN_WORKER env.firewall) with
  | none => none
  | some g =>
    if env.firewall = none then some (g, none)
    else if env.antispoof = none then some (g, none)
    else if nic.type = app.NicType.OTHER then some (g, none)
    else if env.vhost = none then some (g, none)
    else if nic.packet_trace = true ∧ env.sniffer = none then some (g, none)
    else
      let gn : GraphNic :=
        { id := nic.id, enable := true, firewall := env.firewall,
          antispoof := env.antispoof, vhost := env.vhost,
          sniffer := if nic.packet_trace then env.sniffer else none,
          head := none,
          packet_trace_path := if nic.packet_trace then nic.packet_trace_path else "" }
      if nic.bypass_filtering then
        if nic.packet_trace then
          if env.link_ok = false then some (g, none)
          else some ({ g with links := pg_brick_link g.links gn.sniffer gn.vhost },
                     some { gn with head := gn.sniffer })
        else some (g, some { gn with head := gn.vhost })
      else
        if env.link_ok = false then some (g, none)
        else
          let g := { g with links := pg_brick_link g.links gn.firewall gn.antispoof }
          some ((LinkAndStalk a env.stalk_ok g gn.antispoof gn.vhost gn.sniffer).2,
                some { gn with head := gn.firewall })

/-- Lines 559-592 of `NicAdd`: the branch `gn` is attached to the VTEP or to
the switch of `vni`, the entry of `nic.vni`.  The second component is `none`
when `NicAdd` returns `false` there, and the updated entry otherwise. -/
def NicAdd_attach (env : NicAddEnv) (g : Graph) (nic : app.Nic) (vni : GraphVni)
    (gn : GraphNic) : Graph × Option GraphVni :=
  match vni.nics with
  | [] => (add_vni (link g g.vtep_ gn.head) g.vtep_ gn.head nic.vni, some vni)
  | [first] =>
    let vni := { vni with sw := env.sw }
    let g := { g with vnis_ := mapSet g.vnis_ nic.vni vni }
    if env.sw = none then (g, none)
    else
      let head1 := first.2.head
      if env.unlink_edge_ok = false then (g, none)
      else
        let g := { g with links := pg_brick_unlink_edge g.links g.vtep_ head1 }
        let g := link g g.vtep_ vni.sw
        let g := add_vni g g.vtep_ vni.sw nic.vni
        let g := link g vni.sw head1
        let g := link g vni.sw gn.head
        (g, some vni)
  | _ :: _ :: _ => (link g vni.sw gn.head, some vni)

/-- Lines 448-455 of `NicAdd`: the entry of `nic.vni` is created when `vnis_`
does not have it. -/
def NicAdd_vni (g : Graph) (nic : app.Nic) : Graph :=
  match mapFind g.vnis_ nic.vni with
  | none => { g with vnis_ :=
      (mapInsert natLt (nic.vni, { vni := nic.vni, sw := none, nics := [] }) g.vnis_) }
  | some _ => g

/-- `Graph::NicAdd`. -/
def NicAdd (a : App) (env : NicAddEnv) (g : Graph) (nic : app.Nic) :
    Option (Bool × Graph) :=
  if g.started = false then some (false, g)
  else
    let g := NicAdd_vni g nic
    match mapFind g.vnis_ nic.vni with
    | none => some (false, g)
    | some vni =>
      match NicAdd_branch a env g nic with
      | none => none
      | some (g, none) => some (false, g)
      | some (g, some gn) =>
        match NicAdd_attach env g nic vni gn with
        | (g, none) => some (false, g)
        | (g, some vni) =>
          let vni := { vni with nics := mapInsert strLt (nic.id, gn) vni.nics }
          let g := { g with vnis_ := mapSet g.vnis_ nic.vni vni }
          let g := update_poll a g
          match FwUpdate a env.rule_in_ok env.rule_out_ok g nic with
          | none => none
          | some g => some (true, g)

/-- `Graph::FindNic`; `none` is the `NULL` result. -/
def FindNic (g : Graph) (nic : app.Nic) : Option GraphNic :=
  match mapFind g.vnis_ nic.vni with
  | none => none
  | some vni => mapFind vni.nics nic.id

/-- `Graph::NicDel`. -/
def NicDel (a : App) (g : Graph) (nic : app.Nic) : Option Graph :=
  if g.started = false then some g
  else
    match mapFind g.vnis_ nic.vni with
    | none => some g
    | some vni =>
      match mapFind vni.nics nic.id with
      | none => some g
      | some n =>
        let n := { n with enable := false }
        let vni := { vni with nics := mapSet vni.nics nic.id n }
        let g := { g with vnis_ := mapSet g.vnis_ nic.vni vni }
        let g := update_poll a g
        let r : Option (Graph × GraphVni) :=
          match vni.nics with
          | [_] => some (unlink g n.head, vni)
          | [it, it2] =>
            let other := if it.2.id = nic.id then it2.2 else it.2
            let g := unlink g vni.sw
            let g := link g g.vtep_ other.head
            let g := add_vni g g.vtep_ other.head nic.vni
            match WaitEmptyQueue g with
            | none => none
            | some g =>
              let vni := { vni with sw := none }
              some ({ g with vnis_ := mapSet g.vnis_ nic.vni vni }, vni)
          | _ => some (unlink g n.head, vni)
        match r with
        | none => none
        | some (g, vni) =>
          let g := brick_destroy g n.firewall
          match WaitEmptyQueue g with
          | none => none
          | some g =>
            let vni := { vni with nics := mapErase vni.nics nic.id }
            let g := { g with vnis_ := mapSet g.vnis_ nic.vni vni }
            if vni.nics = [] then some { g with vnis_ := mapErase g.vnis_ vni.vni }
            else some g

/-! ## Packet trace -/

/-- Assignment through the pointer that `FindNic` returned for `(vni, id)`. -/
def setNic (g : Graph) (vni : Nat) (id : String) (gn : GraphNic) : Graph :=
  match mapFind g.vnis_ vni with
  | none => g
  | some v =>
    { g with vnis_ := mapSet g.vnis_ vni { v with nics := mapSet v.nics id gn } }

/-- `Graph::LinkSniffer`; `none` when the `NULL` result of `FindNic` is
dereferenced. -/
def LinkSniffer (g : Graph) (nic : app.Nic) (n_sniffer : BrickShrPtr) : Option Graph :=
  match FindNic g nic with
  | none => none
  | some g_nic =>
    if nic.bypass_filtering then
      let g := unlink g g_nic.vhost
      let g_nic := { g_nic with head := n_sniffer }
      let g := setNic g nic.vni nic.id g_nic
      let g := link g n_sniffer g_nic.vhost
      let g := link g g.vtep_ g_nic.head
      some (add_vni g g.vtep_ g_nic.head nic.vni)
    else
      let g := unlink_edge g g_nic.antispoof g_nic.vhost
      let g_nic := { g_nic with head := n_sniffer }
      let g := setNic g nic.vni nic.id g_nic
      let g := link g g_nic.antispoof n_sniffer
      some (link g n_sniffer g_nic.vhost)

/-- `Graph::EnablePacketTrace`; `sniffer` is the result of `pg_print_new`. -/
def EnablePacketTrace (sniffer : BrickShrPtr) (g : Graph) (nic : app.Nic) :
    Option Graph :=
  if nic.packet_trace then some g
  else
    match FindNic g nic with
    | none => none
    | some g_nic =>
      if g_nic.sniffer = none then
        let g_nic := { g_nic with sniffer := sniffer }
        let g := setNic g nic.vni nic.id g_nic
        if g_nic.sniffer = none then some g
        else LinkSniffer g nic g_nic.sniffer
      else LinkSniffer g nic g_nic.sniffer

/-- `Graph::DisablePacketTrace`. -/
def DisablePacketTrace (g : Graph) (nic : app.Nic) : Option Graph :=
  if nic.packet_trace = false then some g
  else
    match FindNic g nic with
    | none => none
    | some g_nic =>
      if g_nic.sniffer = none then some g
      else if nic.bypass_filtering then
        let g := unlink g g_nic.sniffer
        let g_nic := { g_nic with head := g_nic.vhost }
        let g := setNic g nic.vni nic.id g_nic
        let g := link g g.vtep_ g_nic.head
        some (add_vni g g.vtep_ g_nic.head nic.vni)
      else
        let g := unlink g g_nic.sniffer
        let g_nic := { g_nic with head := g_nic.antispoof }
        let g := setNic g nic.vni nic.id g_nic
        some (link g g_nic.antispoof g_nic.vhost)

/-- `Graph::NicConfigPacketTrace`. -/
def NicConfigPacketTrace (a : App) (sniffer : BrickShrPtr) (g : Graph)
    (nic : app.Nic) ( is_trace_set : Bool) : Option Graph :=
  match (if is_trace_set then EnablePacketTrace sniffer g nic
         else DisablePacketTrace g nic) with
  | none => none
  | some g => some (update_poll a g)

/-- `Graph::NicConfigPacketTracePath`; `n_sniffer` is the result of
`pg_print_new`. -/
def NicConfigPacketTracePath (a : App) (n_sniffer : BrickShrPtr) (g : Graph)
    (nic : app.Nic) (update_path : String) : Option Graph :=
  if nic.packet_trace_path = update_path then some g
  else
    match DisablePacketTrace g nic with
    | none => none
    | some g =>
      match FindNic g nic with
      | none => none
      | some _ =>
        if n_sniffer = none then some g
        else
          match LinkSniffer g nic n_sniffer with
          | none => none
          | some g => some (update_poll a g)

end Graph

/-! ## Definitions used to state the properties -/

namespace Graph

/-- The poller dequeues `c` and executes it. -/
def stepExec (g : Graph) (c : RpcQueue) : Graph :=
  PollerExec { g with executed := g.executed ++ [c] } c

/-- The poller dequeues and executes the commands `q`, in order. -/
def runAll (g : Graph) (q : List RpcQueue) : Graph := q.foldl stepExec g

/-- The graph once the poller has drained the queue. -/
def quiesce (g : Graph) : Graph := (PollerUpdate g).2

end Graph

namespace Graph

/-- The effect of one executed command on the links. -/
def execLinks (links : List (BrickShrPtr × BrickShrPtr)) :
    RpcQueue → List (BrickShrPtr × BrickShrPtr)
  | RpcQueue.LINK w e => pg_brick_link links w e
  | RpcQueue.UNLINK b => pg_brick_unlink links b
  | RpcQueue.UNLINK_EDGE w e => pg_brick_unlink_edge links w e
  | _ => links

/-- The NICs that the VNI `vni` holds; none when `vnis_` has no such entry. -/
def nicsOf (g : Graph) (vni : Nat) : List (String × GraphNic) :=
  match mapFind g.vnis_ vni with
  | none => []
  | some v => v.nics

/-- The switch handle of the VNI `vni`. -/
def switchOf (g : Graph) (vni : Nat) : BrickShrPtr :=
  match mapFind g.vnis_ vni with
  | none => none
  | some v => v.sw

/-- The head of the branch of `nic`, from its flags: the sniffer when filtering
is bypassed and the NIC is traced, the tail when filtering is bypassed and the
NIC is not traced, the firewall otherwise. -/
def branchHead (env : NicAddEnv) (nic : app.Nic) : BrickShrPtr :=
  if nic.bypass_filtering then
    if nic.packet_trace then env.sniffer else env.vhost
  else env.firewall

/-- The branch that a successful `NicAdd` stores for `nic`. -/
def branchNic (env : NicAddEnv) (nic : app.Nic) : GraphNic :=
  { id := nic.id, enable := true, firewall := env.firewall,
    antispoof := env.antispoof, vhost := env.vhost,
    sniffer := if nic.packet_trace then env.sniffer else none,
    head := branchHead env nic,
    packet_trace_path := if nic.packet_trace then nic.packet_trace_path else "" }

/-- The multicast address that `add_vni` puts in an `ADD_VNI` command. -/
def mcastOf (g : Graph) (vni : Nat) : List Nat :=
  if g.isVtep6_ = false then BuildMulticastIp4 vni else BuildMulticastIp6 vni

/-- The topology commands that a successful `NicAdd` enqueues, by cases on the
NICs already in the VNI: none, exactly one (the switch `env.sw` is new), two
or more. -/
def NicAdd_topology (env : NicAddEnv) (g : Graph) (nic : app.Nic) : List RpcQueue :=
  match nicsOf g nic.vni with
  | [] =>
    [RpcQueue.LINK g.vtep_ (branchHead env nic),
     RpcQueue.ADD_VNI g.vtep_ (branchHead env nic) nic.vni (mcastOf g nic.vni)]
  | [first] =>
    [RpcQueue.LINK g.vtep_ env.sw,
     RpcQueue.ADD_VNI g.vtep_ env.sw nic.vni (mcastOf g nic.vni),
     RpcQueue.LINK env.sw first.2.head,
     RpcQueue.LINK env.sw (branchHead env nic)]
  | _ :: _ :: _ => [RpcQueue.LINK (switchOf g nic.vni) (branchHead env nic)]

/-- The bricks that the library creates for one `NicAdd`. -/
def newBricks (env : NicAddEnv) : List BrickShrPtr :=
  [env.firewall, env.antispoof, env.vhost, env.sniffer, env.sw]

end Graph

namespace Graph

/-- A brick that exists and is not one of those created for this `NicAdd`. -/
def isOld (env : NicAddEnv) (p : BrickShrPtr) : Prop :=
  p ≠ none ∧ p ∉ newBricks env

end Graph

namespace Graph

/-- The entry of the VNI `vni` that `NicAdd` works on: the one `vnis_` has, or
the empty one it creates. -/
def entryOf (g : Graph) (vni : Nat) : GraphVni :=
  match mapFind g.vnis_ vni with
  | none => { vni := vni, sw := none, nics := [] }
  | some v => v

/-- The entry of `nic.vni` after a successful `NicAdd`: the branch is inserted,
and the switch handle is `env.sw` when the entry held exactly one NIC. -/
def NicAdd_entry (env : NicAddEnv) (g : Graph) (nic : app.Nic) : GraphVni :=
  { vni := (entryOf g nic.vni).vni,
    sw := (match (entryOf g nic.vni).nics with
      | [_] => env.sw
      | _ => (entryOf g nic.vni).sw),
    nics := mapInsert strLt (nic.id, branchNic env nic) (entryOf g nic.vni).nics }

/-- The map `vnis_` after a successful `NicAdd`. -/
def NicAdd_vnis (env : NicAddEnv) (g : Graph) (nic : app.Nic) : List (Nat × GraphVni) :=
  mapSet (NicAdd_vni g nic).vnis_ nic.vni (NicAdd_entry env g nic)

/-- The links after a successful `NicAdd`, given the links `links` present once
the branch is built: the edge from the VTEP to the head of the only NIC is
removed when the VNI held exactly one NIC. -/
def NicAdd_links (g : Graph) (nic : app.Nic) (links : List (BrickShrPtr × BrickShrPtr)) :
    List (BrickShrPtr × BrickShrPtr) :=
  match (entryOf g nic.vni).nics with
  | [first] => pg_brick_unlink_edge links g.vtep_ first.2.head
  | _ => links

end Graph

namespace Graph

/-- The topology commands that `NicDel` enqueues for the NIC `nic`, whose
branch is `n`, in the entry `vni`: lines 664-686. -/
def NicDel_cmds (g : Graph) (vni : GraphVni) (n : GraphNic) (nic : app.Nic) :
    List RpcQueue :=
  match vni.nics with
  | [it, it2] =>
    [RpcQueue.UNLINK vni.sw,
     RpcQueue.LINK g.vtep_ (if it.2.id = nic.id then it2.2 else it.2).head,
     RpcQueue.ADD_VNI g.vtep_ (if it.2.id = nic.id then it2.2 else it.2).head nic.vni
       (mcastOf g nic.vni),
     RpcQueue.NOTHING]
  | _ => [RpcQueue.UNLINK n.head]

/-- The entry `vni` once `NicDel` has removed the NIC `nic` from it. -/
def NicDel_entry (vni : GraphVni) (nic : app.Nic) : GraphVni :=
  { vni := vni.vni,
    sw := if vni.nics.length = 2 then none else vni.sw,
    nics := mapErase vni.nics nic.id }

/-- The map `vnis_` after `NicDel` of the NIC `nic` held by the entry `vni`. -/
def NicDel_vnis (g : Graph) (vni : GraphVni) (nic : app.Nic) : List (Nat × GraphVni) :=
  if (NicDel_entry vni nic).nics = [] then
    mapErase (mapSet g.vnis_ nic.vni (NicDel_entry vni nic)) vni.vni
  else mapSet g.vnis_ nic.vni (NicDel_entry vni nic)

end Graph

namespace Graph

/-- The map `vnis_` once `NicDel` has cleared `enable` in the branch `n` of the
NIC `nic`, held by the entry `vni` (lines 660-661). -/
def NicDel_disabled (g : Graph) (vni : GraphVni) (n : GraphNic) (nic : app.Nic) :
    List (Nat × GraphVni) :=
  mapSet g.vnis_ nic.vni
    { vni with nics := mapSet vni.nics nic.id { n with enable := false } }

end Graph

namespace Graph

/-- A started graph: `Start` has returned `true` and `Stop` has not been called,
so that the poller runs and no `EXIT` is pending. -/
def Started (g : Graph) : Prop :=
  g.started = true ∧ RpcQueue.EXIT ∉ g.queue_

/-- The two maps represent `std::map`s filled by `NicAdd`: keys are unique, a
VNI entry is keyed by its `vni` and a NIC entry by its `id`. -/
def WF (g : Graph) : Prop :=
  (g.vnis_.map Prod.fst).Nodup ∧
  ∀ p ∈ g.vnis_, p.2.vni = p.1 ∧ (p.2.nics.map Prod.fst).Nodup ∧
    ∀ q ∈ p.2.nics, q.2.id = q.1

/-- The head of the NIC of `vni` other than `id`: that of the first entry whose
key is not `id`. -/
def otherHead (vni : GraphVni) (id : String) : BrickShrPtr :=
  match vni.nics.filter (fun p => decide (p.1 ≠ id)) with
  | [] => none
  | p :: _ => p.2.head

/-- The topology commands of `NicDel`, by cases on the number of NICs that the
VNI holds before the removal: exactly two, or any other number. -/
def NicDel_topology (g : Graph) (vni : GraphVni) (n : GraphNic) (nic : app.Nic) :
    List RpcQueue :=
  if vni.nics.length = 2 then
    [RpcQueue.UNLINK vni.sw,
     RpcQueue.LINK g.vtep_ (otherHead vni nic.id),
     RpcQueue.ADD_VNI g.vtep_ (otherHead vni nic.id) nic.vni (mcastOf g nic.vni),
     RpcQueue.NOTHING]
  else [RpcQueue.UNLINK n.head]

/-- The invariant of the data model: a VNI entry has its switch handle set if
and only if it holds at least two NICs. -/
def SwitchInv (g : Graph) : Prop :=
  ∀ p ∈ g.vnis_, (p.2.sw ≠ none ↔ 2 ≤ p.2.nics.length)

instance (g : Graph) : Decidable (SwitchInv g) := by
  unfold SwitchInv; infer_instance

/-- The topology of the spec: a VNI with at least two NICs has a switch, linked
to the VTEP and to the head of each of its NICs; a VNI with exactly one NIC has
no switch and the VTEP is linked to the head of that NIC. -/
def LinkInv (g : Graph) : Prop :=
  ∀ p ∈ g.vnis_,
    (2 ≤ p.2.nics.length → p.2.sw ≠ none ∧ (g.vtep_, p.2.sw) ∈ g.links ∧
      ∀ q ∈ p.2.nics, (p.2.sw, q.2.head) ∈ g.links) ∧
    (p.2.nics.length = 1 → p.2.sw = none ∧
      ∀ q ∈ p.2.nics, (g.vtep_, q.2.head) ∈ g.links)

set_option synthInstance.maxSize 512 in
instance (g : Graph) : Decidable (LinkInv g) := by
  unfold LinkInv; infer_instance

/-- The invariants of the data model at a quiescent point: every VNI entry is
keyed by its `vni`, holds at least one NIC, keys its NICs by their `id`, has
its switch handle set if and only if it holds at least two NICs, and, when it
holds exactly one NIC, the VTEP is linked to the head of that NIC once the
queue is drained. -/
def Consistent (g : Graph) : Prop :=
  ∀ p ∈ g.vnis_, p.2.vni = p.1 ∧ p.2.nics ≠ [] ∧ (∀ q ∈ p.2.nics, q.2.id = q.1) ∧
    (p.2.sw ≠ none ↔ 2 ≤ p.2.nics.length) ∧
    ∀ first ∈ p.2.nics, p.2.nics.length = 1 →
      (g.vtep_, first.2.head) ∈ (quiesce g).links

set_option synthInstance.maxSize 512 in
instance (g : Graph) : Decidable (Consistent g) := by
  unfold Consistent; infer_instance

/-- Whether a command is an `UNLINK_EDGE`. -/
def isUnlinkEdge : RpcQueue → Bool
  | RpcQueue.UNLINK_EDGE _ _ => true
  | _ => false

end Graph

/-! ## A concrete scenario

A graph as `Start` leaves it (uplink brick 0 linked to the VTEP brick 1, IPv4
VTEP, no global packet trace), one security group with one rule, and two NICs
of VNI 42. -/

namespace Scenario

/-- The rule `{INBOUND, TCP, 10.0.0.0/24, ports 80..80}`. -/
def rule80 : app.Rule :=
  { direction := app.Direction.INBOUND, protocol := 6, port_start := 80, port_end := 80,
    cidr := { address := { Type_ := app.IpType.V4, Str := "10.0.0.0" }, mask_size := 24 },
    security_group := "" }

/-- A security group with one member and the rule `rule80`. -/
def sg1 : app.Sg :=
  { id := "sg1", members := [{ Type_ := app.IpType.V4, Str := "10.0.0.1" }],
    rules := [("r1", rule80)] }

/-- A security group with no member and no rule. -/
def sgEmpty : app.Sg := { id := "sg2", members := [], rules := [] }

/-- The globals: no global packet trace, the two groups, eight snapshot slots. -/
def globals : App :=
  { packet_trace := false, security_groups := [("sg1", sg1), ("sg2", sgEmpty)],
    GRAPH_VHOST_MAX_SIZE := 8 }

/-- The graph after `Start`. -/
def g0 : Graph :=
  { started := true, vnis_ := [], nic_ := some 0, vtep_ := some 1, sniffer_ := none,
    isVtep6_ := false, queue_ := [], links := [(some 0, some 1)], fw_rules := [],
    poll_list := none, executed := [] }

/-- The NIC `n1` of VNI 42: filtered, not traced. -/
def n1 : app.Nic :=
  { id := "n1", vni := 42, type := app.NicType.VHOST_USER_SERVER,
    ip_list := [{ Type_ := app.IpType.V4, Str := "192.0.2.5" }],
    security_groups := ["sg1"], ip_anti_spoof := false, bypass_filtering := false,
    packet_trace := false, packet_trace_path := "" }

/-- The NIC `n2` of VNI 42: filtered, not traced. -/
def n2 : app.Nic :=
  { id := "n2", vni := 42, type := app.NicType.VHOST_USER_SERVER,
    ip_list := [{ Type_ := app.IpType.V4, Str := "192.0.2.6" }],
    security_groups := ["sg1"], ip_anti_spoof := false, bypass_filtering := false,
    packet_trace := false, packet_trace_path := "" }

/-- The library answers for the first `NicAdd`: bricks 10 to 14, no failure. -/
def env1 : Graph.NicAddEnv :=
  { firewall := some 10, antispoof := some 11, vhost := some 12, sniffer := some 13,
    link_ok := true, stalk_ok := true, sw := some 14, unlink_edge_ok := true,
    rule_in_ok := true, rule_out_ok := true }

/-- The library answers for the second `NicAdd`: bricks 20 to 24, no failure. -/
def env2 : Graph.NicAddEnv :=
  { firewall := some 20, antispoof := some 21, vhost := some 22, sniffer := some 23,
    link_ok := true, stalk_ok := true, sw := some 24, unlink_edge_ok := true,
    rule_in_ok := true, rule_out_ok := true }

/-- The library answers of `env2`, except that `pg_brick_unlink_edge` fails. -/
def env2UnlinkFails : Graph.NicAddEnv := { env2 with unlink_edge_ok := false }

/-- The library answers of `env1`, except that `pg_firewall_new` fails. -/
def env1NoFirewall : Graph.NicAddEnv := { env1 with firewall := none }

/-- The graph that an operation returns, `g` when it does not return. -/
def after (g : Graph) (r : Option (Bool × Graph)) : Graph :=
  match r with
  | some (_, g') => g'
  | none => g

/-- The graph after `NicAdd(n1)`. -/
def g1 : Graph := after g0 (Graph.NicAdd globals env1 g0 n1)

/-- The graph after `NicAdd(n1); NicAdd(n2)`. -/
def g2 : Graph := after g1 (Graph.NicAdd globals env2 g1 n2)

/-- The branch of `n1` in `g1` and `g2`. -/
def gn1 : GraphNic :=
  { id := "n1", enable := true, firewall := some 10, antispoof := some 11,
    vhost := some 12, sniffer := none, head := some 10, packet_trace_path := "" }

/-- The branch of `n2` in `g2`. -/
def gn2 : GraphNic :=
  { id := "n2", enable := true, firewall := some 20, antispoof := some 21,
    vhost := some 22, sniffer := none, head := some 20, packet_trace_path := "" }

end Scenario

namespace Scenario

/-- The entry of VNI 42 holding only `n1`, with the switch handle `sw`. -/
def vni42One (sw : BrickShrPtr) : GraphVni :=
  { vni := 42, sw := sw, nics := [("n1", gn1)] }

/-- The graph after `NicAdd(n1); NicAdd(n1)`: the same id is added twice. -/
def g1Twice : Graph := after g1 (Graph.NicAdd globals env2 g1 n1)

/-- The graph after `NicAdd(n1); NicAdd(n2)` when `pg_brick_unlink_edge` fails
in the second call. -/
def g1UnlinkFails : Graph := after g1 (Graph.NicAdd globals env2UnlinkFails g1 n2)

/-- The graph that an operation without result returns, `g` when it does not
return. -/
def afterVoid (g : Graph) (r : Option Graph) : Graph :=
  match r with
  | some g' => g'
  | none => g

/-- The graph after `NicAdd(n1); NicConfigPacketTrace(n1, true)`, the library
creating the sniffer brick 15. -/
def g1Traced : Graph :=
  afterVoid g1 (Graph.NicConfigPacketTrace globals (some 15) g1 n1 true)

/-- The branch of `n1` once `NicConfigPacketTrace(n1, true)` has returned. -/
def gn1Traced : GraphNic :=
  { id := "n1", enable := true, firewall := some 10, antispoof := some 11,
    vhost := some 12, sniffer := some 15, head := some 15, packet_trace_path := "" }

/-- The graph after a `NicAdd(n1)` in which `pg_firewall_new` fails. -/
def gEmptyVni : Graph := after g0 (Graph.NicAdd globals env1NoFirewall g0 n1)

/-- The graph after `NicAdd(n2)` on `gEmptyVni`. -/
def gEmptyVniAdd : Graph := after gEmptyVni (Graph.NicAdd globals env2 gEmptyVni n2)

/-- A security group whose only rule is `OUTBOUND`. -/
def sgOutbound : app.Sg :=
  { id := "sg3", members := [],
    rules := [("r1", { rule80 with direction := app.Direction.OUTBOUND })] }

/-- The NIC `n1` without any security group. -/
def n1NoSg : app.Nic := { n1 with security_groups := [] }

/-- The NIC `n1` referencing `sg1` and then the empty group `sg2`. -/
def n1LastEmpty : app.Nic := { n1 with security_groups := ["sg1", "sg2"] }

end Scenario

namespace Scenario

/-- The entry of VNI 42 in `g2`: the switch 24 and the two NICs. -/
def vni42Two : GraphVni :=
  { vni := 42, sw := some 24, nics := [("n1", gn1), ("n2", gn2)] }

end Scenario

namespace Graph

/-- The parenthesised non-empty strings that `FwBuildRule` yields for the
rules `rules`, in rule order. -/
def compiledRules (a : App) (rules : List (String × app.Rule)) : List String :=
  ((rules.map (fun p => FwBuildRule a p.2)).filter (fun s => decide (s.length ≠ 0))).map
    (fun s => "(" ++ s ++ ")")

end Graph

namespace Graph

/-- The security groups of the model that the ids `ids` reference, in order. -/
def knownGroups (a : App) (ids : List String) : List app.Sg :=
  ids.filterMap (fun id => mapFind a.security_groups id)

/-- The parenthesised rule strings of the groups that `ids` reference. -/
def compiledGroups (a : App) (ids : List String) : List String :=
  (knownGroups a ids).map
    (fun sg => "(" ++ joinWith "||" (compiledRules a sg.rules) ++ ")")

end Graph

/-! ## Byte order of the IPv6 multicast address -/

/-- `BuildMulticastIp6` (lines 51-56) on a host on which the `uint32_t` `vni`
has the bytes `b` in memory: `multicast_ip[15 - i] = b[i]`. -/
def BuildMulticastIp6_mem (b : List Nat) : List Nat :=
  let z : List Nat := List.replicate 16 0
  let z := z.set 0 255
  let z := z.set 15 (b.getD 0 0)
  let z := z.set 14 (b.getD 1 0)
  let z := z.set 13 (b.getD 2 0)
  z.set 12 (b.getD 3 0)

/-! ## The MTU of the uplink -/

namespace Graph

/-- The uplink as `SetConfigMtu` drives it: the arguments of the calls of
`pg_nic_set_mtu`, in order, and the MTU installed by these calls (`none`: the
device still has the MTU it had before). -/
structure MtuState where
  calls : List Int
  mtu : Option Int
deriving DecidableEq, Repr

/-- Modelled from the spec: `pg_nic_set_mtu`, which is part of the packetgraph
library.  `set_mtu m` tells whether the device accepts the value `m`; a value
that is refused leaves the MTU as it was. -/
def pg_nic_set_mtu (set_mtu : Int → Bool) (s : MtuState) (m : Int) : Bool × MtuState :=
  if set_mtu m then (true, { calls := s.calls ++ [m], mtu := some m })
  else (false, { s with calls := s.calls ++ [m] })

/-- The search loop of `SetConfigMtu` (lines 230-238), for at most `fuel`
evaluations of its condition; `none` when the loop has not ended by then.  The
result is the final `(min, max)` and the state of the uplink. -/
def SetConfigMtu_loop (set_mtu : Int → Bool) :
    Nat → Int → Int → MtuState → Option (Int × Int × MtuState)
  | 0, _, _, _ => none
  | fuel + 1, min, max, s =>
    if min ≠ max - 1 then
      let m := Int.tdiv (min + max) 2
      let r := pg_nic_set_mtu set_mtu s m
      if r.1 = false then SetConfigMtu_loop set_mtu fuel min m r.2
      else SetConfigMtu_loop set_mtu fuel m max r.2
    else some (min, max, s)

/-- `Graph::SetConfigMtu`, as far as it writes to the uplink (the final
`pg_nic_get_mtu` and the log are left out).  `nic_mtu` is
`app::config.nic_mtu` and `stoi` is `std::stoi`, `none` when it throws. -/
def SetConfigMtu (nic_mtu : String) (stoi : String → Option Int) (set_mtu : Int → Bool)
    (fuel : Nat) (s : MtuState) : Option MtuState :=
  if nic_mtu.length = 0 then some s
  else if nic_mtu = "max" then
    match SetConfigMtu_loop set_mtu fuel 1400 65536 s with
    | none => none
    | some (min, _, s) => some (pg_nic_set_mtu set_mtu s min).2
  else
    match stoi nic_mtu with
    | none => some s
    | some mtu =>
      if mtu > 0 then some (pg_nic_set_mtu set_mtu s mtu).2
      else some s

end Graph

/-! ## More of the concrete scenario -/

namespace Scenario

/-- A security group with two members. -/
def sgTwo : app.Sg :=
  { id := "sg4",
    members := [{ Type_ := app.IpType.V4, Str := "10.0.0.1" },
                { Type_ := app.IpType.V4, Str := "10.0.0.2" }],
    rules := [] }

/-- The globals of the scenario, with the group `sgTwo` added. -/
def globalsTwo : App :=
  { globals with security_groups := [("sg1", sg1), ("sg2", sgEmpty), ("sg4", sgTwo)] }

/-- An `INBOUND` rule for any protocol whose source is the group `sgTwo`. -/
def ruleSg : app.Rule := { rule80 with protocol := -1, security_group := "sg4" }

end Scenario

namespace Scenario

/-- The NIC `nb`, of VNI 42: filtering bypassed, traced. -/
def nB : app.Nic :=
  { n1 with id := "nb", bypass_filtering := true, packet_trace := true,
            packet_trace_path := "/tmp/nb.pcap" }

/-- The graph after `NicAdd(nb)`. -/
def gB : Graph := after g0 (Graph.NicAdd globals env1 g0 nB)

/-- The NIC `n1` with its own `packet_trace` flag set. -/
def n1Trace : app.Nic := { n1 with packet_trace := true, packet_trace_path := "/tmp/n1.pcap" }

/-- The globals of the scenario with the global packet trace switched on. -/
def globalsTrace : App := { globals with packet_trace := true }

/-- The graph after `NicAdd(n1Trace)`, the global packet trace being off. -/
def g1T : Graph := after g0 (Graph.NicAdd globals env1 g0 n1Trace)

/-- The graph after `NicAdd(n1)`, the global packet trace being on. -/
def g1G : Graph := after g0 (Graph.NicAdd globalsTrace env1 g0 n1)

end Scenario

namespace Scenario

/-- The library answers of `env1`, except that the call of `LinkAndStalk`
fails. -/
def env1StalkFails : Graph.NicAddEnv := { env1 with stalk_ok := false }

/-- The NIC `n1` as the caller holds it before tracing is enabled. -/
def n1Off : app.Nic := { n1 with packet_trace_path := "/tmp/n1.pcap" }

/-- The graph after `NicAdd(n1); NicConfigPacketTrace(n1, true)`, the library
creating the sniffer brick 15. -/
def g1On : Graph :=
  afterVoid g1 (Graph.NicConfigPacketTrace globals (some 15) g1 n1Off true)

/-- The graph after `NicAdd(n1); NicConfigPacketTrace(n1, true);
NicConfigPacketTrace(n1, false)`, the caller's flag being set at the last
call. -/
def g1OnOff : Graph :=
  afterVoid g1On (Graph.NicConfigPacketTrace globals none g1On n1Trace false)

/-- The NIC `b1` of VNI 42: filtering bypassed, not traced. -/
def nb1 : app.Nic :=
  { n1 with id := "b1", bypass_filtering := true, packet_trace_path := "/tmp/b1.pcap" }

/-- The NIC `b2` of VNI 42: filtering bypassed, not traced. -/
def nb2 : app.Nic := { n2 with id := "b2", bypass_filtering := true }

/-- The NIC `b1` as the caller holds it once tracing is enabled. -/
def nb1Trace : app.Nic := { nb1 with packet_trace := true }

/-- The graph after `NicAdd(b1)`. -/
def gb1 : Graph := after g0 (Graph.NicAdd globals env1 g0 nb1)

/-- The graph after `NicAdd(b1); NicConfigPacketTrace(b1, true);
NicConfigPacketTrace(b1, false)`. -/
def gb1OnOff : Graph :=
  afterVoid (afterVoid gb1 (Graph.NicConfigPacketTrace globals (some 15) gb1 nb1 true))
    (Graph.NicConfigPacketTrace globals none
      (afterVoid gb1 (Graph.NicConfigPacketTrace globals (some 15) gb1 nb1 true))
      nb1Trace false)

/-- The graph after `NicAdd(b1); NicAdd(b2)`: VNI 42 has the switch 24. -/
def gb2 : Graph := after gb1 (Graph.NicAdd globals env2 gb1 nb2)

/-- The graph after `NicAdd(b1); NicAdd(b2); NicConfigPacketTrace(b1, true);
NicConfigPacketTrace(b1, false)`. -/
def gb2OnOff : Graph :=
  afterVoid (afterVoid gb2 (Graph.NicConfigPacketTrace globals (some 15) gb2 nb1 true))
    (Graph.NicConfigPacketTrace globals none
      (afterVoid gb2 (Graph.NicConfigPacketTrace globals (some 15) gb2 nb1 true))
      nb1Trace false)

end Scenario

/-! ## The probes of the MTU search -/

namespace Graph

/-- Whether the probes `ms` of a search started on the bounds `(min, max)` lie
each strictly between the bounds that are current when the probe is made: a
value that the device accepts becomes the low bound, a value that it refuses
the high bound. -/
def probesBetween (set_mtu : Int → Bool) : Int → Int → List Int → Bool
  | _, _, [] => true
  | min, max, m :: rest =>
    decide (min < m) && decide (m < max) &&
      (if set_mtu m then probesBetween set_mtu m max rest
       else probesBetween set_mtu min m rest)

end Graph

/-! ## The NICs that a snapshot lists -/

namespace Graph

/-- The NIC entries of `vnis`, in the order in which `update_poll` visits them,
each with the key of its VNI entry and its own key. -/
def allEntries : List (Nat × GraphVni) → List (Nat × String × GraphNic)
  | [] => []
  | v :: rest => v.2.nics.map (fun q => (v.1, q.1, q.2)) ++ allEntries rest

/-- The NIC entries of `vnis` whose branch has `enable = true`. -/
def enabledEntries (vnis : List (Nat × GraphVni)) : List (Nat × String × GraphNic) :=
  (allEntries vnis).filter (fun e => e.2.2.enable)

/-- The snapshot `p` with the tail and the firewall of the entries `E` added. -/
def pollOf (p : RpcUpdatePoll) (E : List (Nat × String × GraphNic)) : RpcUpdatePoll :=
  { size := p.size + E.length,
    pollables := p.pollables ++ E.map (fun e => e.2.2.vhost),
    firewalls := p.firewalls ++ E.map (fun e => e.2.2.firewall) }

/-- The NIC entries that the snapshot of `update_poll` lists: the first
`GRAPH_VHOST_MAX_SIZE - 1` enabled ones. -/
def snapshotEntries (a : App) (g : Graph) : List (Nat × String × GraphNic) :=
  (enabledEntries g.vnis_).take (a.GRAPH_VHOST_MAX_SIZE - 1)

end Graph

namespace Graph

/-- Whether a command is an `UPDATE_POLL`. -/
def isUpdatePoll : RpcQueue → Bool
  | RpcQueue.UPDATE_POLL _ => true
  | _ => false

end Graph

namespace Scenario

/-- The globals of the scenario with two snapshot slots only. -/
def globalsCap2 : App := { globals with GRAPH_VHOST_MAX_SIZE := 2 }

end Scenario

/-! ## The drain of the queue when library calls fail -/

namespace Graph

/-- The effect of one dequeued command other than `EXIT` when the library call
made for it may fail: `fails c` tells whether the call made for `c` fails.
`PollerUpdate` logs the error and goes on with the next command; in this
embedding a call that fails leaves the links as they were.  `UPDATE_POLL`
makes no library call. -/
def PollerExecOr (fails : RpcQueue → Bool) (g : Graph) (c : RpcQueue) : Graph :=
  match c with
  | RpcQueue.UPDATE_POLL _ => PollerExec g c
  | _ => if fails c then g else PollerExec g c

/-- The loop of `PollerUpdate` on the pending commands `q`, library calls
failing as `fails` tells. -/
def PollerUpdate_loopOr (fails : RpcQueue → Bool) : List RpcQueue → Graph → Bool × Graph
  | [], g => (true, { g with queue_ := [] })
  | c :: rest, g =>
    if c = RpcQueue.EXIT then
      (false, { g with queue_ := rest, executed := g.executed ++ [c] })
    else PollerUpdate_loopOr fails rest
      (PollerExecOr fails { g with executed := g.executed ++ [c] } c)

/-- `Graph::PollerUpdate`, library calls failing as `fails` tells. -/
def PollerUpdateOr (fails : RpcQueue → Bool) (g : Graph) : Bool × Graph :=
  PollerUpdate_loopOr fails g.queue_ g

/-- The poller dequeues `c` and executes it, the library call failing as
`fails` tells. -/
def stepExecOr (fails : RpcQueue → Bool) (g : Graph) (c : RpcQueue) : Graph :=
  PollerExecOr fails { g with executed := g.executed ++ [c] } c

/-- The poller dequeues and executes the commands `q`, in order. -/
def runAllOr (fails : RpcQueue → Bool) (g : Graph) (q : List RpcQueue) : Graph :=
  q.foldl (stepExecOr fails) g

end Graph

/-! ## Start and stop -/

namespace Graph

/-- The constructor `Graph::Graph`: an empty queue, `started = false`, no VNI
and empty handles (`isVtep6_`, which the constructor leaves uninitialised, is
taken as `false`). -/
def Graph_ctor : Graph :=
  { started := false, vnis_ := [], nic_ := none, vtep_ := none, sniffer_ := none,
    isVtep6_ := false, queue_ := [], links := [], fw_rules := [], poll_list := none,
    executed := [] }

/-- The results of the library calls that `Start` makes, and the setting
`app::config.dpdk_port`. -/
structure StartEnv where
  /-- result of `app::PgStart` -/
  pg_start : Bool
  /-- `app::config.dpdk_port` -/
  dpdk_port : Int
  /-- result of `pg_nic_new_by_id` -/
  nic : BrickShrPtr
  /-- result of `pg_tap_new` -/
  tap : BrickShrPtr
  /-- whether `pg_tap_get_mac` succeeds -/
  tap_mac_ok : Bool
  /-- result of `pg_print_new` -/
  sniffer : BrickShrPtr
  /-- result of `pg_vtep_new_by_string` -/
  vtep : BrickShrPtr
  /-- whether `pg_brick_type` of the VTEP is `"vtep6"` -/
  vtep6 : Bool
  /-- whether the library call of `LinkAndStalk` succeeds -/
  stalk_ok : Bool
deriving DecidableEq, Repr

/-- Lines 147-170 of `Start`: the uplink brick, a DPDK port or else a tap
interface.  The first component is `false` when `Start` returns `false`
there.  (`SetConfigMtu`, called for a DPDK port, acts on the device only.) -/
def Start_nic (env : StartEnv) (g : Graph) : Bool × Graph :=
  let g := { g with nic_ := env.nic }
  if g.nic_ = none then
    let g := { g with nic_ := env.tap }
    if g.nic_ = none then (false, g)
    else if env.tap_mac_ok = false then (false, g)
    else (true, g)
  else (true, g)

/-- Lines 185-198 of `Start`: the main sniffer, created when the global packet
trace is on.  The first component is `false` when `Start` returns `false`
there. -/
def Start_sniffer (a : App) (env : StartEnv) (g : Graph) : Bool × Graph :=
  if a.packet_trace then
    let g := { g with sniffer_ := env.sniffer }
    if g.sniffer_ = none then (false, g) else (true, g)
  else (true, g)

/-- `Graph::Start`.  Line 206 applies `pg_brick_type` to the VTEP handle before
the `NULL` test of line 207: with a `NULL` handle `Start` does not return
normally (`none`). -/
def Start (a : App) (env : StartEnv) (g : Graph) : Option (Bool × Graph) :=
  if env.pg_start = false then some (false, g)
  else
    let g := vhost_start g
    if env.dpdk_port < 0 then some (false, g)
    else
      match Start_nic env g with
      | (false, g) => some (false, g)
      | (true, g) =>
        match Start_sniffer a env g with
        | (false, g) => some (false, g)
        | (true, g) =>
          let g := { g with vtep_ := env.vtep }
          if g.vtep_ = none then none
          else
            let g := { g with isVtep6_ := env.vtep6 }
            let g := (LinkAndStalk a env.stalk_ok g g.nic_ g.vtep_ g.sniffer_).2
            some (true, { g with started := true })

/-- The loop of `Stop` over `app::model.nics` (lines 98-102). -/
def Stop_nics (a : App) : List app.Nic → Graph → Option Graph
  | [], g => some g
  | n :: rest, g =>
    match NicDel a g n with
    | none => none
    | some g => Stop_nics a rest g

/-- `Graph::Stop`; `nics` are the NICs of `app::model.nics`, in key order.
`pthread_join` returns when the poller has left its loop, that is when
`PollerUpdate` has returned `false`; the commands still in the queue are then
freed without being executed (lines 112-116). -/
def Stop (a : App) (nics : List app.Nic) (g : Graph) : Option Graph :=
  if g.started = false then some g
  else
    match Stop_nics a nics g with
    | none => none
    | some g =>
      let g := vhost_stop g
      let g := exit g
      let r := PollerUpdate g
      if r.1 = true then none
      else
        let g := { r.2 with queue_ := [] }
        some { g with vnis_ := [], started := false }

/-- A call of one of the operations that change the graph. -/
inductive Op where
  | Start (env : StartEnv)
  | Stop (nics : List app.Nic)
  | NicAdd (env : NicAddEnv) (nic : app.Nic)
  | NicDel (nic : app.Nic)

/-- The graph after the call `op`; `none` when the call does not return. -/
def applyOp (a : App) (g : Graph) : Op → Option Graph
  | Op.Start env => (Start a env g).map Prod.snd
  | Op.Stop nics => Stop a nics g
  | Op.NicAdd env nic => (NicAdd a env g nic).map Prod.snd
  | Op.NicDel nic => NicDel a g nic

/-- The graph after the calls `ops`, made in order. -/
def runOps (a : App) : List Op → Graph → Option Graph
  | [], g => some g
  | op :: rest, g =>
    match applyOp a g op with
    | none => none
    | some g => runOps a rest g

end Graph

namespace Scenario

/-- The library answers for `Start`: the DPDK port 0 gives the uplink brick 0,
the VTEP is the brick 1, an IPv4 one, and nothing fails. -/
def startEnv : Graph.StartEnv :=
  { pg_start := true, dpdk_port := 0, nic := some 0, tap := none, tap_mac_ok := true,
    sniffer := none, vtep := some 1, vtep6 := false, stalk_ok := true }

/-- The calls `Start; NicAdd(n1); NicAdd(n2); NicDel(n2); Stop` (with `n1` in
`app::model.nics`). -/
def opsStop : List Graph.Op :=
  [Graph.Op.Start startEnv, Graph.Op.NicAdd env1 n1, Graph.Op.NicAdd env2 n2,
   Graph.Op.NicDel n2, Graph.Op.Stop [n1]]

/-- The graph after the calls `opsStop` on a new graph. -/
def gStopped : Graph := afterVoid Graph.Graph_ctor (Graph.runOps globals opsStop Graph.Graph_ctor)

/-- The graph `g0` with three pending commands, the second one being `EXIT`. -/
def gExit : Graph :=
  { g0 with queue_ := [RpcQueue.LINK (some 1) (some 10), RpcQueue.EXIT,
                       RpcQueue.UNLINK (some 10)] }

/-- Library calls fail for every `LINK`. -/
def failLink : RpcQueue → Bool
  | RpcQueue.LINK _ _ => true
  | _ => false

end Scenario

/-! ## The effect of a drain, stated on the commands -/

namespace Graph

/-- The effect on the links of one executed command whose library call may
fail: `fails c` tells whether the call made for `c` fails, and a call that
fails leaves the links as they were. -/
def execLinksOr (fails : RpcQueue → Bool) (links : List (BrickShrPtr × BrickShrPtr))
    (c : RpcQueue) : List (BrickShrPtr × BrickShrPtr) :=
  if fails c then links else execLinks links c

/-- The snapshot that the poller holds once it has executed the commands `q`,
having held `p` before: the snapshot of the last `UPDATE_POLL` of `q`, and `p`
when `q` has none. -/
def lastPoll (q : List RpcQueue) (p : Option RpcUpdatePoll) : Option RpcUpdatePoll :=
  q.foldl (fun p c => match c with
    | RpcQueue.UPDATE_POLL s => some s
    | _ => p) p

end Graph

namespace Scenario

/-- The NIC `n1` referencing only a group that the model does not know. -/
def n1UnknownSg : app.Nic := { n1 with security_groups := ["sg9"] }

/-- The NIC `n1` referencing only the group `sg2`, which has no rule. -/
def n1EmptySg : app.Nic := { n1 with security_groups := ["sg2"] }

/-- A snapshot of one slot. -/
def pollOne : RpcUpdatePoll := { size := 1, pollables := [some 12], firewalls := [some 10] }

/-- A snapshot of two slots. -/
def pollTwo : RpcUpdatePoll :=
  { size := 2, pollables := [some 12, some 22], firewalls := [some 10, some 20] }

/-- The graph `g0` with seven pending commands, the sixth one being `EXIT`. -/
def gOrder : Graph :=
  { g0 with queue_ := [RpcQueue.LINK (some 1) (some 10), RpcQueue.UPDATE_POLL pollOne,
                       RpcQueue.UNLINK (some 10), RpcQueue.LINK (some 1) (some 20),
                       RpcQueue.UPDATE_POLL pollTwo, RpcQueue.EXIT,
                       RpcQueue.LINK (some 1) (some 30)] }

/-- The commands of `gOrder` before its `EXIT`. -/
def gOrderPre : List RpcQueue :=
  [RpcQueue.LINK (some 1) (some 10), RpcQueue.UPDATE_POLL pollOne,
   RpcQueue.UNLINK (some 10), RpcQueue.LINK (some 1) (some 20),
   RpcQueue.UPDATE_POLL pollTwo]

/-- Library calls fail for every `UNLINK`. -/
def failUnlink : RpcQueue → Bool
  | RpcQueue.UNLINK _ => true
  | _ => false

end Scenario

/-! # Lemmas -/

open Graph Scenario

/-! ## The poller and the fence -/

namespace Graph

theorem PollerExec_fields (g : Graph) (c : RpcQueue) :
    (PollerExec g c).started = g.started ∧ (PollerExec g c).vnis_ = g.vnis_ ∧
    (PollerExec g c).nic_ = g.nic_ ∧ (PollerExec g c).vtep_ = g.vtep_ ∧
    (PollerExec g c).sniffer_ = g.sniffer_ ∧ (PollerExec g c).isVtep6_ = g.isVtep6_ ∧
    (PollerExec g c).queue_ = g.queue_ ∧ (PollerExec g c).fw_rules = g.fw_rules ∧
    (PollerExec g c).executed = g.executed := by
  cases c <;> simp [PollerExec]

theorem stepExec_queue (g : Graph) (c : RpcQueue) (q : List RpcQueue) :
    stepExec { g with queue_ := q } c = { stepExec g c with queue_ := q } := by
  cases c <;> rfl

theorem runAll_queue (g : Graph) (q x : List RpcQueue) :
    runAll { g with queue_ := x } q = { runAll g q with queue_ := x } := by
  induction q generalizing g with
  | nil => rfl
  | cons c rest ih =>
    simp only [runAll, List.foldl_cons] at ih ⊢
    rw [stepExec_queue, ih]

theorem runAll_append (g : Graph) (q r : List RpcQueue) :
    runAll g (q ++ r) = runAll (runAll g q) r := by
  simp [runAll, List.foldl_append]

theorem runAll_fields (g : Graph) (q : List RpcQueue) :
    (runAll g q).started = g.started ∧ (runAll g q).vnis_ = g.vnis_ ∧
    (runAll g q).nic_ = g.nic_ ∧ (runAll g q).vtep_ = g.vtep_ ∧
    (runAll g q).sniffer_ = g.sniffer_ ∧ (runAll g q).isVtep6_ = g.isVtep6_ ∧
    (runAll g q).queue_ = g.queue_ ∧ (runAll g q).fw_rules = g.fw_rules ∧
    (runAll g q).executed = g.executed ++ q := by
  induction q generalizing g with
  | nil => simp [runAll]
  | cons c rest ih =>
    have h := ih (stepExec g c)
    have e := PollerExec_fields { g with executed := g.executed ++ [c] } c
    simp only [runAll, List.foldl_cons] at h ⊢
    simp only [stepExec] at h ⊢
    obtain ⟨h1, h2, h3, h4, h5, h6, h7, h8, h9⟩ := h
    obtain ⟨e1, e2, e3, e4, e5, e6, e7, e8, e9⟩ := e
    refine ⟨h1.trans e1, h2.trans e2, h3.trans e3, h4.trans e4, h5.trans e5,
      h6.trans e6, h7.trans e7, h8.trans e8, ?_⟩
    rw [h9, e9]; simp

theorem PollerUpdate_loop_of_not_mem (q : List RpcQueue) (g : Graph)
    (h : RpcQueue.EXIT ∉ q) :
    PollerUpdate_loop q g = (true, { runAll g q with queue_ := [] }) := by
  induction q generalizing g with
  | nil => rfl
  | cons c rest ih =>
    have hc : c ≠ RpcQueue.EXIT := fun e => h (by simp [e])
    have hr : RpcQueue.EXIT ∉ rest := fun e => h (by simp [e])
    rw [PollerUpdate_loop, if_neg hc, ih _ hr]
    rfl

theorem PollerUpdate_loop_of_mem (q r : List RpcQueue) (g : Graph)
    (h : RpcQueue.EXIT ∈ q) (hr : r ≠ []) :
    (PollerUpdate_loop (q ++ r) g).2.queue_ ≠ [] := by
  induction q generalizing g with
  | nil => simp at h
  | cons c rest ih =>
    rw [List.cons_append, PollerUpdate_loop]
    by_cases hc : c = RpcQueue.EXIT
    · rw [if_pos hc]; simp [hr]
    · rw [if_neg hc]
      apply ih
      rcases List.mem_cons.1 h with e | e
      · exact absurd e.symm hc
      · exact e

theorem WaitEmptyQueue_eq_some_iff (g g1 : Graph) :
    WaitEmptyQueue g = some g1 ↔
      RpcQueue.EXIT ∉ g.queue_ ∧
      g1 = { runAll g (g.queue_ ++ [RpcQueue.NOTHING]) with queue_ := [] } := by
  unfold WaitEmptyQueue PollerUpdate nothing_new push
  by_cases h : RpcQueue.EXIT ∈ g.queue_
  · have := PollerUpdate_loop_of_mem g.queue_ [RpcQueue.NOTHING]
      { g with queue_ := g.queue_ ++ [RpcQueue.NOTHING] } h (by simp)
    have hpos : ((PollerUpdate_loop (g.queue_ ++ [RpcQueue.NOTHING])
      { g with queue_ := g.queue_ ++ [RpcQueue.NOTHING] }).2.queue_).length > 0 :=
      List.length_pos.2 this
    simp only [hpos, if_true, h, not_true_eq_false, false_and]
    simp
  · have hn : RpcQueue.EXIT ∉ g.queue_ ++ [RpcQueue.NOTHING] := by simp [h]
    simp only [PollerUpdate_loop_of_not_mem _ _ hn, runAll_queue]
    simp [h, eq_comm]

theorem WaitEmptyQueue_of_not_mem (g : Graph) (h : RpcQueue.EXIT ∉ g.queue_) :
    WaitEmptyQueue g =
      some { runAll g (g.queue_ ++ [RpcQueue.NOTHING]) with queue_ := [] } :=
  (WaitEmptyQueue_eq_some_iff g _).2 ⟨h, rfl⟩

end Graph

/-! ## Maps -/

theorem mapFind_mapSet_self {K V : Type} [DecidableEq K] (m : List (K × V)) (k : K)
    (v : V) : mapFind (mapSet m k v) k = (mapFind m k).map (fun _ => v) := by
  induction m with
  | nil => rfl
  | cons p rest ih =>
    obtain ⟨k', v'⟩ := p
    by_cases h : k' = k
    · simp [mapSet, mapFind, h]
    · simp [mapSet, mapFind, h, ih]

theorem mapFind_mapSet_of_ne {K V : Type} [DecidableEq K] (m : List (K × V)) (k j : K)
    (v : V) (h : j ≠ k) : mapFind (mapSet m k v) j = mapFind m j := by
  induction m with
  | nil => rfl
  | cons p rest ih =>
    obtain ⟨k', v'⟩ := p
    by_cases h1 : k' = k
    · subst h1
      have : ¬ k' = j := fun e => h e.symm
      simp [mapSet, mapFind, this]
    · by_cases h2 : k' = j
      · subst h2
        simp [mapSet, mapFind, h]
      · simp [mapSet, mapFind, h1, h2, ih]

theorem mapSet_mapSet {K V : Type} [DecidableEq K] (m : List (K × V)) (k : K)
    (v w : V) : mapSet (mapSet m k v) k w = mapSet m k w := by
  induction m with
  | nil => rfl
  | cons p rest ih =>
    obtain ⟨k', v'⟩ := p
    by_cases h : k' = k
    · simp [mapSet, h]
    · simp [mapSet, h, ih]

theorem mapSet_of_mapFind {K V : Type} [DecidableEq K] (m : List (K × V)) (k : K)
    (v : V) (h : mapFind m k = some v) : mapSet m k v = m := by
  induction m with
  | nil => rfl
  | cons p rest ih =>
    obtain ⟨k', v'⟩ := p
    by_cases h1 : k' = k
    · simp [mapFind, h1] at h
      simp [mapSet, h1, h]
    · simp [mapFind, h1] at h
      simp [mapSet, h1, ih h]

theorem mapFind_mapPlace_self {K V : Type} [DecidableEq K] (lt : K → K → Bool)
    (m : List (K × V)) (k : K) (v : V) (h : mapFind m k = none) :
    mapFind (mapPlace lt (k, v) m) k = some v := by
  induction m with
  | nil => simp [mapPlace, mapFind]
  | cons p rest ih =>
    obtain ⟨k', v'⟩ := p
    by_cases h1 : k' = k
    · simp [mapFind, h1] at h
    · simp [mapFind, h1] at h
      by_cases h2 : lt k k' = true
      · simp [mapPlace, h2, mapFind]
      · simp [mapPlace, h2, mapFind, h1, ih h]

theorem mapFind_mapPlace_of_ne {K V : Type} [DecidableEq K] (lt : K → K → Bool)
    (m : List (K × V)) (k j : K) (v : V) (h : j ≠ k) :
    mapFind (mapPlace lt (k, v) m) j = mapFind m j := by
  have hk : ¬ k = j := fun e => h e.symm
  induction m with
  | nil => simp [mapPlace, mapFind, hk]
  | cons p rest ih =>
    obtain ⟨k', v'⟩ := p
    by_cases h2 : lt k k' = true
    · simp [mapPlace, h2, mapFind, hk]
    · by_cases h1 : k' = j
      · subst h1
        simp [mapPlace, h2, mapFind]
      · simp [mapPlace, h2, mapFind, h1, ih]

theorem mapErase_mapPlace {K V : Type} [DecidableEq K] (lt : K → K → Bool)
    (m : List (K × V)) (k : K) (v : V) (h : mapFind m k = none) :
    mapErase (mapPlace lt (k, v) m) k = m := by
  induction m with
  | nil => simp [mapPlace, mapErase]
  | cons p rest ih =>
    obtain ⟨k', v'⟩ := p
    by_cases h1 : k' = k
    · simp [mapFind, h1] at h
    · simp [mapFind, h1] at h
      by_cases h2 : lt k k' = true
      · simp [mapPlace, h2, mapErase]
      · simp [mapPlace, h2, mapErase, h1, ih h]

theorem mapSet_mapPlace {K V : Type} [DecidableEq K] (lt : K → K → Bool)
    (m : List (K × V)) (k : K) (v w : V) (h : mapFind m k = none) :
    mapSet (mapPlace lt (k, v) m) k w = mapPlace lt (k, w) m := by
  induction m with
  | nil => simp [mapPlace, mapSet]
  | cons p rest ih =>
    obtain ⟨k', v'⟩ := p
    by_cases h1 : k' = k
    · simp [mapFind, h1] at h
    · simp [mapFind, h1] at h
      by_cases h2 : lt k k' = true
      · simp [mapPlace, h2, mapSet]
      · simp [mapPlace, h2, mapSet, h1, ih h]

theorem mapErase_mapSet {K V : Type} [DecidableEq K] (m : List (K × V)) (k : K)
    (v : V) : mapErase (mapSet m k v) k = mapErase m k := by
  induction m with
  | nil => rfl
  | cons p rest ih =>
    obtain ⟨k', v'⟩ := p
    by_cases h1 : k' = k
    · simp [mapSet, mapErase, h1]
    · simp [mapSet, mapErase, h1, ih]

theorem mapFind_mapErase_of_ne {K V : Type} [DecidableEq K] (m : List (K × V))
    (k j : K) (h : j ≠ k) : mapFind (mapErase m k) j = mapFind m j := by
  induction m with
  | nil => rfl
  | cons p rest ih =>
    obtain ⟨k', v'⟩ := p
    by_cases h1 : k' = k
    · subst h1
      have : ¬ k' = j := fun e => h e.symm
      simp [mapErase, mapFind, this]
    · by_cases h2 : k' = j
      · subst h2
        simp [mapErase, mapFind, h]
      · simp [mapErase, mapFind, h1, h2, ih]

/-! ## `NicAdd` -/

namespace Graph

theorem runAll_links (g : Graph) (q : List RpcQueue) :
    (runAll g q).links = q.foldl execLinks g.links := by
  induction q generalizing g with
  | nil => rfl
  | cons c rest ih =>
    simp only [runAll, List.foldl_cons] at ih ⊢
    rw [ih]
    congr 1
    cases c <;> rfl

theorem NicAdd_branch_some (a : App) (env : NicAddEnv) (g : Graph) (nic : app.Nic)
    (g1 : Graph) (gn : GraphNic)
    (h : NicAdd_branch a env g nic = some (g1, some gn)) :
    RpcQueue.EXIT ∉ g.queue_ ∧ gn = branchNic env nic ∧
    g1.started = g.started ∧ g1.vnis_ = g.vnis_ ∧ g1.vtep_ = g.vtep_ ∧
    g1.isVtep6_ = g.isVtep6_ ∧ g1.queue_ = [] ∧ g1.fw_rules = g.fw_rules ∧
    g1.executed = g.executed ++ g.queue_ ++
      [RpcQueue.FW_NEW ("firewall-" ++ nic.id) 1 1 FwFlags.PG_NO_CONN_WORKER
        env.firewall, RpcQueue.NOTHING] ∧
    ∃ D, g1.links = (runAll g g.queue_).links ++ D ∧ ∀ e ∈ D, ¬ isOld env e.1 := by
  unfold NicAdd_branch at h
  cases hw : WaitEmptyQueue (fw_new g ("firewall-" ++ nic.id) 1 1
      FwFlags.PG_NO_CONN_WORKER env.firewall) with
  | none => rw [hw] at h; simp at h
  | some g2 =>
    rw [hw] at h
    rw [WaitEmptyQueue_eq_some_iff] at hw
    obtain ⟨hexit, hg2⟩ := hw
    have hexit' : RpcQueue.EXIT ∉ g.queue_ := by
      intro e; apply hexit; simp [fw_new, push, e]
    have F := runAll_fields (fw_new g ("firewall-" ++ nic.id) 1 1
      FwFlags.PG_NO_CONN_WORKER env.firewall)
      ((fw_new g ("firewall-" ++ nic.id) 1 1
      FwFlags.PG_NO_CONN_WORKER env.firewall).queue_ ++ [RpcQueue.NOTHING])
    obtain ⟨f1, f2, f3, f4, f5, f6, f7, f8, f9⟩ := F
    have hl : g2.links = (runAll g g.queue_).links := by
      rw [hg2]
      simp only [runAll_links, fw_new, push, List.foldl_append, List.foldl_cons,
        List.foldl_nil, execLinks]
    have hs : g2.started = g.started := by rw [hg2]; exact f1
    have hv : g2.vnis_ = g.vnis_ := by rw [hg2]; exact f2
    have hvt : g2.vtep_ = g.vtep_ := by rw [hg2]; exact f4
    have h6 : g2.isVtep6_ = g.isVtep6_ := by rw [hg2]; exact f6
    have hq : g2.queue_ = [] := by rw [hg2]
    have hfw : g2.fw_rules = g.fw_rules := by rw [hg2]; exact f8
    have hex : g2.executed = g.executed ++ g.queue_ ++
      [RpcQueue.FW_NEW ("firewall-" ++ nic.id) 1 1 FwFlags.PG_NO_CONN_WORKER
        env.firewall, RpcQueue.NOTHING] := by
      rw [hg2]; simp only [f9]; simp [fw_new, push]
    clear hg2 f1 f2 f3 f4 f5 f6 f7 f8 f9 hexit
    simp only at h
    by_cases c1 : env.firewall = none
    · rw [if_pos c1] at h; simp at h
    rw [if_neg c1] at h
    by_cases c2 : env.antispoof = none
    · rw [if_pos c2] at h; simp at h
    rw [if_neg c2] at h
    by_cases c3 : nic.type = app.NicType.OTHER
    · rw [if_pos c3] at h; simp at h
    rw [if_neg c3] at h
    by_cases c4 : env.vhost = none
    · rw [if_pos c4] at h; simp at h
    rw [if_neg c4] at h
    by_cases c5 : nic.packet_trace = true ∧ env.sniffer = none
    · rw [if_pos c5] at h; simp at h
    rw [if_neg c5] at h
    have c5' : nic.packet_trace = true → env.sniffer ≠ none := fun e1 e2 => c5 ⟨e1, e2⟩
    cases hb : nic.bypass_filtering <;> cases hp : nic.packet_trace <;>
      cases hlk : env.link_ok <;> cases hap : a.packet_trace <;>
      cases hst : env.stalk_ok <;>
      simp only [hb, hp, hlk, hap, hst, LinkAndStalk, if_true, if_false,
        Bool.false_eq_true, Option.some.injEq, Prod.mk.injEq, reduceCtorEq,
        and_false] at h
    all_goals obtain ⟨hg, hn⟩ := h
    all_goals subst hg
    all_goals subst hn
    all_goals refine ⟨hexit', ?_, hs, hv, hvt, h6, hq, hfw, hex, ?_⟩
    all_goals first
      | (simp [branchNic, branchHead, hb, hp]; done)
      | skip
    all_goals simp only [pg_brick_link, pg_brick_chained_links, hl, List.append_assoc]
    all_goals first
      | (refine ⟨[], (List.append_nil _).symm, ?_⟩
         intro e he
         cases he)
      | (refine ⟨_, rfl, ?_⟩
         simp [isOld, newBricks])

theorem FwUpdate_some (a : App) (i o : Bool) (g : Graph) (nic : app.Nic) (g' : Graph)
    (h : FwUpdate a i o g nic = some g') :
    g'.started = g.started ∧ g'.vnis_ = g.vnis_ ∧ g'.vtep_ = g.vtep_ ∧
    g'.isVtep6_ = g.isVtep6_ ∧ g'.links = g.links ∧ g'.executed = g.executed ∧
    ∃ rest, g'.queue_ = g.queue_ ++ rest ∧
      (rest = [] ∨ ∃ fw, rest = [RpcQueue.FW_RELOAD fw]) := by
  have triv : ∀ x : Graph, some x = some g' → x.started = g.started →
      x.vnis_ = g.vnis_ →
      x.vtep_ = g.vtep_ → x.isVtep6_ = g.isVtep6_ → x.links = g.links →
      x.executed = g.executed → x.queue_ = g.queue_ →
      g'.started = g.started ∧ g'.vnis_ = g.vnis_ ∧ g'.vtep_ = g.vtep_ ∧
      g'.isVtep6_ = g.isVtep6_ ∧ g'.links = g.links ∧ g'.executed = g.executed ∧
      ∃ rest, g'.queue_ = g.queue_ ++ rest ∧
        (rest = [] ∨ ∃ fw, rest = [RpcQueue.FW_RELOAD fw]) := by
    intro x hx h1 h2 h3 h4 h5 h6 h7
    cases hx
    exact ⟨h1, h2, h3, h4, h5, h6, [], by simp [h7], Or.inl rfl⟩
  have rel : ∀ (x : Graph) (fw : BrickShrPtr), some (fw_reload x fw) = some g' →
      x.started = g.started → x.vnis_ = g.vnis_ →
      x.vtep_ = g.vtep_ → x.isVtep6_ = g.isVtep6_ → x.links = g.links →
      x.executed = g.executed → x.queue_ = g.queue_ →
      g'.started = g.started ∧ g'.vnis_ = g.vnis_ ∧ g'.vtep_ = g.vtep_ ∧
      g'.isVtep6_ = g.isVtep6_ ∧ g'.links = g.links ∧ g'.executed = g.executed ∧
      ∃ rest, g'.queue_ = g.queue_ ++ rest ∧
        (rest = [] ∨ ∃ fw, rest = [RpcQueue.FW_RELOAD fw]) := by
    intro x fw hx h1 h2 h3 h4 h5 h6 h7
    cases hx
    exact ⟨h1, h2, h3, h4, h5, h6, [RpcQueue.FW_RELOAD fw],
      by simp [fw_reload, push, h7], Or.inr ⟨fw, rfl⟩⟩
  unfold FwUpdate at h
  by_cases c1 : g.started = false
  · rw [if_pos c1] at h; exact triv _ h rfl rfl rfl rfl rfl rfl rfl
  rw [if_neg c1] at h
  by_cases c2 : nic.bypass_filtering = true
  · rw [if_pos c2] at h; exact triv _ h rfl rfl rfl rfl rfl rfl rfl
  rw [if_neg c2] at h
  cases hf : mapFind g.vnis_ nic.vni with
  | none => rw [hf] at h; exact triv _ h rfl rfl rfl rfl rfl rfl rfl
  | some itvni =>
    rw [hf] at h
    simp only at h
    cases hn : mapFind itvni.nics nic.id with
    | none => rw [hn] at h; exact triv _ h rfl rfl rfl rfl rfl rfl rfl
    | some itnic =>
      rw [hn] at h
      simp only at h
      cases hin : FwUpdate_in_rules a nic with
      | none => rw [hin] at h; simp at h
      | some in_rules =>
        rw [hin] at h
        simp only at h
        by_cases c3 : in_rules.length > 0 ∧ i = false
        · rw [if_pos c3] at h; exact triv _ h rfl rfl rfl rfl rfl rfl rfl
        rw [if_neg c3] at h
        by_cases c5 : (FwUpdate_out_rules nic).length > 0 ∧ o = false
        · rw [if_pos c5] at h
          by_cases c4 : in_rules.length > 0
          · rw [if_pos c4] at h; exact triv _ h rfl rfl rfl rfl rfl rfl rfl
          · rw [if_neg c4] at h; exact triv _ h rfl rfl rfl rfl rfl rfl rfl
        rw [if_neg c5] at h
        by_cases c4 : in_rules.length > 0 <;>
          by_cases c6 : (FwUpdate_out_rules nic).length > 0
        · rw [if_pos c4, if_pos c6] at h; exact rel _ _ h rfl rfl rfl rfl rfl rfl rfl
        · rw [if_pos c4, if_neg c6] at h; exact rel _ _ h rfl rfl rfl rfl rfl rfl rfl
        · rw [if_neg c4, if_pos c6] at h; exact rel _ _ h rfl rfl rfl rfl rfl rfl rfl
        · rw [if_neg c4, if_neg c6] at h; exact rel _ _ h rfl rfl rfl rfl rfl rfl rfl

theorem nicsOf_eq (g : Graph) (vni : Nat) : nicsOf g vni = (entryOf g vni).nics := by
  unfold nicsOf entryOf
  cases mapFind g.vnis_ vni <;> rfl

theorem switchOf_eq (g : Graph) (vni : Nat) : switchOf g vni = (entryOf g vni).sw := by
  unfold switchOf entryOf
  cases mapFind g.vnis_ vni <;> rfl

theorem NicAdd_vni_fields (g : Graph) (nic : app.Nic) :
    (NicAdd_vni g nic).started = g.started ∧ (NicAdd_vni g nic).vtep_ = g.vtep_ ∧
    (NicAdd_vni g nic).isVtep6_ = g.isVtep6_ ∧ (NicAdd_vni g nic).queue_ = g.queue_ ∧
    (NicAdd_vni g nic).links = g.links ∧ (NicAdd_vni g nic).executed = g.executed ∧
    (NicAdd_vni g nic).fw_rules = g.fw_rules ∧
    mapFind (NicAdd_vni g nic).vnis_ nic.vni = some (entryOf g nic.vni) := by
  unfold NicAdd_vni entryOf
  cases h : mapFind g.vnis_ nic.vni with
  | none =>
    refine ⟨rfl, rfl, rfl, rfl, rfl, rfl, rfl, ?_⟩
    simp only [mapInsert, h]
    exact mapFind_mapPlace_self _ _ _ _ h
  | some v => exact ⟨rfl, rfl, rfl, rfl, rfl, rfl, rfl, h⟩

theorem snapshot_congr (a : App) (g g' : Graph) (h : g.vnis_ = g'.vnis_) :
    snapshot a g = snapshot a g' := by
  unfold snapshot; rw [h]

theorem runAll_links_congr (g g' : Graph) (q : List RpcQueue) (h : g.links = g'.links) :
    (runAll g q).links = (runAll g' q).links := by
  rw [runAll_links, runAll_links, h]

theorem NicAdd_true (a : App) (env : NicAddEnv) (g : Graph) (nic : app.Nic) (g' : Graph)
    (h : NicAdd a env g nic = some (true, g')) :
    g.started = true ∧ RpcQueue.EXIT ∉ g.queue_ ∧
    g'.started = true ∧ g'.vtep_ = g.vtep_ ∧ g'.isVtep6_ = g.isVtep6_ ∧
    g'.vnis_ = NicAdd_vnis env g nic ∧
    g'.executed = g.executed ++ g.queue_ ++
      [RpcQueue.FW_NEW ("firewall-" ++ nic.id) 1 1 FwFlags.PG_NO_CONN_WORKER
        env.firewall, RpcQueue.NOTHING] ∧
    (∃ rest, g'.queue_ = NicAdd_topology env g nic ++
        [RpcQueue.UPDATE_POLL (snapshot a g')] ++ rest ∧
      (rest = [] ∨ ∃ fw, rest = [RpcQueue.FW_RELOAD fw])) ∧
    (∃ D, (∀ e ∈ D, ¬ isOld env e.1) ∧
      g'.links = NicAdd_links g nic ((runAll g g.queue_).links ++ D)) ∧
    (∀ first, (entryOf g nic.vni).nics = [first] → env.sw ≠ none) := by
  unfold NicAdd at h
  by_cases hs : g.started = false
  · rw [if_pos hs] at h; simp at h
  rw [if_neg hs] at h
  have hs' : g.started = true := by simpa using hs
  simp only at h
  obtain ⟨v1, v2, v3, v4, v5, v6, v7, v8⟩ := NicAdd_vni_fields g nic
  rw [v8] at h
  simp only at h
  cases hb : NicAdd_branch a env (NicAdd_vni g nic) nic with
  | none => rw [hb] at h; simp at h
  | some r =>
    obtain ⟨g1, ogn⟩ := r
    cases ogn with
    | none => rw [hb] at h; simp at h
    | some gn =>
      rw [hb] at h
      simp only at h
      obtain ⟨b1, b2, b3, b4, b5, b6, b7, b8, b9, D, b10, b11⟩ :=
        NicAdd_branch_some a env _ nic g1 gn hb
      rw [v4] at b1 b9
      rw [v6] at b9
      rw [v1] at b3
      rw [v2] at b5
      rw [v3] at b6
      have b10' : g1.links = (runAll g g.queue_).links ++ D := by
        rw [b10, v4]
        congr 1
        exact runAll_links_congr _ _ _ v5
      clear b10 hb
      cases hat : NicAdd_attach env g1 nic (entryOf g nic.vni) gn with
      | mk g2 ov =>
      cases ov with
      | none => rw [hat] at h; simp at h
      | some vni' =>
        rw [hat] at h
        simp only at h
        split at h
        · simp at h
        · rename_i gf hfw
          simp only [Option.some.injEq, Prod.mk.injEq, true_and] at h
          subst h
          obtain ⟨f1, f2, f3, f4, f5, f6, rest, f7, f8⟩ := FwUpdate_some _ _ _ _ _ _ hfw
          simp only [update_poll, push] at f1 f2 f3 f4 f5 f6 f7
          unfold NicAdd_attach at hat
          have hsnap : ∀ x : Graph, x.vnis_ = gf.vnis_ → snapshot a x = snapshot a gf :=
            fun x hx => snapshot_congr a x gf hx
          cases hn : (entryOf g nic.vni).nics with
          | nil =>
            rw [hn] at hat
            simp only [Prod.mk.injEq, Option.some.injEq] at hat
            obtain ⟨hg2, hv'⟩ := hat
            subst hg2 hv'
            simp only [link, add_vni, push] at f1 f2 f3 f4 f5 f6 f7
            refine ⟨hs', b1, by rw [f1, b3]; exact hs', by rw [f3, b5], by rw [f4, b6],
              ?_, by rw [f6, b9], ⟨rest, ?_, f8⟩, ⟨D, b11, ?_⟩, ?_⟩
            · rw [f2, b4, b2]; simp only [NicAdd_vnis, NicAdd_entry, hn]
            · rw [f7, hsnap _ f2.symm]
              simp [b7, b5, b6, b2, NicAdd_topology, nicsOf_eq, hn, mcastOf, branchNic]
            · rw [f5, b10']; simp only [NicAdd_links, hn]
            · intro first hf; cases hf
          | cons first tl =>
            cases tl with
            | nil =>
              rw [hn] at hat
              simp only at hat
              by_cases csw : env.sw = none
              · rw [if_pos csw] at hat; simp at hat
              rw [if_neg csw] at hat
              by_cases cul : env.unlink_edge_ok = false
              · rw [if_pos cul] at hat; simp at hat
              rw [if_neg cul] at hat
              simp only [Prod.mk.injEq, Option.some.injEq] at hat
              obtain ⟨hg2, hv'⟩ := hat
              subst hg2 hv'
              simp only [link, add_vni, push] at f1 f2 f3 f4 f5 f6 f7
              refine ⟨hs', b1, by rw [f1, b3]; exact hs', by rw [f3, b5], by rw [f4, b6],
                ?_, by rw [f6, b9], ⟨rest, ?_, f8⟩, ⟨D, b11, ?_⟩, ?_⟩
              · rw [f2, mapSet_mapSet, b4, b2]; simp only [NicAdd_vnis, NicAdd_entry, hn]
              · rw [f7, hsnap _ f2.symm]
                simp [b7, b5, b6, b2, NicAdd_topology, nicsOf_eq, hn, mcastOf, branchNic]
              · rw [f5, b10', b5]; simp only [NicAdd_links, hn]
              · intro _ _; exact csw
            | cons second tl2 =>
              rw [hn] at hat
              simp only [Prod.mk.injEq, Option.some.injEq] at hat
              obtain ⟨hg2, hv'⟩ := hat
              subst hg2 hv'
              simp only [link, add_vni, push] at f1 f2 f3 f4 f5 f6 f7
              refine ⟨hs', b1, by rw [f1, b3]; exact hs', by rw [f3, b5], by rw [f4, b6],
                ?_, by rw [f6, b9], ⟨rest, ?_, f8⟩, ⟨D, b11, ?_⟩, ?_⟩
              · rw [f2, b4, b2]; simp only [NicAdd_vnis, NicAdd_entry, hn]
              · rw [f7, hsnap _ f2.symm]
                simp [b7, b2, NicAdd_topology, nicsOf_eq, switchOf_eq, hn, branchNic]
              · rw [f5, b10']; simp only [NicAdd_links, hn]
              · intro first hf; simp at hf

end Graph

/-! ## `NicDel` -/

namespace Graph

theorem WaitEmptyQueue_fields (g : Graph) (h : RpcQueue.EXIT ∉ g.queue_) :
    ∃ g1, WaitEmptyQueue g = some g1 ∧ g1.started = g.started ∧ g1.vnis_ = g.vnis_ ∧
      g1.vtep_ = g.vtep_ ∧ g1.isVtep6_ = g.isVtep6_ ∧ g1.queue_ = [] ∧
      g1.fw_rules = g.fw_rules ∧
      g1.executed = g.executed ++ g.queue_ ++ [RpcQueue.NOTHING] ∧
      g1.links = g.queue_.foldl execLinks g.links := by
  refine ⟨_, WaitEmptyQueue_of_not_mem g h, ?_⟩
  obtain ⟨f1, f2, f3, f4, f5, f6, f7, f8, f9⟩ :=
    runAll_fields g (g.queue_ ++ [RpcQueue.NOTHING])
  refine ⟨f1, f2, f4, f6, rfl, f8, ?_, ?_⟩
  · show (runAll g (g.queue_ ++ [RpcQueue.NOTHING])).executed = _
    rw [f9, List.append_assoc]
  · show (runAll g (g.queue_ ++ [RpcQueue.NOTHING])).links = _
    rw [runAll_links, List.foldl_append]
    rfl

theorem length_mapSet {K V : Type} [DecidableEq K] (m : List (K × V)) (k : K) (v : V) :
    (mapSet m k v).length = m.length := by
  induction m with
  | nil => rfl
  | cons p rest ih =>
    obtain ⟨k', v'⟩ := p
    by_cases h : k' = k
    · simp [mapSet, h]
    · simp [mapSet, h, ih]

theorem runAll_started (g : Graph) (q : List RpcQueue) :
    (runAll g q).started = g.started := (runAll_fields g q).1

theorem runAll_vnis (g : Graph) (q : List RpcQueue) :
    (runAll g q).vnis_ = g.vnis_ := (runAll_fields g q).2.1

theorem runAll_vtep (g : Graph) (q : List RpcQueue) :
    (runAll g q).vtep_ = g.vtep_ := (runAll_fields g q).2.2.2.1

theorem runAll_isVtep6 (g : Graph) (q : List RpcQueue) :
    (runAll g q).isVtep6_ = g.isVtep6_ := (runAll_fields g q).2.2.2.2.2.1

theorem runAll_executed (g : Graph) (q : List RpcQueue) :
    (runAll g q).executed = g.executed ++ q := (runAll_fields g q).2.2.2.2.2.2.2.2

theorem mapFind_cons {K V : Type} [DecidableEq K] (p : K × V) (rest : List (K × V))
    (k : K) : mapFind (p :: rest) k = if p.1 = k then some p.2 else mapFind rest k := by
  obtain ⟨k', v'⟩ := p
  rfl

theorem mapSet_cons {K V : Type} [DecidableEq K] (p : K × V) (rest : List (K × V))
    (k : K) (v : V) :
    mapSet (p :: rest) k v = if p.1 = k then (p.1, v) :: rest else p :: mapSet rest k v := by
  obtain ⟨k', v'⟩ := p
  rfl

theorem mapErase_cons {K V : Type} [DecidableEq K] (p : K × V) (rest : List (K × V))
    (k : K) :
    mapErase (p :: rest) k = if p.1 = k then rest else p :: mapErase rest k := by
  obtain ⟨k', v'⟩ := p
  rfl

theorem NicDel_present (a : App) (g : Graph) (nic : app.Nic) (vni : GraphVni)
    (n : GraphNic) (hs : g.started = true) (hv : mapFind g.vnis_ nic.vni = some vni)
    (hn : mapFind vni.nics nic.id = some n) (hx : RpcQueue.EXIT ∉ g.queue_) :
    ∃ g', NicDel a g nic = some g' ∧ g'.started = true ∧ g'.vtep_ = g.vtep_ ∧
      g'.isVtep6_ = g.isVtep6_ ∧ g'.queue_ = [] ∧
      g'.executed = g.executed ++ g.queue_ ++
        [RpcQueue.UPDATE_POLL (update_poll_vnis a.GRAPH_VHOST_MAX_SIZE
          (NicDel_disabled g vni n nic) { size := 0, pollables := [], firewalls := [] })] ++
        NicDel_cmds g vni n nic ++ [RpcQueue.BRICK_DESTROY n.firewall, RpcQueue.NOTHING] ∧
      g'.links = (NicDel_cmds g vni n nic).foldl execLinks (runAll g g.queue_).links ∧
      g'.vnis_ = NicDel_vnis g vni nic := by
  unfold NicDel
  rw [if_neg (by simp [hs]), hv]
  simp only
  rw [hn]
  simp only
  cases hshape : vni.nics with
  | nil => rw [hshape] at hn; simp [mapFind] at hn
  | cons x tl =>
    cases tl with
    | nil =>
      rw [hshape, mapFind_cons] at hn
      have hx1 : x.1 = nic.id := by
        by_contra hne; rw [if_neg hne] at hn; simp [mapFind] at hn
      rw [if_pos hx1] at hn
      simp only [Option.some.injEq] at hn
      simp only [mapSet_cons, hx1, if_true]
      rw [WaitEmptyQueue_of_not_mem]
      swap
      · simp [brick_destroy, unlink, update_poll, push, hx]
      simp only [mapErase_cons, if_true]
      refine ⟨_, rfl, ?_, ?_, ?_, ?_, ?_, ?_, ?_⟩
      · simp [runAll_started, brick_destroy, unlink, update_poll, push, hs]
      · simp [runAll_vtep, brick_destroy, unlink, update_poll, push]
      · simp [runAll_isVtep6, brick_destroy, unlink, update_poll, push]
      · rfl
      · simp [runAll_executed, brick_destroy, unlink, update_poll, push, NicDel_cmds, hshape,
          snapshot, NicDel_disabled, mapSet_cons, hx1]
      · simp [runAll_links, brick_destroy, unlink, update_poll, push, NicDel_cmds, hshape,
          List.foldl_append, execLinks]
      · simp [runAll_vnis, brick_destroy, unlink, update_poll, push, NicDel_vnis,
          NicDel_entry, hshape, mapErase_cons, hx1, mapSet_mapSet]
    | cons y tl2 =>
      cases tl2 with
      | nil =>
        have hh1 : ∀ (c : Prop) [Decidable c] (u w : GraphNic),
            (if c then u else { w with enable := false }).head =
              (if c then u else w).head := by
          intro c _ u w; split <;> rfl
        have hh2 : ∀ (c : Prop) [Decidable c] (u w : GraphNic),
            (if c then { w with enable := false } else u).head =
              (if c then w else u).head := by
          intro c _ u w; split <;> rfl
        rw [hshape, mapFind_cons] at hn
        by_cases hx1 : x.1 = nic.id
        · rw [if_pos hx1] at hn
          simp only [Option.some.injEq] at hn
          simp only [mapSet_cons, hx1, if_true]
          rw [WaitEmptyQueue_of_not_mem]
          swap
          · simp [add_vni, link, unlink, update_poll, push, hx]
          simp only
          rw [WaitEmptyQueue_of_not_mem]
          swap
          · simp [brick_destroy, push]
          simp only [mapErase_cons, if_true]
          refine ⟨_, rfl, ?_, ?_, ?_, ?_, ?_, ?_, ?_⟩
          · simp [runAll_started, brick_destroy, add_vni, link, unlink, update_poll, push, hs]
          · simp [runAll_vtep, brick_destroy, add_vni, link, unlink, update_poll, push]
          · simp [runAll_isVtep6, brick_destroy, add_vni, link, unlink, update_poll, push]
          · rfl
          · simp [runAll_executed, runAll_vtep, runAll_isVtep6, brick_destroy, add_vni, link,
              unlink, update_poll, push, NicDel_cmds, hshape,
              snapshot, NicDel_disabled, mapSet_cons, hx1, mcastOf, ← hn, hh1, hh2]
          · simp [runAll_links, runAll_vtep, brick_destroy, add_vni, link, unlink, update_poll,
              push, NicDel_cmds, hshape, List.foldl_append, execLinks, ← hn, hh1, hh2]
          · simp [runAll_vnis, brick_destroy, add_vni, link, unlink, update_poll, push,
              NicDel_vnis, NicDel_entry, hshape, mapErase_cons, hx1, mapSet_mapSet]
        · rw [if_neg hx1, mapFind_cons] at hn
          have hy1 : y.1 = nic.id := by
            by_contra hne; rw [if_neg hne] at hn; simp [mapFind] at hn
          rw [if_pos hy1] at hn
          simp only [Option.some.injEq] at hn
          simp only [mapSet_cons, hx1, hy1, if_true, if_false, mapSet]
          rw [WaitEmptyQueue_of_not_mem]
          swap
          · simp [add_vni, link, unlink, update_poll, push, hx]
          simp only
          rw [WaitEmptyQueue_of_not_mem]
          swap
          · simp [brick_destroy, push]
          simp only [mapErase_cons, hx1, if_true, if_false]
          refine ⟨_, rfl, ?_, ?_, ?_, ?_, ?_, ?_, ?_⟩
          · simp [runAll_started, brick_destroy, add_vni, link, unlink, update_poll, push, hs]
          · simp [runAll_vtep, brick_destroy, add_vni, link, unlink, update_poll, push]
          · simp [runAll_isVtep6, brick_destroy, add_vni, link, unlink, update_poll, push]
          · rfl
          · simp [runAll_executed, runAll_vtep, runAll_isVtep6, brick_destroy, add_vni, link,
              unlink, update_poll, push, NicDel_cmds, hshape,
              snapshot, NicDel_disabled, mapSet_cons, hx1, hy1, mapSet, mcastOf, ← hn, hh1, hh2]
          · simp [runAll_links, runAll_vtep, brick_destroy, add_vni, link, unlink, update_poll,
              push, NicDel_cmds, hshape, List.foldl_append, execLinks, ← hn, hh1, hh2]
          · simp [runAll_vnis, brick_destroy, add_vni, link, unlink, update_poll, push,
              NicDel_vnis, NicDel_entry, hshape, mapErase_cons, hx1, hy1, mapSet_mapSet,
              mapErase]
      | cons z tl3 =>
        have hshape3 : ∃ p q r t, mapSet vni.nics nic.id { n with enable := false } =
            p :: q :: r :: t := by
          rw [hshape]
          simp only [mapSet_cons]
          by_cases hx1 : x.1 = nic.id
          · exact ⟨_, _, _, _, by rw [if_pos hx1]⟩
          · by_cases hy1 : y.1 = nic.id
            · exact ⟨_, _, _, _, by rw [if_neg hx1, if_pos hy1]⟩
            · by_cases hz1 : z.1 = nic.id
              · exact ⟨_, _, _, _, by rw [if_neg hx1, if_neg hy1, if_pos hz1]⟩
              · exact ⟨_, _, _, _, by rw [if_neg hx1, if_neg hy1, if_neg hz1]⟩
        have herase : ∃ p q t, mapErase vni.nics nic.id = p :: q :: t := by
          rw [hshape]
          simp only [mapErase_cons]
          by_cases hx1 : x.1 = nic.id
          · exact ⟨_, _, _, by rw [if_pos hx1]⟩
          · by_cases hy1 : y.1 = nic.id
            · exact ⟨_, _, _, by rw [if_neg hx1, if_pos hy1]⟩
            · exact ⟨_, _, _, by rw [if_neg hx1, if_neg hy1]⟩
        obtain ⟨p, q, r, t, hset⟩ := hshape3
        obtain ⟨p', q', t', her⟩ := herase
        simp only at hset
        rw [hshape] at hset her
        rw [hset]
        simp only
        rw [WaitEmptyQueue_of_not_mem]
        swap
        · simp [brick_destroy, unlink, update_poll, push, hx]
        simp only
        rw [← hset, mapErase_mapSet, her]
        simp only [reduceCtorEq, if_false]
        refine ⟨_, rfl, ?_, ?_, ?_, ?_, ?_, ?_, ?_⟩
        · simp [runAll_started, brick_destroy, unlink, update_poll, push, hs]
        · simp [runAll_vtep, brick_destroy, unlink, update_poll, push]
        · simp [runAll_isVtep6, brick_destroy, unlink, update_poll, push]
        · rfl
        · simp [runAll_executed, brick_destroy, unlink, update_poll, push, NicDel_cmds, hshape,
            snapshot, NicDel_disabled]
        · simp [runAll_links, brick_destroy, unlink, update_poll, push, NicDel_cmds, hshape,
            List.foldl_append, execLinks]
        · simp [runAll_vnis, brick_destroy, unlink, update_poll, push, NicDel_vnis,
            NicDel_entry, hshape, mapSet_mapSet, her]

end Graph

/-! ### Strings -/

theorem joinWith_cons_cons (sep x y : String) (rest : List String) :
    joinWith sep (x :: y :: rest) = x ++ sep ++ joinWith sep (y :: rest) := rfl

theorem joinWith_append_singleton (sep d : String) (xs : List String) (h : xs ≠ []) :
    joinWith sep (xs ++ [d]) = joinWith sep xs ++ sep ++ d := by
  induction xs with
  | nil => exact absurd rfl h
  | cons x rest ih =>
    cases rest with
    | nil => simp [joinWith]
    | cons y rs =>
      have := ih (by simp)
      simp only [List.cons_append, joinWith_cons_cons] at this ⊢
      rw [this]
      simp only [String.append_assoc]

theorem length_joinWith_cons (sep x : String) (rest : List String) :
    x.length ≤ (joinWith sep (x :: rest)).length := by
  cases rest with
  | nil => simp [joinWith]
  | cons y rs => simp only [joinWith_cons_cons, String.length_append]; omega

theorem FwUpdate_out_loop_eq (l : List app.Ip) (r : String) :
    FwUpdate_out_loop l r =
      r ++ joinWith " || " (l.map (fun ip => "(src host " ++ ip.Str ++ ")")) := by
  induction l generalizing r with
  | nil => simp [FwUpdate_out_loop, joinWith]
  | cons ip rest ih =>
    cases rest with
    | nil => simp [FwUpdate_out_loop, joinWith]
    | cons y rs =>
      rw [FwUpdate_out_loop]
      simp only [ne_eq, reduceCtorEq, not_false_eq_true, if_true]
      rw [ih]
      simp only [List.map_cons, joinWith_cons_cons, String.append_assoc]

/-! ### `NicAdd` and `NicDel`: commands and frame -/

theorem mapFind_eq_none_iff {K V : Type} [DecidableEq K] (m : List (K × V)) (k : K) :
    mapFind m k = none ↔ k ∉ m.map Prod.fst := by
  induction m with
  | nil => simp [mapFind]
  | cons p rest ih =>
    rw [mapFind_cons]
    by_cases h : p.1 = k
    · simp [h]
    · rw [if_neg h, ih]
      simp only [List.map_cons, List.mem_cons, not_or]
      exact ⟨fun hh => ⟨fun e => h e.symm, hh⟩, fun hh => hh.2⟩

theorem mapFind_mem {K V : Type} [DecidableEq K] (m : List (K × V)) (k : K) (v : V)
    (h : mapFind m k = some v) : (k, v) ∈ m := by
  induction m with
  | nil => simp [mapFind] at h
  | cons p rest ih =>
    rw [mapFind_cons] at h
    by_cases h1 : p.1 = k
    · rw [if_pos h1] at h
      simp only [Option.some.injEq] at h
      simp [← h1, ← h]
    · rw [if_neg h1] at h
      exact List.mem_cons_of_mem _ (ih h)

theorem mapFind_mapErase_self {K V : Type} [DecidableEq K] (m : List (K × V)) (k : K)
    (h : (m.map Prod.fst).Nodup) : mapFind (mapErase m k) k = none := by
  induction m with
  | nil => rfl
  | cons p rest ih =>
    rw [mapErase_cons]
    simp only [List.map_cons, List.nodup_cons] at h
    by_cases h1 : p.1 = k
    · rw [if_pos h1, mapFind_eq_none_iff, ← h1]
      exact h.1
    · rw [if_neg h1, mapFind_cons, if_neg h1]
      exact ih h.2

/-- The commands of a successful `NicAdd`: `FW_NEW`, a fence, the topology
commands, `UPDATE_POLL` and at most one `FW_RELOAD`.  The topology commands
are, by cases on the NICs already in the VNI: none: `LINK(vtep, head)`,
`ADD_VNI(vtep, head, vni)`; exactly one: `LINK(vtep, switch)`,
`ADD_VNI(vtep, switch, vni)`, `LINK(switch, head_of_first)`,
`LINK(switch, new_head)` with the new switch, the edge `(vtep, head_of_first)`
being no longer among the links when `NicAdd` returns; two or more:
`LINK(switch, new_head)`. -/
theorem NicAdd_topology_commands (a : App) (env : NicAddEnv) (g : Graph)
    (nic : app.Nic) (g' : Graph) (h : NicAdd a env g nic = some (true, g')) :
    (∃ rest, history g' = history g ++
        [RpcQueue.FW_NEW ("firewall-" ++ nic.id) 1 1 FwFlags.PG_NO_CONN_WORKER
          env.firewall, RpcQueue.NOTHING] ++
        NicAdd_topology env g nic ++ [RpcQueue.UPDATE_POLL (snapshot a g')] ++ rest ∧
      (rest = [] ∨ ∃ fw, rest = [RpcQueue.FW_RELOAD fw])) ∧
    ∀ first, nicsOf g nic.vni = [first] →
      env.sw ≠ none ∧ (g.vtep_, first.2.head) ∉ g'.links := by
  obtain ⟨_, _, _, _, _, _, hex, ⟨rest, hq, hr⟩, ⟨D, _, hl⟩, hsw⟩ := NicAdd_true a env g nic g' h
  refine ⟨⟨rest, ?_, hr⟩, ?_⟩
  · unfold history
    rw [hex, hq]
    simp only [List.append_assoc]
  · intro first hf
    rw [nicsOf_eq] at hf
    refine ⟨hsw first hf, ?_⟩
    rw [hl]
    simp [NicAdd_links, hf, pg_brick_unlink_edge]

set_option maxRecDepth 100000 in
/-- The commands of the second `NicAdd` of the scenario. -/
theorem NicAdd_topology_commands_example :
    NicAdd globals env2 g1 n2 = some (true, g2) ∧
    ((∃ rest, history g2 = history g1 ++
        [RpcQueue.FW_NEW ("firewall-" ++ n2.id) 1 1 FwFlags.PG_NO_CONN_WORKER
          env2.firewall, RpcQueue.NOTHING] ++
        NicAdd_topology env2 g1 n2 ++ [RpcQueue.UPDATE_POLL (snapshot globals g2)] ++ rest ∧
      (rest = [] ∨ ∃ fw, rest = [RpcQueue.FW_RELOAD fw])) ∧
    ∀ first, nicsOf g1 n2.vni = [first] →
      env2.sw ≠ none ∧ (g1.vtep_, first.2.head) ∉ g2.links) :=
  ⟨by decide, NicAdd_topology_commands globals env2 g1 n2 g2 (by decide)⟩

namespace Graph

theorem NicDel_cmds_eq_topology (g : Graph) (vni : GraphVni) (n : GraphNic)
    (nic : app.Nic)
    (hnd : (vni.nics.map Prod.fst).Nodup) (hid : ∀ q ∈ vni.nics, q.2.id = q.1) :
    NicDel_cmds g vni n nic = NicDel_topology g vni n nic := by
  unfold NicDel_cmds NicDel_topology otherHead
  cases hshape : vni.nics with
  | nil => simp
  | cons x tl =>
    cases tl with
    | nil => simp
    | cons y tl2 =>
      cases tl2 with
      | nil =>
        rw [hshape] at hnd hid
        have hx := hid x (by simp)
        have hy := hid y (by simp)
        simp only [List.map_cons, List.map_nil, List.nodup_cons, List.mem_singleton,
          List.not_mem_nil, not_false_eq_true, List.nodup_nil, and_true] at hnd
        by_cases hx1 : x.1 = nic.id
        · have hy1 : ¬ y.1 = nic.id := fun e => hnd (hx1.trans e.symm)
          simp [hx, hy, hx1, hy1, List.filter]
        · simp [hx, hx1, List.filter]
      | cons z tl3 => simp

theorem mapErase_eq_nil_iff {K V : Type} [DecidableEq K] (m : List (K × V)) (k : K)
    (v : V) (h : mapFind m k = some v) :
    mapErase m k = [] ↔ m.length = 1 := by
  cases m with
  | nil => simp [mapFind] at h
  | cons x tl =>
    rw [mapErase_cons]
    cases tl with
    | nil =>
      rw [mapFind_cons] at h
      have hx1 : x.1 = k := by
        by_contra hne; rw [if_neg hne] at h; simp [mapFind] at h
      simp [hx1]
    | cons y tl2 =>
      by_cases hx1 : x.1 = k
      · simp [hx1]
      · simp [hx1]

theorem mapFind_of_length_one {K V : Type} [DecidableEq K] (m : List (K × V)) (k j : K)
    (v : V) (h : mapFind m k = some v) (hl : m.length = 1) (hj : j ≠ k) :
    mapFind m j = none := by
  match m, hl with
  | [x], _ =>
    rw [mapFind_cons] at h ⊢
    have hx1 : x.1 = k := by
      by_contra hne; rw [if_neg hne] at h; simp [mapFind] at h
    rw [if_neg (by rw [hx1]; exact fun e => hj e.symm)]
    rfl

end Graph

/-! ### `NicAdd` followed by `NicDel` -/

namespace Graph

theorem quiesce_links (g : Graph) (h : RpcQueue.EXIT ∉ g.queue_) :
    (quiesce g).links = (runAll g g.queue_).links := by
  unfold quiesce PollerUpdate
  rw [PollerUpdate_loop_of_not_mem _ _ h]

theorem length_mapPlace {K V : Type} (lt : K → K → Bool) (p : K × V) (m : List (K × V)) :
    (mapPlace lt p m).length = m.length + 1 := by
  induction m with
  | nil => rfl
  | cons q rest ih =>
    unfold mapPlace
    by_cases h : lt p.1 q.1 = true
    · rw [if_pos h]; rfl
    · rw [if_neg h]; simp [ih]

theorem NicDel_cmds_of_length_ne_two (g : Graph) (vni : GraphVni) (n : GraphNic)
    (nic : app.Nic) (h : vni.nics.length ≠ 2) :
    NicDel_cmds g vni n nic = [RpcQueue.UNLINK n.head] := by
  unfold NicDel_cmds
  match hshape : vni.nics with
  | [] => rfl
  | [_] => rfl
  | [_, _] => rw [hshape] at h; simp at h
  | _ :: _ :: _ :: _ => rfl

theorem exit_not_mem_NicAdd_topology (env : NicAddEnv) (g : Graph) (nic : app.Nic) :
    RpcQueue.EXIT ∉ NicAdd_topology env g nic := by
  unfold NicAdd_topology
  split <;> simp

theorem foldl_execLinks_tail (L : List (BrickShrPtr × BrickShrPtr)) (q rest : List RpcQueue)
    (p : RpcUpdatePoll) (hr : rest = [] ∨ ∃ fw, rest = [RpcQueue.FW_RELOAD fw]) :
    (q ++ [RpcQueue.UPDATE_POLL p] ++ rest).foldl execLinks L = q.foldl execLinks L := by
  rcases hr with h | ⟨fw, h⟩ <;> subst h <;>
    simp [List.foldl_append, execLinks]

theorem branchHead_mem (env : NicAddEnv) (nic : app.Nic) :
    branchHead env nic ∈ newBricks env := by
  unfold branchHead newBricks
  split
  · split <;> simp
  · simp

theorem isOld_ne (env : NicAddEnv) (p b : BrickShrPtr) (hp : isOld env p)
    (hb : b ∈ newBricks env) : p ≠ b := by
  intro e
  exact hp.2 (e ▸ hb)

end Graph

/-! ### The rule strings when some rule compiles -/

namespace Graph

theorem strBack_append_char (u : String) (c : Char) :
    strBack (u ++ String.singleton c) = some c := by
  unfold strBack
  simp [String.data_append, String.singleton]

theorem strPopBack_append_char (u : String) (c : Char) :
    strPopBack (u ++ String.singleton c) = u := by
  unfold strPopBack
  simp [String.data_append, String.singleton]

theorem trimTrailing_of_paren (u : String) : trimTrailing (u ++ ")") = some (u ++ ")") := by
  have h : strBack (u ++ ")") = some ')' := strBack_append_char u ')'
  unfold trimTrailing
  rw [h]
  simp

theorem trimTrailing_of_bars (u : String) : trimTrailing (u ++ "||") = some u := by
  have e : u ++ "||" = (u ++ String.singleton '|') ++ String.singleton '|' := by
    rw [String.append_assoc]; rfl
  have h : strBack (u ++ "||") = some '|' := by rw [e]; exact strBack_append_char _ '|'
  unfold trimTrailing
  rw [h]
  simp only [if_true]
  rw [e, strPopBack_append_char, strPopBack_append_char]

theorem joinWith_ends_paren (sep : String) (l : List String) (hl : l ≠ [])
    (h : ∀ x ∈ l, ∃ u, x = u ++ ")") : ∃ u, joinWith sep l = u ++ ")" := by
  induction l with
  | nil => exact absurd rfl hl
  | cons x rest ih =>
    cases rest with
    | nil => exact h x (by simp)
    | cons y rs =>
      obtain ⟨u, hu⟩ := ih (by simp) (fun z hz => h z (List.mem_cons_of_mem _ hz))
      refine ⟨x ++ sep ++ u, ?_⟩
      rw [joinWith_cons_cons, hu, String.append_assoc, String.append_assoc,
        String.append_assoc]

theorem compiledRules_cons (a : App) (p : String × app.Rule)
    (rest : List (String × app.Rule)) :
    compiledRules a (p :: rest) =
      if (FwBuildRule a p.2).length = 0 then compiledRules a rest
      else ("(" ++ FwBuildRule a p.2 ++ ")") :: compiledRules a rest := by
  unfold compiledRules
  by_cases h : (FwBuildRule a p.2).length = 0
  · simp [h]
  · simp [h]

theorem FwBuildSg_loop_eq (a : App) (rules : List (String × app.Rule)) (r : String) :
    ∃ t, FwBuildSg_loop a rules r = r ++ joinWith "||" (compiledRules a rules) ++ t ∧
      (t = "" ∨ (t = "||" ∧ compiledRules a rules ≠ [])) := by
  induction rules generalizing r with
  | nil => exact ⟨"", by simp [FwBuildSg_loop, compiledRules, joinWith], Or.inl rfl⟩
  | cons p rest ih =>
    rw [FwBuildSg_loop, compiledRules_cons]
    simp only
    by_cases h0 : (FwBuildRule a p.2).length = 0
    · rw [if_pos h0, if_pos h0]
      exact ih r
    · rw [if_neg h0, if_neg h0]
      cases rest with
      | nil =>
        refine ⟨"", ?_, Or.inl rfl⟩
        simp [FwBuildSg_loop, compiledRules, joinWith]
      | cons q rs =>
        rw [if_pos (by simp)]
        obtain ⟨t, ht, hp⟩ := ih (r ++ ("(" ++ FwBuildRule a p.2 ++ ")") ++ "||")
        rw [ht]
        cases hC : compiledRules a (q :: rs) with
        | nil =>
          rw [hC] at hp
          have : t = "" := by
            rcases hp with h | ⟨_, h⟩
            · exact h
            · exact absurd rfl h
          subst this
          refine ⟨"||", ?_, Or.inr ⟨rfl, by simp⟩⟩
          simp [joinWith]
        | cons y ys =>
          refine ⟨t, ?_, ?_⟩
          · rw [joinWith_cons_cons]
            simp only [String.append_assoc]
          · rcases hp with h | ⟨h, _⟩
            · exact Or.inl h
            · exact Or.inr ⟨h, by simp⟩

/-- When at least one rule of the group compiles, `FwBuildSg` returns the
parenthesised non-empty rule strings, in rule order, separated by `||`. -/
theorem FwBuildSg_of_compiled (a : App) (sg : app.Sg)
    (h : compiledRules a sg.rules ≠ []) :
    FwBuildSg a sg = some (joinWith "||" (compiledRules a sg.rules)) := by
  unfold FwBuildSg
  obtain ⟨t, ht, hp⟩ := FwBuildSg_loop_eq a sg.rules ""
  rw [ht, String.empty_append]
  have hends : ∃ u, joinWith "||" (compiledRules a sg.rules) = u ++ ")" := by
    apply joinWith_ends_paren _ _ h
    intro x hx
    unfold compiledRules at hx
    simp only [List.mem_map] at hx
    obtain ⟨s, _, hs⟩ := hx
    exact ⟨"(" ++ s, hs.symm⟩
  rcases hp with h1 | ⟨h1, _⟩
  · subst h1
    obtain ⟨u, hu⟩ := hends
    rw [String.append_empty, hu]
    exact trimTrailing_of_paren u
  · subst h1
    exact trimTrailing_of_bars _

/-- When no rule of the group compiles, `FwBuildSg` reads `back()` of the empty
string. -/
theorem FwBuildSg_of_not_compiled (a : App) (sg : app.Sg)
    (h : compiledRules a sg.rules = []) : FwBuildSg a sg = none := by
  unfold FwBuildSg
  obtain ⟨t, ht, hp⟩ := FwBuildSg_loop_eq a sg.rules ""
  rw [ht, h]
  rcases hp with h1 | ⟨_, h1⟩
  · subst h1; rfl
  · exact absurd h h1

theorem length_joinWith_compiled_pos (a : App) (sg : app.Sg)
    (h : compiledRules a sg.rules ≠ []) :
    (joinWith "||" (compiledRules a sg.rules)).length ≠ 0 := by
  have hends : ∃ u, joinWith "||" (compiledRules a sg.rules) = u ++ ")" := by
    apply joinWith_ends_paren _ _ h
    intro x hx
    unfold compiledRules at hx
    simp only [List.mem_map] at hx
    obtain ⟨s, _, hs⟩ := hx
    exact ⟨"(" ++ s, hs.symm⟩
  obtain ⟨u, hu⟩ := hends
  rw [hu, String.length_append]
  have : ")".length = 1 := by decide
  omega

theorem knownGroups_cons (a : App) (id : String) (rest : List String) :
    knownGroups a (id :: rest) =
      match mapFind a.security_groups id with
      | none => knownGroups a rest
      | some sg => sg :: knownGroups a rest := by
  unfold knownGroups
  cases h : mapFind a.security_groups id <;> simp [List.filterMap_cons, h]

theorem FwUpdate_in_loop_eq (a : App) (ids : List String) (r : String)
    (H : ∀ sg ∈ knownGroups a ids, compiledRules a sg.rules ≠ []) :
    ∃ t, FwUpdate_in_loop a ids r =
        some (r ++ joinWith "||" (compiledGroups a ids) ++ t) ∧
      (t = "" ∨ (t = "||" ∧ compiledGroups a ids ≠ [])) := by
  induction ids generalizing r with
  | nil => exact ⟨"", by simp [FwUpdate_in_loop, compiledGroups, knownGroups, joinWith],
      Or.inl rfl⟩
  | cons id rest ih =>
    rw [FwUpdate_in_loop]
    cases hf : mapFind a.security_groups id with
    | none =>
      have hk : knownGroups a (id :: rest) = knownGroups a rest := by
        rw [knownGroups_cons, hf]
      have hc : compiledGroups a (id :: rest) = compiledGroups a rest := by
        unfold compiledGroups; rw [hk]
      simp only
      rw [hc]
      exact ih r (fun sg hsg => H sg (by rw [hk]; exact hsg))
    | some sg =>
      have hk : knownGroups a (id :: rest) = sg :: knownGroups a rest := by
        rw [knownGroups_cons, hf]
      have hc : compiledGroups a (id :: rest) =
          ("(" ++ joinWith "||" (compiledRules a sg.rules) ++ ")") ::
            compiledGroups a rest := by
        unfold compiledGroups; rw [hk]; rfl
      have hsg := H sg (by rw [hk]; simp)
      have hrest : ∀ s ∈ knownGroups a rest, compiledRules a s.rules ≠ [] :=
        fun s hs => H s (by rw [hk]; exact List.mem_cons_of_mem _ hs)
      simp only
      rw [FwBuildSg_of_compiled a sg hsg]
      simp only
      rw [if_neg (length_joinWith_compiled_pos a sg hsg), hc]
      cases rest with
      | nil =>
        refine ⟨"", ?_, Or.inl rfl⟩
        simp [FwUpdate_in_loop, compiledGroups, knownGroups, joinWith]
      | cons q rs =>
        rw [if_pos (by simp)]
        obtain ⟨t, ht, hp⟩ :=
          ih (r ++ ("(" ++ joinWith "||" (compiledRules a sg.rules) ++ ")") ++ "||") hrest
        rw [ht]
        cases hC : compiledGroups a (q :: rs) with
        | nil =>
          rw [hC] at hp
          have : t = "" := by
            rcases hp with h | ⟨_, h⟩
            · exact h
            · exact absurd rfl h
          subst this
          refine ⟨"||", ?_, Or.inr ⟨rfl, by simp⟩⟩
          simp [joinWith]
        | cons y ys =>
          refine ⟨t, ?_, ?_⟩
          · rw [joinWith_cons_cons]
            simp only [String.append_assoc]
          · rcases hp with h | ⟨h, _⟩
            · exact Or.inl h
            · exact Or.inr ⟨h, by simp⟩

/-- When the NIC references at least one group of the model and every such
group has a rule that compiles, the inbound string of `FwUpdate` is the list of
the parenthesised group strings, in list order, separated by `||`. -/
theorem FwUpdate_in_rules_of_compiled (a : App) (nic : app.Nic)
    (hne : knownGroups a nic.security_groups ≠ [])
    (H : ∀ sg ∈ knownGroups a nic.security_groups, compiledRules a sg.rules ≠ []) :
    FwUpdate_in_rules a nic =
      some (joinWith "||" (compiledGroups a nic.security_groups)) := by
  unfold FwUpdate_in_rules
  obtain ⟨t, ht, hp⟩ := FwUpdate_in_loop_eq a nic.security_groups "" H
  rw [ht]
  simp only
  rw [String.empty_append]
  have hcne : compiledGroups a nic.security_groups ≠ [] := by
    unfold compiledGroups
    simpa using hne
  have hends : ∃ u, joinWith "||" (compiledGroups a nic.security_groups) = u ++ ")" := by
    apply joinWith_ends_paren _ _ hcne
    intro x hx
    unfold compiledGroups at hx
    simp only [List.mem_map] at hx
    obtain ⟨s, _, hs⟩ := hx
    exact ⟨"(" ++ joinWith "||" (compiledRules a s.rules), hs.symm⟩
  rcases hp with h1 | ⟨h1, _⟩
  · subst h1
    obtain ⟨u, hu⟩ := hends
    rw [String.append_empty, hu]
    exact trimTrailing_of_paren u
  · subst h1
    exact trimTrailing_of_bars _

end Graph

/-! ### Well-formedness of the maps is preserved -/

theorem map_fst_mapSet {K V : Type} [DecidableEq K] (m : List (K × V)) (k : K) (v : V) :
    (mapSet m k v).map Prod.fst = m.map Prod.fst := by
  induction m with
  | nil => rfl
  | cons p rest ih =>
    rw [mapSet_cons]
    by_cases h : p.1 = k
    · rw [if_pos h]; rfl
    · rw [if_neg h]; simp [ih]

theorem mem_mapSet {K V : Type} [DecidableEq K] (m : List (K × V)) (k : K) (v : V)
    (q : K × V) (h : q ∈ mapSet m k v) : q ∈ m ∨ q = (k, v) := by
  induction m with
  | nil => simp [mapSet] at h
  | cons p rest ih =>
    rw [mapSet_cons] at h
    by_cases h1 : p.1 = k
    · rw [if_pos h1] at h
      rcases List.mem_cons.1 h with e | e
      · exact Or.inr (by rw [e, h1])
      · exact Or.inl (List.mem_cons_of_mem _ e)
    · rw [if_neg h1] at h
      rcases List.mem_cons.1 h with e | e
      · exact Or.inl (by rw [e]; simp)
      · rcases ih e with e2 | e2
        · exact Or.inl (List.mem_cons_of_mem _ e2)
        · exact Or.inr e2

theorem mem_mapPlace {K V : Type} (lt : K → K → Bool) (p q : K × V) (m : List (K × V)) :
    q ∈ mapPlace lt p m ↔ q = p ∨ q ∈ m := by
  induction m with
  | nil => simp [mapPlace]
  | cons x rest ih =>
    unfold mapPlace
    by_cases h : lt p.1 x.1 = true
    · rw [if_pos h]; simp
    · rw [if_neg h]
      simp only [List.mem_cons, ih]
      tauto

theorem nodup_mapPlace {K V : Type} [DecidableEq K] (lt : K → K → Bool) (p : K × V)
    (m : List (K × V)) (h : (m.map Prod.fst).Nodup) (hp : mapFind m p.1 = none) :
    ((mapPlace lt p m).map Prod.fst).Nodup := by
  induction m with
  | nil => simp [mapPlace]
  | cons x rest ih =>
    rw [mapFind_cons] at hp
    have hx : ¬ x.1 = p.1 := by
      intro e; rw [if_pos e] at hp; cases hp
    rw [if_neg hx] at hp
    simp only [List.map_cons, List.nodup_cons] at h
    unfold mapPlace
    by_cases hl : lt p.1 x.1 = true
    · rw [if_pos hl]
      simp only [List.map_cons, List.nodup_cons, List.mem_cons, not_or]
      exact ⟨⟨fun e => hx e.symm, (mapFind_eq_none_iff _ _).1 hp⟩, h.1, h.2⟩
    · rw [if_neg hl]
      simp only [List.map_cons, List.nodup_cons]
      refine ⟨?_, ih h.2 hp⟩
      intro hm
      rw [List.mem_map] at hm
      obtain ⟨q, hq, hq1⟩ := hm
      rcases (mem_mapPlace lt p q rest).1 hq with e | e
      · rw [e] at hq1; exact hx hq1.symm
      · exact h.1 (List.mem_map.2 ⟨q, e, hq1⟩)

theorem mapErase_sublist {K V : Type} [DecidableEq K] (m : List (K × V)) (k : K) :
    (mapErase m k).Sublist m := by
  induction m with
  | nil => exact List.Sublist.refl _
  | cons p rest ih =>
    rw [mapErase_cons]
    by_cases h : p.1 = k
    · rw [if_pos h]; exact List.sublist_cons_self _ _
    · rw [if_neg h]; exact ih.cons₂ _

namespace Graph

/-- The well-formedness condition of `WF` for one VNI entry under the key `k`. -/
theorem WF_mapSet (g g' : Graph) (k : Nat) (e : GraphVni) (h : WF g)
    (hv : g'.vnis_ = mapSet g.vnis_ k e) (h1 : e.vni = k)
    (h2 : (e.nics.map Prod.fst).Nodup) (h3 : ∀ q ∈ e.nics, q.2.id = q.1) : WF g' := by
  unfold WF
  rw [hv, map_fst_mapSet]
  refine ⟨h.1, ?_⟩
  intro p hp
  rcases mem_mapSet _ _ _ _ hp with hm | hm
  · exact h.2 p hm
  · rw [hm]; exact ⟨h1, h2, h3⟩

theorem WF_congr (g g' : Graph) (h : WF g) (hv : g'.vnis_ = g.vnis_) : WF g' := by
  unfold WF at h ⊢
  rw [hv]; exact h

theorem WF_NicAdd_vni (g : Graph) (nic : app.Nic) (h : WF g) : WF (NicAdd_vni g nic) := by
  unfold NicAdd_vni
  cases hf : mapFind g.vnis_ nic.vni with
  | some v => exact h
  | none =>
    unfold WF
    simp only [mapInsert, hf]
    refine ⟨nodup_mapPlace _ _ _ h.1 hf, ?_⟩
    intro p hp
    rcases (mem_mapPlace _ _ _ _).1 hp with e | e
    · rw [e]; simp
    · exact h.2 p e

theorem entryOf_WF (g : Graph) (k : Nat) (h : WF g) :
    (entryOf g k).vni = k ∧ ((entryOf g k).nics.map Prod.fst).Nodup ∧
      ∀ q ∈ (entryOf g k).nics, q.2.id = q.1 := by
  unfold entryOf
  cases hf : mapFind g.vnis_ k with
  | none => simp
  | some v => exact h.2 _ (mapFind_mem _ _ _ hf)

theorem WF_NicDel (a : App) (g : Graph) (nic : app.Nic) (g' : Graph) (hs : Started g)
    (h : WF g) (hd : NicDel a g nic = some g') : WF g' := by
  cases hv : mapFind g.vnis_ nic.vni with
  | none =>
    unfold NicDel at hd
    rw [if_neg (by simp [hs.1]), hv] at hd
    simp only [Option.some.injEq] at hd
    rw [← hd]; exact h
  | some vni =>
    cases hn : mapFind vni.nics nic.id with
    | none =>
      unfold NicDel at hd
      rw [if_neg (by simp [hs.1]), hv] at hd
      simp only at hd
      rw [hn] at hd
      simp only [Option.some.injEq] at hd
      rw [← hd]; exact h
    | some n =>
      obtain ⟨g2, h2, _, _, _, _, _, _, hvn⟩ := NicDel_present a g nic vni n hs.1 hv hn hs.2
      rw [hd] at h2
      simp only [Option.some.injEq] at h2
      subst h2
      obtain ⟨e1, e2, e3⟩ := h.2 _ (mapFind_mem _ _ _ hv)
      simp only at e1 e2 e3
      have hsub := mapErase_sublist vni.nics nic.id
      have hset : WF { g with vnis_ := mapSet g.vnis_ nic.vni (NicDel_entry vni nic) } :=
        WF_mapSet g _ nic.vni (NicDel_entry vni nic) h rfl e1
          ((hsub.map Prod.fst).nodup e2) (fun q hq => e3 q (hsub.subset hq))
      unfold NicDel_vnis at hvn
      by_cases hE : (NicDel_entry vni nic).nics = []
      · rw [if_pos hE] at hvn
        have hsub2 := mapErase_sublist (mapSet g.vnis_ nic.vni (NicDel_entry vni nic)) vni.vni
        unfold WF
        rw [hvn]
        exact ⟨(hsub2.map Prod.fst).nodup hset.1, fun p hp => hset.2 p (hsub2.subset hp)⟩
      · rw [if_neg hE] at hvn
        exact WF_congr _ _ hset hvn

theorem LinkAndStalk_vnis (a : App) (ok : Bool) (g : Graph) (w e s : BrickShrPtr) :
    (LinkAndStalk a ok g w e s).2.vnis_ = g.vnis_ := by
  unfold LinkAndStalk
  split <;> split <;> rfl

theorem NicAdd_branch_vnis (a : App) (env : NicAddEnv) (g : Graph) (nic : app.Nic)
    (g1 : Graph) (o : Option GraphNic) (h : NicAdd_branch a env g nic = some (g1, o)) :
    g1.vnis_ = g.vnis_ := by
  unfold NicAdd_branch at h
  cases hw : WaitEmptyQueue (fw_new g ("firewall-" ++ nic.id) 1 1
      FwFlags.PG_NO_CONN_WORKER env.firewall) with
  | none => rw [hw] at h; simp at h
  | some g2 =>
    rw [hw] at h
    rw [WaitEmptyQueue_eq_some_iff] at hw
    have hv : g2.vnis_ = g.vnis_ := by
      rw [hw.2]
      exact runAll_vnis _ _
    clear hw
    have fin : ∀ (x : Graph) (o' : Option GraphNic), some (x, o') = some (g1, o) →
        x.vnis_ = g2.vnis_ → g1.vnis_ = g.vnis_ := by
      intro x o' hx hxv
      simp only [Option.some.injEq, Prod.mk.injEq] at hx
      rw [← hx.1, hxv, hv]
    simp only at h
    by_cases c1 : env.firewall = none
    · rw [if_pos c1] at h; exact fin _ _ h rfl
    rw [if_neg c1] at h
    by_cases c2 : env.antispoof = none
    · rw [if_pos c2] at h; exact fin _ _ h rfl
    rw [if_neg c2] at h
    by_cases c3 : nic.type = app.NicType.OTHER
    · rw [if_pos c3] at h; exact fin _ _ h rfl
    rw [if_neg c3] at h
    by_cases c4 : env.vhost = none
    · rw [if_pos c4] at h; exact fin _ _ h rfl
    rw [if_neg c4] at h
    by_cases c5 : nic.packet_trace = true ∧ env.sniffer = none
    · rw [if_pos c5] at h; exact fin _ _ h rfl
    rw [if_neg c5] at h
    by_cases cb : nic.bypass_filtering = true
    · rw [if_pos cb] at h
      by_cases cp : nic.packet_trace = true
      · rw [if_pos cp] at h
        by_cases cl : env.link_ok = false
        · rw [if_pos cl] at h; exact fin _ _ h rfl
        · rw [if_neg cl] at h; exact fin _ _ h rfl
      · rw [if_neg cp] at h; exact fin _ _ h rfl
    · rw [if_neg cb] at h
      by_cases cl : env.link_ok = false
      · rw [if_pos cl] at h; exact fin _ _ h rfl
      · rw [if_neg cl] at h
        exact fin _ _ h (LinkAndStalk_vnis _ _ _ _ _ _)

theorem NicAdd_attach_WF (env : NicAddEnv) (g1 : Graph) (nic : app.Nic) (vni : GraphVni)
    (gn : GraphNic) (g2 : Graph) (ov : Option GraphVni) (h : WF g1)
    (h1 : vni.vni = nic.vni) (h2 : (vni.nics.map Prod.fst).Nodup)
    (h3 : ∀ q ∈ vni.nics, q.2.id = q.1)
    (hat : NicAdd_attach env g1 nic vni gn = (g2, ov)) :
    WF g2 ∧ ∀ vni', ov = some vni' → vni'.vni = vni.vni ∧ vni'.nics = vni.nics := by
  unfold NicAdd_attach at hat
  have fin : ∀ (x : Graph) (o' : Option GraphVni), (x, o') = (g2, ov) → WF x →
      (∀ vni', o' = some vni' → vni'.vni = vni.vni ∧ vni'.nics = vni.nics) →
      WF g2 ∧ ∀ vni', ov = some vni' → vni'.vni = vni.vni ∧ vni'.nics = vni.nics := by
    intro x o' hx hwx ho
    simp only [Prod.mk.injEq] at hx
    rw [← hx.1, ← hx.2]
    exact ⟨hwx, ho⟩
  have hsome : ∀ (s : BrickShrPtr) (vni' : GraphVni),
      some { vni with sw := s } = some vni' →
      vni'.vni = vni.vni ∧ vni'.nics = vni.nics := by
    intro s vni' e
    simp only [Option.some.injEq] at e
    rw [← e]
    exact ⟨rfl, rfl⟩
  have hsame : ∀ vni', some vni = some vni' → vni'.vni = vni.vni ∧ vni'.nics = vni.nics := by
    intro vni' e
    simp only [Option.some.injEq] at e
    rw [← e]
    exact ⟨rfl, rfl⟩
  have hnone : ∀ vni', (none : Option GraphVni) = some vni' →
      vni'.vni = vni.vni ∧ vni'.nics = vni.nics := by
    intro vni' e; cases e
  have hwset : ∀ x : Graph, x.vnis_ = mapSet g1.vnis_ nic.vni { vni with sw := env.sw } →
      WF x := fun x hx => WF_mapSet g1 x nic.vni _ h hx h1 h2 h3
  obtain ⟨l, hl⟩ : ∃ l, l = vni.nics := ⟨_, rfl⟩
  rw [← hl] at hat
  cases l with
  | nil =>
    exact fin _ _ hat (WF_congr _ _ h rfl) hsame
  | cons first tl =>
    cases tl with
    | nil =>
      simp only at hat
      rw [hl] at hat
      by_cases csw : env.sw = none
      · rw [if_pos csw] at hat; exact fin _ _ hat (hwset _ rfl) hnone
      rw [if_neg csw] at hat
      by_cases cul : env.unlink_edge_ok = false
      · rw [if_pos cul] at hat; exact fin _ _ hat (hwset _ rfl) hnone
      rw [if_neg cul] at hat
      exact fin _ _ hat (hwset _ rfl) (hsome env.sw)
    | cons second tl2 =>
      exact fin _ _ hat (WF_congr _ _ h rfl) hsame

/-- `NicAdd` keeps the maps well-formed, whatever it returns. -/
theorem WF_NicAdd (a : App) (env : NicAddEnv) (g : Graph) (nic : app.Nic) (b : Bool)
    (g' : Graph) (h : WF g) (hadd : NicAdd a env g nic = some (b, g')) : WF g' := by
  unfold NicAdd at hadd
  by_cases hs : g.started = false
  · rw [if_pos hs] at hadd
    simp only [Option.some.injEq, Prod.mk.injEq] at hadd
    rw [← hadd.2]; exact h
  rw [if_neg hs] at hadd
  simp only at hadd
  obtain ⟨_, _, _, _, _, _, _, v8⟩ := NicAdd_vni_fields g nic
  rw [v8] at hadd
  simp only at hadd
  have w0 := WF_NicAdd_vni g nic h
  obtain ⟨e1, e2, e3⟩ := entryOf_WF g nic.vni h
  cases hb : NicAdd_branch a env (NicAdd_vni g nic) nic with
  | none => rw [hb] at hadd; simp at hadd
  | some r =>
    obtain ⟨g1, ogn⟩ := r
    have w1 : WF g1 := WF_congr _ _ w0 (NicAdd_branch_vnis _ _ _ _ _ _ hb)
    cases ogn with
    | none =>
      rw [hb] at hadd
      simp only [Option.some.injEq, Prod.mk.injEq] at hadd
      rw [← hadd.2]; exact w1
    | some gn =>
      have hgn : gn = branchNic env nic := (NicAdd_branch_some _ _ _ _ _ _ hb).2.1
      rw [hb] at hadd
      simp only at hadd
      cases hat : NicAdd_attach env g1 nic (entryOf g nic.vni) gn with
      | mk g2 ov =>
        obtain ⟨w2, hov⟩ := NicAdd_attach_WF env g1 nic _ gn g2 ov w1 e1 e2 e3 hat
        rw [hat] at hadd
        cases ov with
        | none =>
          simp only [Option.some.injEq, Prod.mk.injEq] at hadd
          rw [← hadd.2]; exact w2
        | some vni' =>
          obtain ⟨hv1, hv2⟩ := hov vni' rfl
          simp only at hadd
          split at hadd
          · simp at hadd
          · rename_i gf hfw
            simp only [Option.some.injEq, Prod.mk.injEq] at hadd
            rw [← hadd.2]
            obtain ⟨_, f2, _⟩ := FwUpdate_some _ _ _ _ _ _ hfw
            simp only [update_poll, push] at f2
            refine WF_mapSet g2 gf nic.vni _ w2 f2 (by simp only; rw [hv1]; exact e1) ?_ ?_
            · simp only
              rw [hv2]
              unfold mapInsert
              cases hf : mapFind (entryOf g nic.vni).nics nic.id with
              | some _ => exact e2
              | none => exact nodup_mapPlace _ _ _ e2 hf
            · simp only
              rw [hv2]
              unfold mapInsert
              cases hf : mapFind (entryOf g nic.vni).nics nic.id with
              | some _ => exact e3
              | none =>
                intro q hq
                rcases (mem_mapPlace _ _ _ _).1 hq with e | e
                · rw [e, hgn]; rfl
                · exact e3 q e

/-- The maps of a graph without VNI are well-formed. -/
theorem WF_of_vnis_nil (g : Graph) (h : g.vnis_ = []) : WF g := by
  unfold WF
  rw [h]
  simp

end Graph

/-! ### The switch invariant on the paths that keep it -/

namespace Graph

theorem mem_mapErase {K V : Type} [DecidableEq K] (m : List (K × V)) (k : K) (q : K × V)
    (h : q ∈ mapErase m k) : q ∈ m :=
  (mapErase_sublist m k).subset h

theorem length_mapErase {K V : Type} [DecidableEq K] (m : List (K × V)) (k : K) (v : V)
    (h : mapFind m k = some v) : (mapErase m k).length + 1 = m.length := by
  induction m with
  | nil => simp [mapFind] at h
  | cons x tl ih =>
    rw [mapErase_cons]
    rw [mapFind_cons] at h
    by_cases hx : x.1 = k
    · rw [if_pos hx]; rfl
    · rw [if_neg hx] at h ⊢
      simp [ih h]

theorem mem_NicAdd_vni (g : Graph) (nic : app.Nic) (p : Nat × GraphVni)
    (h : p ∈ (NicAdd_vni g nic).vnis_) :
    p ∈ g.vnis_ ∨ p = (nic.vni, { vni := nic.vni, sw := none, nics := [] }) := by
  unfold NicAdd_vni at h
  cases hf : mapFind g.vnis_ nic.vni with
  | some v => rw [hf] at h; exact Or.inl h
  | none =>
    rw [hf] at h
    simp only [mapInsert, hf] at h
    rcases (mem_mapPlace _ _ _ _).1 h with e | e
    · exact Or.inr e
    · exact Or.inl e

theorem entryOf_SwitchInv (g : Graph) (k : Nat) (h : SwitchInv g) :
    ((entryOf g k).sw ≠ none ↔ 2 ≤ (entryOf g k).nics.length) := by
  unfold entryOf
  cases hf : mapFind g.vnis_ k with
  | none => simp
  | some v => exact h _ (mapFind_mem _ _ _ hf)

/-- A successful `NicAdd` of a NIC whose id is not yet in its VNI keeps the
switch invariant. -/
theorem SwitchInv_NicAdd_fresh (a : App) (env : NicAddEnv) (g : Graph) (nic : app.Nic)
    (g' : Graph) (h : SwitchInv g)
    (hfresh : mapFind (nicsOf g nic.vni) nic.id = none)
    (hadd : NicAdd a env g nic = some (true, g')) : SwitchInv g' := by
  obtain ⟨_, _, _, _, _, hv, _, _, _, hsw⟩ := NicAdd_true a env g nic g' hadd
  rw [nicsOf_eq] at hfresh
  have hinv := entryOf_SwitchInv g nic.vni h
  intro p hp
  rw [hv] at hp
  unfold NicAdd_vnis at hp
  rcases mem_mapSet _ _ _ _ hp with hm | hm
  · rcases mem_NicAdd_vni g nic p hm with e | e
    · exact h p e
    · rw [e]; simp
  · rw [hm]
    have hlen : (NicAdd_entry env g nic).nics.length =
        (entryOf g nic.vni).nics.length + 1 := by
      simp [NicAdd_entry, mapInsert, hfresh, length_mapPlace]
    simp only
    rw [hlen]
    cases hn : (entryOf g nic.vni).nics with
    | nil =>
      rw [hn] at hinv
      have : (entryOf g nic.vni).sw = none := by
        by_contra hh
        have := hinv.1 hh
        simp at this
      simp [NicAdd_entry, hn, this]
    | cons x tl =>
      cases tl with
      | nil =>
        have := hsw x hn
        simp [NicAdd_entry, hn, this]
      | cons y tl2 =>
        rw [hn] at hinv
        have := hinv.2 (by simp)
        simp [NicAdd_entry, hn, this]

/-- `NicDel` on a started graph keeps the switch invariant. -/
theorem SwitchInv_NicDel (a : App) (g : Graph) (nic : app.Nic) (g' : Graph)
    (hs : Started g) (h : SwitchInv g) (hd : NicDel a g nic = some g') :
    SwitchInv g' := by
  cases hv : mapFind g.vnis_ nic.vni with
  | none =>
    unfold NicDel at hd
    rw [if_neg (by simp [hs.1]), hv] at hd
    simp only [Option.some.injEq] at hd
    rw [← hd]; exact h
  | some vni =>
    cases hn : mapFind vni.nics nic.id with
    | none =>
      unfold NicDel at hd
      rw [if_neg (by simp [hs.1]), hv] at hd
      simp only at hd
      rw [hn] at hd
      simp only [Option.some.injEq] at hd
      rw [← hd]; exact h
    | some n =>
      obtain ⟨g2, h2, _, _, _, _, _, _, hvn⟩ := NicDel_present a g nic vni n hs.1 hv hn hs.2
      rw [hd] at h2
      simp only [Option.some.injEq] at h2
      subst h2
      have hinv := h _ (mapFind_mem _ _ _ hv)
      simp only at hinv
      have hentry : ((NicDel_entry vni nic).sw ≠ none ↔
          2 ≤ (NicDel_entry vni nic).nics.length) := by
        have hlen : (mapErase vni.nics nic.id).length + 1 = vni.nics.length :=
          length_mapErase _ _ _ hn
        show ((if vni.nics.length = 2 then none else vni.sw) ≠ none ↔
          2 ≤ (mapErase vni.nics nic.id).length)
        by_cases h2 : vni.nics.length = 2
        · rw [if_pos h2]
          simp only [ne_eq, not_true_eq_false, false_iff]
          omega
        · rw [if_neg h2, hinv]
          omega
      intro p hp
      rw [hvn] at hp
      unfold NicDel_vnis at hp
      have hset : ∀ q ∈ mapSet g.vnis_ nic.vni (NicDel_entry vni nic),
          (q.2.sw ≠ none ↔ 2 ≤ q.2.nics.length) := by
        intro q hq
        rcases mem_mapSet _ _ _ _ hq with e | e
        · exact h q e
        · rw [e]; exact hentry
      by_cases hE : (NicDel_entry vni nic).nics = []
      · rw [if_pos hE] at hp
        exact hset p (mem_mapErase _ _ _ hp)
      · rw [if_neg hE] at hp
        exact hset p hp

end Graph

/-! ## The rule compiler: when a rule is dropped -/

theorem str_eq_empty_iff_length (s : String) : s = "" ↔ s.length = 0 := by
  constructor
  · intro h; rw [h]; rfl
  · intro h
    cases s with
    | mk d =>
      have : d = [] := List.length_eq_zero.1 h
      rw [this]

namespace Graph

theorem FwBuildRule_source_none_iff (a : App) (rule : app.Rule) :
    FwBuildRule_source a rule = none ↔
      (rule.security_group ≠ "" ∧
        (mapFind a.security_groups rule.security_group = none ∨
         ∃ sg, mapFind a.security_groups rule.security_group = some sg ∧
           sg.members = [])) := by
  unfold FwBuildRule_source
  by_cases h0 : rule.security_group.length = 0
  · rw [if_pos h0]
    have he : rule.security_group = "" := (str_eq_empty_iff_length _).2 h0
    constructor
    · intro h
      by_cases hm : rule.cidr.mask_size ≠ 0
      · rw [if_pos hm] at h; cases h
      · rw [if_neg hm] at h
        by_cases ht : rule.cidr.address.Type_ = app.IpType.V4
        · rw [if_pos ht] at h; cases h
        · rw [if_neg ht] at h; cases h
    · intro h; exact absurd he h.1
  · rw [if_neg h0]
    have hne : rule.security_group ≠ "" := fun h => h0 ((str_eq_empty_iff_length _).1 h)
    cases hf : mapFind a.security_groups rule.security_group with
    | none => simp [hne]
    | some sg =>
      simp only
      by_cases hl : sg.members.length > 0
      · rw [if_pos hl]
        have : sg.members ≠ [] := List.length_pos.1 hl
        simp [this]
      · rw [if_neg hl]
        have : sg.members = [] := List.length_eq_zero.1 (by omega)
        simp [hne, this]

theorem FwBuildRule_source_length (a : App) (rule : app.Rule) (r : String)
    (h : FwBuildRule_source a rule = some r) : 0 < r.length := by
  unfold FwBuildRule_source at h
  by_cases h0 : rule.security_group.length = 0
  · rw [if_pos h0] at h
    by_cases hm : rule.cidr.mask_size ≠ 0
    · rw [if_pos hm] at h
      cases h
      simp only [String.length_append]
      have : "src net ".length = 8 := by decide
      omega
    · rw [if_neg hm] at h
      by_cases ht : rule.cidr.address.Type_ = app.IpType.V4
      · rw [if_pos ht] at h; cases h; decide
      · rw [if_neg ht] at h; cases h; decide
  · rw [if_neg h0] at h
    cases hf : mapFind a.security_groups rule.security_group with
    | none => rw [hf] at h; cases h
    | some sg =>
      rw [hf] at h
      simp only at h
      by_cases hl : sg.members.length > 0
      · rw [if_pos hl] at h
        cases h
        simp only [String.length_append]
        have : ")".length = 1 := by decide
        omega
      · rw [if_neg hl] at h; cases h

theorem FwBuildRule_protocol_length (rule : app.Rule) (r : String) :
    r.length ≤ (FwBuildRule_protocol rule r).length := by
  unfold FwBuildRule_protocol
  split_ifs <;> simp [String.length_append]

theorem FwBuildRule_members_eq (l : List app.Ip) (r : String) :
    FwBuildRule_members l r =
      r ++ joinWith " or" (l.map (fun m => " src host " ++ m.Str)) := by
  induction l generalizing r with
  | nil => simp [FwBuildRule_members, joinWith]
  | cons ip rest ih =>
    rw [FwBuildRule_members]
    cases rest with
    | nil => simp [FwBuildRule_members, joinWith]
    | cons y ys =>
      rw [if_pos (by simp), ih]
      simp only [List.map_cons, joinWith_cons_cons, String.append_assoc]

end Graph

/-! ## The MTU search -/

namespace Graph

/-- With a device that accepts exactly the values `m ≤ K`, the search loop
started on `min ≤ K < max` with `max - min ≤ 2 ^ n` ends within `n + 1`
evaluations of its condition, on `(K, K + 1)`. -/
theorem SetConfigMtu_loop_finds (K : Int) (n : Nat) :
    ∀ (fuel : Nat) (min max : Int) (s : MtuState), n < fuel → 0 ≤ min → min ≤ K →
      K < max → max - min ≤ 2 ^ n →
      ∃ s1, SetConfigMtu_loop (fun m => decide (m ≤ K)) fuel min max s =
        some (K, K + 1, s1) := by
  induction n with
  | zero =>
    intro fuel min max s hf h0 h1 h2 h3
    cases fuel with
    | zero => omega
    | succ f =>
      have hmin : min = max - 1 := by simp at h3; omega
      have hK : K = min := by omega
      rw [SetConfigMtu_loop, if_neg (by simpa using hmin)]
      exact ⟨s, by rw [hK, hmin]; simp⟩
  | succ n ih =>
    intro fuel min max s hf h0 h1 h2 h3
    cases fuel with
    | zero => omega
    | succ f =>
      rw [SetConfigMtu_loop]
      by_cases hmin : min = max - 1
      · have hK : K = min := by omega
        rw [if_neg (by simpa using hmin)]
        exact ⟨s, by rw [hK, hmin]; simp⟩
      · rw [if_pos hmin]
        simp only
        have hm : Int.tdiv (min + max) 2 = (min + max) / 2 :=
          Int.tdiv_eq_ediv (by omega) (by decide)
        rw [hm]
        have hpow : (2 : Int) ^ (n + 1) = 2 * 2 ^ n := by rw [pow_succ]; ring
        rw [hpow] at h3
        by_cases hle : (min + max) / 2 ≤ K
        · have hr : (pg_nic_set_mtu (fun m => decide (m ≤ K)) s ((min + max) / 2)).1 = true := by
            simp [pg_nic_set_mtu, hle]
          rw [if_neg (by rw [hr]; decide)]
          exact ih f _ _ _ (by omega) (by omega) hle h2 (by omega)
        · have hr : (pg_nic_set_mtu (fun m => decide (m ≤ K)) s ((min + max) / 2)).1 = false := by
            simp [pg_nic_set_mtu, hle]
          rw [if_pos hr]
          exact ih f _ _ _ (by omega) h0 h1 (by omega) (by omega)

end Graph

/-! ## The branch that `NicAdd` builds -/

namespace Graph

/-- The bricks and the links of the branch that `NicAdd` builds (lines
461-557): the library has returned the firewall, the antispoof, the tail and,
for a traced NIC, the sniffer; a bypassed branch links the sniffer to the tail
when the NIC is traced; a filtered branch links the firewall to the antispoof
and then, through `LinkAndStalk`, the antispoof to the tail, directly or
through the sniffer according to the global `app::config.packet_trace`. -/
theorem NicAdd_branch_detail (a : App) (env : NicAddEnv) (g : Graph) (nic : app.Nic)
    (g1 : Graph) (gn : GraphNic)
    (h : NicAdd_branch a env g nic = some (g1, some gn)) :
    env.firewall ≠ none ∧ env.antispoof ≠ none ∧ env.vhost ≠ none ∧
    (nic.packet_trace = true → env.sniffer ≠ none) ∧
    g1.links = (runAll g g.queue_).links ++
      (if nic.bypass_filtering then
         (if nic.packet_trace then [(gn.sniffer, gn.vhost)] else [])
       else [(gn.firewall, gn.antispoof)] ++
         (if env.stalk_ok = false then []
          else if a.packet_trace then
            [(gn.antispoof, gn.sniffer), (gn.sniffer, gn.vhost)]
          else [(gn.antispoof, gn.vhost)])) := by
  unfold NicAdd_branch at h
  cases hw : WaitEmptyQueue (fw_new g ("firewall-" ++ nic.id) 1 1
      FwFlags.PG_NO_CONN_WORKER env.firewall) with
  | none => rw [hw] at h; simp at h
  | some g2 =>
    rw [hw] at h
    rw [WaitEmptyQueue_eq_some_iff] at hw
    obtain ⟨_, hg2⟩ := hw
    have hl : g2.links = (runAll g g.queue_).links := by
      rw [hg2]
      simp only [runAll_links, fw_new, push, List.foldl_append, List.foldl_cons,
        List.foldl_nil, execLinks]
    clear hg2
    simp only at h
    by_cases c1 : env.firewall = none
    · rw [if_pos c1] at h; simp at h
    rw [if_neg c1] at h
    by_cases c2 : env.antispoof = none
    · rw [if_pos c2] at h; simp at h
    rw [if_neg c2] at h
    by_cases c3 : nic.type = app.NicType.OTHER
    · rw [if_pos c3] at h; simp at h
    rw [if_neg c3] at h
    by_cases c4 : env.vhost = none
    · rw [if_pos c4] at h; simp at h
    rw [if_neg c4] at h
    by_cases c5 : nic.packet_trace = true ∧ env.sniffer = none
    · rw [if_pos c5] at h; simp at h
    rw [if_neg c5] at h
    have c5' : nic.packet_trace = true → env.sniffer ≠ none := fun e1 e2 => c5 ⟨e1, e2⟩
    refine ⟨c1, c2, c4, c5', ?_⟩
    cases hb : nic.bypass_filtering <;> cases hp : nic.packet_trace <;>
      cases hlk : env.link_ok <;> cases hap : a.packet_trace <;>
      cases hst : env.stalk_ok <;>
      simp only [hb, hp, hlk, hap, hst, LinkAndStalk, if_true, if_false,
        Bool.false_eq_true, Option.some.injEq, Prod.mk.injEq, reduceCtorEq,
        and_false] at h
    all_goals obtain ⟨hg, hn⟩ := h
    all_goals subst hg
    all_goals subst hn
    all_goals simp [pg_brick_link, pg_brick_chained_links, hl]

/-- A `NicAdd` that returns `true` has built a branch. -/
theorem NicAdd_true_branch (a : App) (env : NicAddEnv) (g : Graph) (nic : app.Nic)
    (g' : Graph) (h : NicAdd a env g nic = some (true, g')) :
    ∃ g1 gn, NicAdd_branch a env (NicAdd_vni g nic) nic = some (g1, some gn) := by
  unfold NicAdd at h
  by_cases hs : g.started = false
  · rw [if_pos hs] at h; simp at h
  rw [if_neg hs] at h
  simp only at h
  obtain ⟨_, _, _, _, _, _, _, v8⟩ := NicAdd_vni_fields g nic
  rw [v8] at h
  simp only at h
  cases hb : NicAdd_branch a env (NicAdd_vni g nic) nic with
  | none => rw [hb] at h; simp at h
  | some r =>
    obtain ⟨g1, ogn⟩ := r
    cases ogn with
    | none => rw [hb] at h; simp at h
    | some gn => exact ⟨g1, gn, rfl⟩

/-- The branch that `FindNic` returns after a successful `NicAdd` of a NIC
whose id the VNI did not hold. -/
theorem FindNic_NicAdd (a : App) (env : NicAddEnv) (g : Graph) (nic : app.Nic)
    (g' : Graph) (h : NicAdd a env g nic = some (true, g'))
    (hfresh : mapFind (nicsOf g nic.vni) nic.id = none) :
    FindNic g' nic = some (branchNic env nic) := by
  obtain ⟨_, _, _, _, _, hv, _⟩ := NicAdd_true a env g nic g' h
  obtain ⟨_, _, _, _, _, _, _, v8⟩ := NicAdd_vni_fields g nic
  unfold FindNic
  rw [hv]
  unfold NicAdd_vnis
  rw [mapFind_mapSet_self, v8]
  simp only [Option.map_some']
  rw [nicsOf_eq] at hfresh
  simp only [NicAdd_entry, mapInsert, hfresh]
  exact mapFind_mapPlace_self _ _ _ _ hfresh

end Graph

/-! ## The inbound string of `FwUpdate` is never empty -/

namespace Graph

theorem FwUpdate_in_loop_shape (a : App) (ids : List String) (r out : String)
    (h : FwUpdate_in_loop a ids r = some out) :
    out = r ∨ (∃ u, out = u ++ ")") ∨ ∃ u, out = u ++ ")" ++ "||" := by
  induction ids generalizing r with
  | nil =>
    rw [FwUpdate_in_loop] at h
    cases h
    exact Or.inl rfl
  | cons id rest ih =>
    rw [FwUpdate_in_loop] at h
    cases hf : mapFind a.security_groups id with
    | none =>
      rw [hf] at h
      exact ih r h
    | some sg =>
      rw [hf] at h
      simp only at h
      cases hb : FwBuildSg a sg with
      | none => rw [hb] at h; cases h
      | some sg_rules =>
        rw [hb] at h
        simp only at h
        by_cases h0 : sg_rules.length = 0
        · rw [if_pos h0] at h
          exact ih r h
        · rw [if_neg h0] at h
          by_cases hr : rest ≠ []
          · rw [if_pos hr] at h
            rcases ih _ h with h1 | h1 | h1
            · right; right
              exact ⟨r ++ ("(" ++ sg_rules), by rw [h1]; simp only [String.append_assoc]⟩
            · exact Or.inr (Or.inl h1)
            · exact Or.inr (Or.inr h1)
          · rw [if_neg hr] at h
            rcases ih _ h with h1 | h1 | h1
            · right; left
              exact ⟨r ++ ("(" ++ sg_rules), by rw [h1]; simp only [String.append_assoc]⟩
            · exact Or.inr (Or.inl h1)
            · exact Or.inr (Or.inr h1)

/-- When the inbound string of `FwUpdate` is defined, it ends with `)`: it is
not empty. -/
theorem FwUpdate_in_rules_length (a : App) (nic : app.Nic) (s : String)
    (h : FwUpdate_in_rules a nic = some s) : s.length > 0 := by
  unfold FwUpdate_in_rules at h
  cases hl : FwUpdate_in_loop a nic.security_groups "" with
  | none => rw [hl] at h; cases h
  | some out =>
    rw [hl] at h
    simp only at h
    have hp : ∀ u : String, (u ++ ")").length > 0 := by
      intro u
      rw [String.length_append]
      have : ")".length = 1 := by decide
      omega
    rcases FwUpdate_in_loop_shape a _ _ _ hl with h1 | ⟨u, h1⟩ | ⟨u, h1⟩
    · rw [h1] at h; cases h
    · rw [h1, trimTrailing_of_paren] at h
      cases h
      exact hp u
    · rw [h1, trimTrailing_of_bars] at h
      cases h
      exact hp u

theorem FwUpdate_out_rules_length (nic : app.Nic) : (FwUpdate_out_rules nic).length > 0 := by
  unfold FwUpdate_out_rules
  simp only [String.length_append]
  have : dhcpPermit.length = 87 := by decide
  omega

end Graph

/-- The order of `FwUpdate` where its inbound string is defined: on a started
graph, for a NIC without `bypass_filtering` that the graph holds and whose
inbound string `in_rules` is defined, `FwUpdate` flushes
the rules of the firewall of the NIC, adds `in_rules` on the west side with
priority 0, adds the outbound string on the east side with priority 1 and
enqueues `FW_RELOAD` for that firewall, in this order.  When the first
rule-add fails, the firewall is left flushed, the second rule-add is not made
and no `FW_RELOAD` is enqueued; when the second one fails, the inbound rule
stays in the firewall and no `FW_RELOAD` is enqueued. -/
theorem FwUpdate_order (a : App) (g : Graph) (nic : app.Nic) (gn : GraphNic)
    (in_rules : String) (hs : g.started = true) (hb : nic.bypass_filtering = false)
    (hn : FindNic g nic = some gn) (hin : FwUpdate_in_rules a nic = some in_rules) :
    FwUpdate a true true g nic =
      some { g with
        fw_rules := pg_firewall_rule_flush g.fw_rules gn.firewall ++
          [{ firewall := gn.firewall, filter := in_rules, side := Side.PG_WEST_SIDE,
             priority := 0 },
           { firewall := gn.firewall, filter := FwUpdate_out_rules nic,
             side := Side.PG_EAST_SIDE, priority := 1 }],
        queue_ := g.queue_ ++ [RpcQueue.FW_RELOAD gn.firewall] } ∧
    (∀ o : Bool, FwUpdate a false o g nic =
      some { g with fw_rules := pg_firewall_rule_flush g.fw_rules gn.firewall }) ∧
    FwUpdate a true false g nic =
      some { g with
        fw_rules := pg_firewall_rule_flush g.fw_rules gn.firewall ++
          [{ firewall := gn.firewall, filter := in_rules, side := Side.PG_WEST_SIDE,
             priority := 0 }] } := by
  unfold FindNic at hn
  cases hv : mapFind g.vnis_ nic.vni with
  | none => rw [hv] at hn; cases hn
  | some vni =>
    rw [hv] at hn
    simp only at hn
    have hi := FwUpdate_in_rules_length a nic in_rules hin
    have ho := FwUpdate_out_rules_length nic
    have hs' : ¬ g.started = false := by rw [hs]; decide
    have hb' : ¬ nic.bypass_filtering = true := by rw [hb]; decide
    refine ⟨?_, ?_, ?_⟩
    · unfold FwUpdate
      rw [if_neg hs', if_neg hb', hv]
      simp only
      rw [hn, hin]
      simp only [hi, ho, true_and, if_true, Bool.true_eq_false, if_false, fw_reload, push,
        List.append_assoc, List.singleton_append]
    · intro o
      unfold FwUpdate
      rw [if_neg hs', if_neg hb', hv]
      simp only
      rw [hn, hin]
      simp only [hi, true_and, if_true]
    · unfold FwUpdate
      rw [if_neg hs', if_neg hb', hv]
      simp only
      rw [hn, hin]
      simp only [hi, ho, true_and, if_true, Bool.true_eq_false, if_false]

set_option maxRecDepth 100000 in
/-- The order of `FwUpdate(n1)` on the graph that holds `n1`. -/
theorem FwUpdate_order_example :
    FwUpdate globals true true g1 n1 =
      some { g1 with
        fw_rules := pg_firewall_rule_flush g1.fw_rules gn1.firewall ++
          [{ firewall := gn1.firewall,
             filter := "((src net 10.0.0.0/24 and tcp dst port 80))",
             side := Side.PG_WEST_SIDE, priority := 0 },
           { firewall := gn1.firewall, filter := FwUpdate_out_rules n1,
             side := Side.PG_EAST_SIDE, priority := 1 }],
        queue_ := g1.queue_ ++ [RpcQueue.FW_RELOAD gn1.firewall] } ∧
    (∀ o : Bool, FwUpdate globals false o g1 n1 =
      some { g1 with fw_rules := pg_firewall_rule_flush g1.fw_rules gn1.firewall }) ∧
    FwUpdate globals true false g1 n1 =
      some { g1 with
        fw_rules := pg_firewall_rule_flush g1.fw_rules gn1.firewall ++
          [{ firewall := gn1.firewall,
             filter := "((src net 10.0.0.0/24 and tcp dst port 80))",
             side := Side.PG_WEST_SIDE, priority := 0 }] } :=
  FwUpdate_order globals g1 n1 gn1 "((src net 10.0.0.0/24 and tcp dst port 80))"
    (by decide) (by decide) (by decide) (by decide)

/-! ## The MTU search ends, whatever the device answers -/

namespace Graph

/-- Whatever the device answers, the search loop started on `min < max` with
`max - min ≤ 2 ^ n` ends within `n + 1` evaluations of its condition, after at
most `n` probes, each strictly between the bounds current at that time, on
bounds `(lo, lo + 1)` with `min ≤ lo < max`. -/
theorem SetConfigMtu_loop_total (set_mtu : Int → Bool) (n : Nat) :
    ∀ (fuel : Nat) (min max : Int) (s : MtuState), n < fuel → 0 ≤ min → min < max →
      max - min ≤ 2 ^ n →
      ∃ lo s1 new, SetConfigMtu_loop set_mtu fuel min max s = some (lo, lo + 1, s1) ∧
        s1.calls = s.calls ++ new ∧ new.length ≤ n ∧
        probesBetween set_mtu min max new = true ∧
        (∀ m ∈ new, min < m ∧ m < max) ∧ min ≤ lo ∧ lo < max := by
  induction n with
  | zero =>
    intro fuel min max s hf h0 h1 h3
    cases fuel with
    | zero => omega
    | succ f =>
      have hmin : min = max - 1 := by simp at h3; omega
      rw [SetConfigMtu_loop, if_neg (by simpa using hmin)]
      refine ⟨min, s, [], by rw [hmin]; simp, by simp, by simp, rfl, by simp, le_refl _, h1⟩
  | succ n ih =>
    intro fuel min max s hf h0 h1 h3
    cases fuel with
    | zero => omega
    | succ f =>
      rw [SetConfigMtu_loop]
      by_cases hmin : min = max - 1
      · rw [if_neg (by simpa using hmin)]
        refine ⟨min, s, [], by rw [hmin]; simp, by simp, by simp, rfl, by simp, le_refl _, h1⟩
      · rw [if_pos hmin]
        simp only
        have hm : Int.tdiv (min + max) 2 = (min + max) / 2 :=
          Int.tdiv_eq_ediv (by omega) (by decide)
        rw [hm]
        have hpow : (2 : Int) ^ (n + 1) = 2 * 2 ^ n := by rw [pow_succ]; ring
        rw [hpow] at h3
        have hlo : min < (min + max) / 2 := by omega
        have hhi : (min + max) / 2 < max := by omega
        cases hr : set_mtu ((min + max) / 2) with
        | true =>
          have hr1 : (pg_nic_set_mtu set_mtu s ((min + max) / 2)).1 = true := by
            simp [pg_nic_set_mtu, hr]
          rw [if_neg (by rw [hr1]; decide)]
          obtain ⟨lo, s1, new, e1, e2, e3, e4, e5, e6, e7⟩ :=
            ih f ((min + max) / 2) max (pg_nic_set_mtu set_mtu s ((min + max) / 2)).2
              (by omega) (by omega) hhi (by omega)
          refine ⟨lo, s1, (min + max) / 2 :: new, e1, ?_, ?_, ?_, ?_, by omega, e7⟩
          · rw [e2]; simp [pg_nic_set_mtu, hr]
          · simp only [List.length_cons]; omega
          · simp [probesBetween, hlo, hhi, hr, e4]
          · intro m hm'
            rcases List.mem_cons.1 hm' with e | e
            · rw [e]; exact ⟨hlo, hhi⟩
            · have := e5 m e
              exact ⟨by omega, this.2⟩
        | false =>
          have hr1 : (pg_nic_set_mtu set_mtu s ((min + max) / 2)).1 = false := by
            simp [pg_nic_set_mtu, hr]
          rw [if_pos hr1]
          obtain ⟨lo, s1, new, e1, e2, e3, e4, e5, e6, e7⟩ :=
            ih f min ((min + max) / 2) (pg_nic_set_mtu set_mtu s ((min + max) / 2)).2
              (by omega) h0 hlo (by omega)
          refine ⟨lo, s1, (min + max) / 2 :: new, e1, ?_, ?_, ?_, ?_, e6, by omega⟩
          · rw [e2]; simp [pg_nic_set_mtu, hr]
          · simp only [List.length_cons]; omega
          · simp [probesBetween, hlo, hhi, hr, e4]
          · intro m hm'
            rcases List.mem_cons.1 hm' with e | e
            · rw [e]; exact ⟨hlo, hhi⟩
            · have := e5 m e
              exact ⟨this.1, by omega⟩

end Graph

/-! ## Packet trace on a NIC that the graph does not hold -/

namespace Graph

/-- For a NIC that `FindNic` does not find, `NicConfigPacketTrace` dereferences
the `NULL` branch whenever the requested state differs from the flag of the
caller, and enqueues an `UPDATE_POLL` otherwise; `NicConfigPacketTracePath`
dereferences it whenever the path differs from that of the caller. -/
theorem NicConfigPacketTrace_not_found (a : App) (sniffer : BrickShrPtr) (g : Graph)
    (nic : app.Nic) (h : FindNic g nic = none) :
    (nic.packet_trace = false → NicConfigPacketTrace a sniffer g nic true = none) ∧
    (nic.packet_trace = true → NicConfigPacketTrace a sniffer g nic false = none) ∧
    (nic.packet_trace = true →
      NicConfigPacketTrace a sniffer g nic true = some (update_poll a g)) ∧
    (nic.packet_trace = false →
      NicConfigPacketTrace a sniffer g nic false = some (update_poll a g)) ∧
    (∀ p, nic.packet_trace_path ≠ p → NicConfigPacketTracePath a sniffer g nic p = none) := by
  refine ⟨?_, ?_, ?_, ?_, ?_⟩
  · intro hp
    simp [NicConfigPacketTrace, EnablePacketTrace, hp, h]
  · intro hp
    simp [NicConfigPacketTrace, DisablePacketTrace, hp, h]
  · intro hp
    simp [NicConfigPacketTrace, EnablePacketTrace, hp]
  · intro hp
    simp [NicConfigPacketTrace, DisablePacketTrace, hp]
  · intro p hp
    unfold NicConfigPacketTracePath
    rw [if_neg hp]
    cases hpt : nic.packet_trace
    · simp [DisablePacketTrace, hpt, h]
    · simp [DisablePacketTrace, hpt, h]

end Graph

/-! ## The snapshot of `update_poll` -/

namespace Graph

theorem pollOf_nil (p : RpcUpdatePoll) : pollOf p [] = p := by
  cases p
  simp [pollOf]

theorem pollOf_pollOf (p : RpcUpdatePoll) (E F : List (Nat × String × GraphNic)) :
    pollOf (pollOf p E) F = pollOf p (E ++ F) := by
  simp [pollOf, Nat.add_assoc]

theorem update_poll_nics_eq (max k : Nat) (nics : List (String × GraphNic))
    (p : RpcUpdatePoll) :
    update_poll_nics max nics p =
      pollOf p (((nics.map (fun q => (k, q.1, q.2))).filter
        (fun e => e.2.2.enable)).take (max - 1 - p.size)) := by
  induction nics generalizing p with
  | nil => simp [update_poll_nics, pollOf_nil]
  | cons n rest ih =>
    rw [update_poll_nics]
    by_cases h1 : p.size + 1 ≥ max
    · rw [if_pos h1]
      have : max - 1 - p.size = 0 := by omega
      rw [this, List.take_zero, pollOf_nil]
    · rw [if_neg h1]
      by_cases h2 : n.2.enable = false
      · rw [if_pos h2, ih]
        simp [List.filter_cons, h2]
      · rw [if_neg h2, ih]
        have h2' : n.2.enable = true := by simpa using h2
        have hk : max - 1 - p.size = (max - 1 - (p.size + 1)) + 1 := by omega
        simp only [List.map_cons, List.filter_cons, h2', if_true]
        rw [hk, List.take_succ_cons]
        simp [pollOf, Nat.add_assoc, Nat.add_comm 1]

theorem update_poll_vnis_eq (max : Nat) (vnis : List (Nat × GraphVni)) (p : RpcUpdatePoll) :
    update_poll_vnis max vnis p =
      pollOf p ((enabledEntries vnis).take (max - 1 - p.size)) := by
  induction vnis generalizing p with
  | nil => simp [update_poll_vnis, enabledEntries, allEntries, pollOf_nil]
  | cons v rest ih =>
    rw [update_poll_vnis, ih, update_poll_nics_eq max v.1, pollOf_pollOf]
    congr 1
    simp only [enabledEntries, allEntries, List.filter_append, List.take_append_eq_append_take]
    congr 1
    congr 1
    simp only [pollOf, List.length_take]
    omega

/-- The snapshot that `update_poll` builds lists the first
`GRAPH_VHOST_MAX_SIZE - 1` enabled NIC entries of `vnis_`. -/
theorem snapshot_eq (a : App) (g : Graph) :
    snapshot a g =
      { size := (snapshotEntries a g).length,
        pollables := (snapshotEntries a g).map (fun e => e.2.2.vhost),
        firewalls := (snapshotEntries a g).map (fun e => e.2.2.firewall) } := by
  unfold snapshot snapshotEntries
  rw [update_poll_vnis_eq]
  simp [pollOf]

end Graph

theorem mem_mapSet_nodup {K V : Type} [DecidableEq K] (m : List (K × V)) (k : K) (v : V)
    (hnd : (m.map Prod.fst).Nodup) (x : K × V) (h : x ∈ mapSet m k v) :
    (x ∈ m ∧ x.1 ≠ k) ∨ x = (k, v) := by
  induction m with
  | nil => simp [mapSet] at h
  | cons p rest ih =>
    rw [mapSet_cons] at h
    simp only [List.map_cons, List.nodup_cons] at hnd
    by_cases h1 : p.1 = k
    · rw [if_pos h1] at h
      rcases List.mem_cons.1 h with e | e
      · exact Or.inr (by rw [e, h1])
      · left
        refine ⟨List.mem_cons_of_mem _ e, ?_⟩
        intro hx
        apply hnd.1
        rw [h1, ← hx]
        exact List.mem_map_of_mem _ e
    · rw [if_neg h1] at h
      rcases List.mem_cons.1 h with e | e
      · left
        rw [e]
        exact ⟨List.mem_cons_self _ _, h1⟩
      · rcases ih hnd.2 e with ⟨a1, a2⟩ | a
        · exact Or.inl ⟨List.mem_cons_of_mem _ a1, a2⟩
        · exact Or.inr a

namespace Graph

theorem mem_allEntries (vnis : List (Nat × GraphVni)) (e : Nat × String × GraphNic) :
    e ∈ allEntries vnis ↔ ∃ p ∈ vnis, ∃ q ∈ p.2.nics, e = (p.1, q.1, q.2) := by
  induction vnis with
  | nil => simp [allEntries]
  | cons v rest ih =>
    simp only [allEntries, List.mem_append, List.mem_map, ih, List.mem_cons]
    constructor
    · rintro (⟨q, hq, rfl⟩ | ⟨p, hp, q, hq, rfl⟩)
      · exact ⟨v, Or.inl rfl, q, hq, rfl⟩
      · exact ⟨p, Or.inr hp, q, hq, rfl⟩
    · rintro ⟨p, hp | hp, q, hq, rfl⟩
      · subst hp
        exact Or.inl ⟨q, hq, rfl⟩
      · exact Or.inr ⟨p, hp, q, hq, rfl⟩

theorem mem_enabledEntries (vnis : List (Nat × GraphVni)) (e : Nat × String × GraphNic) :
    e ∈ enabledEntries vnis ↔ e ∈ allEntries vnis ∧ e.2.2.enable = true := by
  unfold enabledEntries
  simp [List.mem_filter]

theorem snapshotEntries_sublist (a : App) (g : Graph) :
    (snapshotEntries a g).Sublist (allEntries g.vnis_) := by
  unfold snapshotEntries enabledEntries
  exact (List.take_sublist _ _).trans (List.filter_sublist _)

theorem mem_snapshotEntries (a : App) (g : Graph) (e : Nat × String × GraphNic)
    (h : e ∈ snapshotEntries a g) : e ∈ enabledEntries g.vnis_ :=
  List.mem_of_mem_take h

/-- In a graph whose maps have unique keys, no two NIC entries have the same
pair of keys. -/
theorem nodup_allEntries_keys (vnis : List (Nat × GraphVni))
    (h1 : (vnis.map Prod.fst).Nodup)
    (h2 : ∀ p ∈ vnis, (p.2.nics.map Prod.fst).Nodup) :
    ((allEntries vnis).map (fun e => (e.1, e.2.1))).Nodup := by
  induction vnis with
  | nil => simp [allEntries]
  | cons v rest ih =>
    simp only [List.map_cons, List.nodup_cons] at h1
    simp only [allEntries, List.map_append, List.map_map]
    rw [List.nodup_append]
    refine ⟨?_, ih h1.2 (fun p hp => h2 p (List.mem_cons_of_mem _ hp)), ?_⟩
    · have hv := h2 v (List.mem_cons_self _ _)
      have : (List.map ((fun e : Nat × String × GraphNic => (e.1, e.2.1)) ∘
          fun q : String × GraphNic => (v.1, q.1, q.2)) v.2.nics) =
          (v.2.nics.map Prod.fst).map (fun s => (v.1, s)) := by
        simp [List.map_map, Function.comp_def]
      rw [this]
      exact hv.map (fun x y hxy => by simpa using hxy)
    · intro x hx1 hx2
      simp only [List.mem_map, Function.comp_apply] at hx1
      obtain ⟨q, _, rfl⟩ := hx1
      simp only [List.mem_map] at hx2
      obtain ⟨e, he, hxe⟩ := hx2
      rw [mem_allEntries] at he
      obtain ⟨p, hp, q', _, rfl⟩ := he
      simp only [Prod.mk.injEq] at hxe
      apply h1.1
      rw [← hxe.1]
      exact List.mem_map_of_mem _ hp

/-- The enabled NIC entries once `NicDel` has cleared `enable` in the branch of
`nic`: entries of the graph, none of them that of `nic`. -/
theorem mem_enabledEntries_disabled (g : Graph) (vni : GraphVni) (n : GraphNic)
    (nic : app.Nic) (hwf : WF g) (hv : mapFind g.vnis_ nic.vni = some vni)
    (e : Nat × String × GraphNic)
    (he : e ∈ enabledEntries (NicDel_disabled g vni n nic)) :
    e ∈ allEntries g.vnis_ ∧ (e.1, e.2.1) ≠ (nic.vni, nic.id) := by
  rw [mem_enabledEntries, mem_allEntries] at he
  obtain ⟨⟨p, hp, q, hq, rfl⟩, hen⟩ := he
  have hmem := mapFind_mem _ _ _ hv
  have hnd := (hwf.2 _ hmem).2.1
  simp only at hnd hen
  unfold NicDel_disabled at hp
  rcases mem_mapSet_nodup _ _ _ hwf.1 p hp with ⟨a1, a2⟩ | a
  · refine ⟨(mem_allEntries _ _).2 ⟨p, a1, q, hq, rfl⟩, ?_⟩
    intro hk
    simp only [Prod.mk.injEq] at hk
    exact a2 hk.1
  · subst a
    simp only at hq
    rcases mem_mapSet_nodup _ _ _ hnd q hq with ⟨b1, b2⟩ | b
    · refine ⟨(mem_allEntries _ _).2 ⟨(nic.vni, vni), hmem, q, b1, rfl⟩, ?_⟩
      intro hk
      simp only [Prod.mk.injEq] at hk
      exact b2 hk.2
    · subst b
      simp at hen

theorem NicDel_cmds_no_update_poll (g : Graph) (vni : GraphVni) (n : GraphNic)
    (nic : app.Nic) : ∀ c ∈ NicDel_cmds g vni n nic, isUpdatePoll c = false := by
  intro c hc
  unfold NicDel_cmds at hc
  split at hc
  · simp only [List.mem_cons, List.mem_singleton, List.not_mem_nil, or_false] at hc
    rcases hc with h | h | h | h <;> rw [h] <;> rfl
  · simp only [List.mem_singleton] at hc
    rw [hc]; rfl

/-- Commands other than `UPDATE_POLL` leave the snapshot of the poller as it
is. -/
theorem runAll_poll_list (x : Graph) (q : List RpcQueue)
    (h : ∀ c ∈ q, isUpdatePoll c = false) : (runAll x q).poll_list = x.poll_list := by
  induction q generalizing x with
  | nil => rfl
  | cons c rest ih =>
    have hc := h c (List.mem_cons_self _ _)
    have hr : ∀ d ∈ rest, isUpdatePoll d = false :=
      fun d hd => h d (List.mem_cons_of_mem _ hd)
    show (runAll (stepExec x c) rest).poll_list = x.poll_list
    rw [ih _ hr]
    cases c <;> first | rfl | (simp [isUpdatePoll] at hc)

end Graph

theorem mem_mapErase_nodup {K V : Type} [DecidableEq K] (m : List (K × V)) (k : K)
    (hnd : (m.map Prod.fst).Nodup) (q : K × V) (h : q ∈ mapErase m k) :
    q ∈ m ∧ q.1 ≠ k := by
  refine ⟨mem_mapErase m k q h, ?_⟩
  intro hk
  have hnone := mapFind_mapErase_self m k hnd
  rw [mapFind_eq_none_iff] at hnone
  apply hnone
  have := List.mem_map_of_mem Prod.fst h
  rw [hk] at this
  exact this

namespace Graph

/-- The NIC entries that `NicDel` leaves: entries of the graph, none of them
that of `nic`. -/
theorem mem_allEntries_NicDel (g : Graph) (vni : GraphVni) (nic : app.Nic) (hwf : WF g)
    (hv : mapFind g.vnis_ nic.vni = some vni) (e : Nat × String × GraphNic)
    (he : e ∈ allEntries (NicDel_vnis g vni nic)) :
    e ∈ allEntries g.vnis_ ∧ (e.1, e.2.1) ≠ (nic.vni, nic.id) := by
  rw [mem_allEntries] at he
  obtain ⟨p, hp, q, hq, rfl⟩ := he
  have hmem := mapFind_mem _ _ _ hv
  have hnd := (hwf.2 _ hmem).2.1
  simp only at hnd
  have hp' : p ∈ mapSet g.vnis_ nic.vni (NicDel_entry vni nic) := by
    unfold NicDel_vnis at hp
    split at hp
    · exact mem_mapErase _ _ _ hp
    · exact hp
  rcases mem_mapSet_nodup _ _ _ hwf.1 p hp' with ⟨a1, a2⟩ | a
  · refine ⟨(mem_allEntries _ _).2 ⟨p, a1, q, hq, rfl⟩, ?_⟩
    intro hk
    simp only [Prod.mk.injEq] at hk
    exact a2 hk.1
  · subst a
    simp only [NicDel_entry] at hq
    obtain ⟨b1, b2⟩ := mem_mapErase_nodup _ _ hnd q hq
    refine ⟨(mem_allEntries _ _).2 ⟨(nic.vni, vni), hmem, q, b1, rfl⟩, ?_⟩
    intro hk
    simp only [Prod.mk.injEq] at hk
    exact b2 hk.2

end Graph

/-! ## The drain of the queue -/

namespace Graph

theorem PollerExecOr_fields (fails : RpcQueue → Bool) (g : Graph) (c : RpcQueue) :
    (PollerExecOr fails g c).started = g.started ∧
    (PollerExecOr fails g c).vnis_ = g.vnis_ ∧
    (PollerExecOr fails g c).queue_ = g.queue_ ∧
    (PollerExecOr fails g c).executed = g.executed := by
  obtain ⟨e1, e2, _, _, _, _, e7, _, e9⟩ := PollerExec_fields g c
  unfold PollerExecOr
  cases c <;> first
    | exact ⟨e1, e2, e7, e9⟩
    | (simp only; split <;> exact ⟨rfl, rfl, rfl, rfl⟩)

theorem PollerExecOr_never (g : Graph) (c : RpcQueue) :
    PollerExecOr (fun _ => false) g c = PollerExec g c := by
  unfold PollerExecOr
  cases c <;> simp

theorem runAllOr_fields (fails : RpcQueue → Bool) (g : Graph) (q : List RpcQueue) :
    (runAllOr fails g q).started = g.started ∧ (runAllOr fails g q).vnis_ = g.vnis_ ∧
    (runAllOr fails g q).queue_ = g.queue_ ∧
    (runAllOr fails g q).executed = g.executed ++ q := by
  induction q generalizing g with
  | nil => simp [runAllOr]
  | cons c rest ih =>
    obtain ⟨h1, h2, h3, h4⟩ := ih (stepExecOr fails g c)
    obtain ⟨e1, e2, e3, e4⟩ :=
      PollerExecOr_fields fails { g with executed := g.executed ++ [c] } c
    simp only [runAllOr, List.foldl_cons] at h1 h2 h3 h4 ⊢
    simp only [stepExecOr] at h1 h2 h3 h4 ⊢
    refine ⟨h1.trans e1, h2.trans e2, h3.trans e3, ?_⟩
    rw [h4, e4]; simp

theorem PollerUpdate_loopOr_of_not_mem (fails : RpcQueue → Bool) (q : List RpcQueue)
    (g : Graph) (h : RpcQueue.EXIT ∉ q) :
    PollerUpdate_loopOr fails q g = (true, { runAllOr fails g q with queue_ := [] }) := by
  induction q generalizing g with
  | nil => rfl
  | cons c rest ih =>
    have hc : c ≠ RpcQueue.EXIT := fun e => h (by simp [e])
    have hr : RpcQueue.EXIT ∉ rest := fun e => h (by simp [e])
    rw [PollerUpdate_loopOr, if_neg hc, ih _ hr]
    rfl

theorem PollerUpdate_loopOr_split (fails : RpcQueue → Bool) (pre post : List RpcQueue)
    (g : Graph) (h : RpcQueue.EXIT ∉ pre) :
    PollerUpdate_loopOr fails (pre ++ RpcQueue.EXIT :: post) g =
      (false, { runAllOr fails g pre with
        queue_ := post,
        executed := (runAllOr fails g pre).executed ++ [RpcQueue.EXIT] }) := by
  induction pre generalizing g with
  | nil =>
    rw [List.nil_append, PollerUpdate_loopOr, if_pos rfl]
    rfl
  | cons c rest ih =>
    have hc : c ≠ RpcQueue.EXIT := fun e => h (by simp [e])
    have hr : RpcQueue.EXIT ∉ rest := fun e => h (by simp [e])
    rw [List.cons_append, PollerUpdate_loopOr, if_neg hc, ih _ hr]
    rfl

theorem PollerUpdate_loopOr_never (q : List RpcQueue) (g : Graph) :
    PollerUpdate_loopOr (fun _ => false) q g = PollerUpdate_loop q g := by
  induction q generalizing g with
  | nil => rfl
  | cons c rest ih =>
    rw [PollerUpdate_loopOr, PollerUpdate_loop, ih, PollerExecOr_never]

theorem exists_first_exit (q : List RpcQueue) (h : RpcQueue.EXIT ∈ q) :
    ∃ pre post, q = pre ++ RpcQueue.EXIT :: post ∧ RpcQueue.EXIT ∉ pre := by
  induction q with
  | nil => simp at h
  | cons c rest ih =>
    by_cases hc : c = RpcQueue.EXIT
    · exact ⟨[], rest, by rw [hc]; rfl, by simp⟩
    · rcases List.mem_cons.1 h with e | e
      · exact absurd e.symm hc
      · obtain ⟨pre, post, h1, h2⟩ := ih e
        refine ⟨c :: pre, post, by rw [h1]; rfl, ?_⟩
        intro hm
        rcases List.mem_cons.1 hm with e' | e'
        · exact hc e'.symm
        · exact h2 e'

end Graph

/-! ## What every operation keeps: `started` and a queue without `EXIT` -/

namespace Graph

theorem LinkAndStalk_started_queue (a : App) (ok : Bool) (g : Graph) (w e s : BrickShrPtr) :
    (LinkAndStalk a ok g w e s).2.started = g.started ∧
    (LinkAndStalk a ok g w e s).2.queue_ = g.queue_ := by
  unfold LinkAndStalk
  split <;> split <;> exact ⟨rfl, rfl⟩

theorem NicAdd_branch_started_queue (a : App) (env : NicAddEnv) (g : Graph) (nic : app.Nic)
    (g1 : Graph) (o : Option GraphNic) (h : NicAdd_branch a env g nic = some (g1, o)) :
    g1.started = g.started ∧ g1.queue_ = [] := by
  unfold NicAdd_branch at h
  cases hw : WaitEmptyQueue (fw_new g ("firewall-" ++ nic.id) 1 1
      FwFlags.PG_NO_CONN_WORKER env.firewall) with
  | none => rw [hw] at h; simp at h
  | some g2 =>
    rw [hw] at h
    rw [WaitEmptyQueue_eq_some_iff] at hw
    have hv : g2.started = g.started ∧ g2.queue_ = [] := by
      rw [hw.2]
      exact ⟨runAll_started _ _, rfl⟩
    clear hw
    have fin : ∀ (x : Graph) (o' : Option GraphNic), some (x, o') = some (g1, o) →
        (x.started = g2.started ∧ x.queue_ = g2.queue_) →
        g1.started = g.started ∧ g1.queue_ = [] := by
      intro x o' hx hxv
      simp only [Option.some.injEq, Prod.mk.injEq] at hx
      rw [← hx.1, hxv.1, hxv.2]
      exact hv
    simp only at h
    by_cases c1 : env.firewall = none
    · rw [if_pos c1] at h; exact fin _ _ h ⟨rfl, rfl⟩
    rw [if_neg c1] at h
    by_cases c2 : env.antispoof = none
    · rw [if_pos c2] at h; exact fin _ _ h ⟨rfl, rfl⟩
    rw [if_neg c2] at h
    by_cases c3 : nic.type = app.NicType.OTHER
    · rw [if_pos c3] at h; exact fin _ _ h ⟨rfl, rfl⟩
    rw [if_neg c3] at h
    by_cases c4 : env.vhost = none
    · rw [if_pos c4] at h; exact fin _ _ h ⟨rfl, rfl⟩
    rw [if_neg c4] at h
    by_cases c5 : nic.packet_trace = true ∧ env.sniffer = none
    · rw [if_pos c5] at h; exact fin _ _ h ⟨rfl, rfl⟩
    rw [if_neg c5] at h
    by_cases cb : nic.bypass_filtering = true
    · rw [if_pos cb] at h
      by_cases cp : nic.packet_trace = true
      · rw [if_pos cp] at h
        by_cases cl : env.link_ok = false
        · rw [if_pos cl] at h; exact fin _ _ h ⟨rfl, rfl⟩
        · rw [if_neg cl] at h; exact fin _ _ h ⟨rfl, rfl⟩
      · rw [if_neg cp] at h; exact fin _ _ h ⟨rfl, rfl⟩
    · rw [if_neg cb] at h
      by_cases cl : env.link_ok = false
      · rw [if_pos cl] at h; exact fin _ _ h ⟨rfl, rfl⟩
      · rw [if_neg cl] at h
        exact fin _ _ h (LinkAndStalk_started_queue _ _ _ _ _ _)

theorem NicAdd_attach_started_queue (env : NicAddEnv) (g1 : Graph) (nic : app.Nic)
    (vni : GraphVni) (gn : GraphNic) (g2 : Graph) (ov : Option GraphVni)
    (hq : RpcQueue.EXIT ∉ g1.queue_)
    (hat : NicAdd_attach env g1 nic vni gn = (g2, ov)) :
    g2.started = g1.started ∧ RpcQueue.EXIT ∉ g2.queue_ := by
  unfold NicAdd_attach at hat
  have fin : ∀ (x : Graph) (o' : Option GraphVni), (x, o') = (g2, ov) →
      (x.started = g1.started ∧ RpcQueue.EXIT ∉ x.queue_) →
      g2.started = g1.started ∧ RpcQueue.EXIT ∉ g2.queue_ := by
    intro x o' hx hxv
    simp only [Prod.mk.injEq] at hx
    rw [← hx.1]
    exact hxv
  obtain ⟨l, hl⟩ : ∃ l, l = vni.nics := ⟨_, rfl⟩
  rw [← hl] at hat
  cases l with
  | nil =>
    simp only at hat
    exact fin _ _ hat ⟨rfl, by simp [add_vni, link, push, hq]⟩
  | cons first tl =>
    cases tl with
    | nil =>
      simp only at hat
      by_cases csw : env.sw = none
      · rw [if_pos csw] at hat; exact fin _ _ hat ⟨rfl, hq⟩
      rw [if_neg csw] at hat
      by_cases cul : env.unlink_edge_ok = false
      · rw [if_pos cul] at hat; exact fin _ _ hat ⟨rfl, hq⟩
      rw [if_neg cul] at hat
      exact fin _ _ hat ⟨rfl, by simp [add_vni, link, push, hq]⟩
    | cons second tl2 =>
      simp only at hat
      exact fin _ _ hat ⟨rfl, by simp [link, push, hq]⟩

/-- Every outcome of `NicAdd` on a started graph is a started graph without
pending `EXIT`. -/
theorem NicAdd_started_queue (a : App) (env : NicAddEnv) (g : Graph) (nic : app.Nic)
    (b : Bool) (g' : Graph) (hs : g.started = true)
    (hadd : NicAdd a env g nic = some (b, g')) :
    g'.started = true ∧ RpcQueue.EXIT ∉ g'.queue_ := by
  unfold NicAdd at hadd
  rw [if_neg (by rw [hs]; decide)] at hadd
  simp only at hadd
  obtain ⟨v1, _, _, v4, _, _, _, v8⟩ := NicAdd_vni_fields g nic
  rw [v8] at hadd
  simp only at hadd
  cases hb : NicAdd_branch a env (NicAdd_vni g nic) nic with
  | none => rw [hb] at hadd; simp at hadd
  | some r =>
    obtain ⟨g1, ogn⟩ := r
    obtain ⟨b1, b2⟩ := NicAdd_branch_started_queue _ _ _ _ _ _ hb
    rw [v1, hs] at b1
    cases ogn with
    | none =>
      rw [hb] at hadd
      simp only [Option.some.injEq, Prod.mk.injEq] at hadd
      rw [← hadd.2]
      exact ⟨b1, by rw [b2]; simp⟩
    | some gn =>
      rw [hb] at hadd
      simp only at hadd
      cases hat : NicAdd_attach env g1 nic (entryOf g nic.vni) gn with
      | mk g2 ov =>
        obtain ⟨c1, c2⟩ := NicAdd_attach_started_queue env g1 nic _ gn g2 ov
          (by rw [b2]; simp) hat
        rw [b1] at c1
        rw [hat] at hadd
        cases ov with
        | none =>
          simp only [Option.some.injEq, Prod.mk.injEq] at hadd
          rw [← hadd.2]; exact ⟨c1, c2⟩
        | some vni' =>
          simp only at hadd
          split at hadd
          · simp at hadd
          · rename_i gf hfw
            simp only [Option.some.injEq, Prod.mk.injEq] at hadd
            rw [← hadd.2]
            obtain ⟨f1, _, _, _, _, _, rest, f7, f8⟩ := FwUpdate_some _ _ _ _ _ _ hfw
            simp only [update_poll, push] at f1 f7
            refine ⟨by rw [f1]; exact c1, ?_⟩
            rw [f7]
            rcases f8 with e | ⟨fw, e⟩
            · rw [e]; simp [c2]
            · rw [e]; simp [c2]

/-- `NicDel` on a started graph without pending `EXIT` returns, with a started
graph without pending `EXIT`. -/
theorem NicDel_total (a : App) (g : Graph) (nic : app.Nic) (hs : g.started = true)
    (hq : RpcQueue.EXIT ∉ g.queue_) :
    ∃ g', NicDel a g nic = some g' ∧ g'.started = true ∧ RpcQueue.EXIT ∉ g'.queue_ := by
  cases hv : mapFind g.vnis_ nic.vni with
  | none =>
    refine ⟨g, ?_, hs, hq⟩
    unfold NicDel
    rw [if_neg (by simp [hs]), hv]
  | some vni =>
    cases hn : mapFind vni.nics nic.id with
    | none =>
      refine ⟨g, ?_, hs, hq⟩
      unfold NicDel
      rw [if_neg (by simp [hs]), hv]
      simp only
      rw [hn]
    | some n =>
      obtain ⟨g', h1, h2, _, _, h5, _⟩ := NicDel_present a g nic vni n hs hv hn hq
      exact ⟨g', h1, h2, by rw [h5]; simp⟩

theorem Stop_nics_total (a : App) (nics : List app.Nic) (g : Graph)
    (hs : g.started = true) (hq : RpcQueue.EXIT ∉ g.queue_) :
    ∃ g1, Stop_nics a nics g = some g1 ∧ g1.started = true ∧
      RpcQueue.EXIT ∉ g1.queue_ := by
  induction nics generalizing g with
  | nil => exact ⟨g, rfl, hs, hq⟩
  | cons n rest ih =>
    obtain ⟨g', h1, h2, h3⟩ := NicDel_total a g n hs hq
    obtain ⟨g1, e1, e2, e3⟩ := ih g' h2 h3
    refine ⟨g1, ?_, e2, e3⟩
    rw [Stop_nics, h1]
    exact e1

end Graph

/-! ## `Start`, `Stop` and the states that the operations reach -/

namespace Graph

theorem Start_fields (a : App) (env : StartEnv) (g : Graph) (b : Bool) (g' : Graph)
    (h : Start a env g = some (b, g')) :
    g'.vnis_ = g.vnis_ ∧ (g'.started = g.started ∨ g'.started = true) ∧
    (RpcQueue.EXIT ∉ g.queue_ → RpcQueue.EXIT ∉ g'.queue_) := by
  have fin : ∀ (b' : Bool) (x : Graph), some (b', x) = some (b, g') →
      x.vnis_ = g.vnis_ → (x.started = g.started ∨ x.started = true) →
      (RpcQueue.EXIT ∉ g.queue_ → RpcQueue.EXIT ∉ x.queue_) →
      g'.vnis_ = g.vnis_ ∧ (g'.started = g.started ∨ g'.started = true) ∧
      (RpcQueue.EXIT ∉ g.queue_ → RpcQueue.EXIT ∉ g'.queue_) := by
    intro b' x hx h1 h2 h3
    simp only [Option.some.injEq, Prod.mk.injEq] at hx
    rw [← hx.2]
    exact ⟨h1, h2, h3⟩
  have hvq : ∀ hq : RpcQueue.EXIT ∉ g.queue_, RpcQueue.EXIT ∉ (vhost_start g).queue_ := by
    intro hq
    simp [vhost_start, push, hq]
  have hnic : ∀ x : Graph, (Start_nic env x).2.vnis_ = x.vnis_ ∧
      (Start_nic env x).2.started = x.started ∧ (Start_nic env x).2.queue_ = x.queue_ := by
    intro x
    unfold Start_nic
    simp only
    split
    · split
      · exact ⟨rfl, rfl, rfl⟩
      · split <;> exact ⟨rfl, rfl, rfl⟩
    · exact ⟨rfl, rfl, rfl⟩
  have hsn : ∀ x : Graph, (Start_sniffer a env x).2.vnis_ = x.vnis_ ∧
      (Start_sniffer a env x).2.started = x.started ∧
      (Start_sniffer a env x).2.queue_ = x.queue_ := by
    intro x
    unfold Start_sniffer
    split
    · simp only
      split <;> exact ⟨rfl, rfl, rfl⟩
    · exact ⟨rfl, rfl, rfl⟩
  unfold Start at h
  by_cases c0 : env.pg_start = false
  · rw [if_pos c0] at h
    exact fin _ _ h rfl (Or.inl rfl) (fun hq => hq)
  rw [if_neg c0] at h
  simp only at h
  by_cases c1 : env.dpdk_port < 0
  · rw [if_pos c1] at h
    exact fin _ _ h rfl (Or.inl rfl) hvq
  rw [if_neg c1] at h
  obtain ⟨n1, n2, n3⟩ := hnic (vhost_start g)
  cases hn : Start_nic env (vhost_start g) with
  | mk bn gn =>
    rw [hn] at h n1 n2 n3
    simp only at n1 n2 n3
    cases bn with
    | false =>
      simp only at h
      exact fin _ _ h n1 (Or.inl n2) (fun hq => by rw [n3]; exact hvq hq)
    | true =>
      simp only at h
      obtain ⟨s1, s2, s3⟩ := hsn gn
      cases hsf : Start_sniffer a env gn with
      | mk bs gs =>
        rw [hsf] at h s1 s2 s3
        simp only at s1 s2 s3
        cases bs with
        | false =>
          simp only at h
          exact fin _ _ h (s1.trans n1) (Or.inl (s2.trans n2))
            (fun hq => by rw [s3, n3]; exact hvq hq)
        | true =>
          simp only at h
          by_cases cv : env.vtep = none
          · rw [if_pos cv] at h; cases h
          rw [if_neg cv] at h
          refine fin _ _ h ?_ (Or.inr rfl) ?_
          · show (LinkAndStalk a env.stalk_ok _ _ _ _).2.vnis_ = _
            rw [LinkAndStalk_vnis]
            exact s1.trans n1
          · intro hq
            show RpcQueue.EXIT ∉ (LinkAndStalk a env.stalk_ok _ _ _ _).2.queue_
            rw [(LinkAndStalk_started_queue _ _ _ _ _ _).2]
            show RpcQueue.EXIT ∉ gs.queue_
            rw [s3, n3]
            exact hvq hq

/-- What `Stop` does on a started graph: the NICs are removed, `VHOST_STOP` and
`EXIT` are pushed, the poller executes the queue up to the first `EXIT`, and
what follows that `EXIT` is dropped from the queue without being executed. -/
theorem Stop_started (a : App) (nics : List app.Nic) (g g' : Graph)
    (hs : g.started = true) (h : Stop a nics g = some g') :
    ∃ g1 pre post, Stop_nics a nics g = some g1 ∧
      g1.queue_ ++ [RpcQueue.VHOST_STOP, RpcQueue.EXIT] = pre ++ RpcQueue.EXIT :: post ∧
      RpcQueue.EXIT ∉ pre ∧ g'.executed = g1.executed ++ pre ++ [RpcQueue.EXIT] ∧
      g'.queue_ = [] ∧ g'.vnis_ = [] ∧ g'.started = false := by
  unfold Stop at h
  rw [if_neg (by rw [hs]; decide)] at h
  cases h1 : Stop_nics a nics g with
  | none => rw [h1] at h; cases h
  | some g1 =>
    rw [h1] at h
    simp only at h
    have hq : (exit (vhost_stop g1)).queue_ =
        g1.queue_ ++ [RpcQueue.VHOST_STOP, RpcQueue.EXIT] := by
      simp [exit, vhost_stop, push]
    obtain ⟨pre, post, e1, e2⟩ := exists_first_exit (exit (vhost_stop g1)).queue_
      (by rw [hq]; simp)
    have hp : PollerUpdate (exit (vhost_stop g1)) =
        (false, { runAllOr (fun _ => false) (exit (vhost_stop g1)) pre with
          queue_ := post,
          executed := (runAllOr (fun _ => false) (exit (vhost_stop g1)) pre).executed ++
            [RpcQueue.EXIT] }) := by
      unfold PollerUpdate
      rw [← PollerUpdate_loopOr_never]
      conv_lhs => rw [e1]
      exact PollerUpdate_loopOr_split _ pre post _ e2
    rw [hp] at h
    simp only [Bool.false_eq_true, if_false, Option.some.injEq] at h
    refine ⟨g1, pre, post, rfl, by rw [← hq]; exact e1, e2, ?_, ?_, ?_, ?_⟩
    · rw [← h]
      simp only
      rw [(runAllOr_fields _ _ _).2.2.2]
      rfl
    · rw [← h]
    · rw [← h]
    · rw [← h]

/-- `Stop` returns on every graph without pending `EXIT` in which
`started = false` implies that `vnis_` is empty, and leaves `vnis_` empty,
`started = false` and an empty queue. -/
theorem Stop_total (a : App) (nics : List app.Nic) (g : Graph)
    (hinv : g.started = false → g.vnis_ = []) (hq : RpcQueue.EXIT ∉ g.queue_) :
    ∃ g', Stop a nics g = some g' ∧ g'.vnis_ = [] ∧ g'.started = false ∧
      RpcQueue.EXIT ∉ g'.queue_ := by
  by_cases hs : g.started = false
  · refine ⟨g, ?_, hinv hs, hs, hq⟩
    unfold Stop
    rw [if_pos hs]
  · have hs' : g.started = true := by simpa using hs
    obtain ⟨g1, h1, _, h3⟩ := Stop_nics_total a nics g hs' hq
    have hqq : (exit (vhost_stop g1)).queue_ =
        (g1.queue_ ++ [RpcQueue.VHOST_STOP]) ++ RpcQueue.EXIT :: [] := by
      simp [exit, vhost_stop, push]
    have hp : PollerUpdate (exit (vhost_stop g1)) =
        (false, { runAllOr (fun _ => false) (exit (vhost_stop g1))
            (g1.queue_ ++ [RpcQueue.VHOST_STOP]) with
          queue_ := [],
          executed := (runAllOr (fun _ => false) (exit (vhost_stop g1))
            (g1.queue_ ++ [RpcQueue.VHOST_STOP])).executed ++ [RpcQueue.EXIT] }) := by
      unfold PollerUpdate
      rw [← PollerUpdate_loopOr_never]
      conv_lhs => rw [hqq]
      exact PollerUpdate_loopOr_split _ _ [] _ (by simp [h3])
    have hex : ∃ x, Stop a nics g = some x := by
      unfold Stop
      rw [if_neg hs, h1]
      simp only
      rw [hp]
      simp
    obtain ⟨x, hx⟩ := hex
    obtain ⟨_, _, _, _, _, _, _, e5, e6, e7⟩ := Stop_started a nics g x hs' hx
    exact ⟨x, hx, e6, e7, by rw [e5]; simp⟩

/-- What the operations keep: `started = false` implies that `vnis_` is empty,
and no `EXIT` is pending. -/
theorem applyOp_inv (a : App) (g g' : Graph) (op : Op)
    (hinv : g.started = false → g.vnis_ = []) (hq : RpcQueue.EXIT ∉ g.queue_)
    (h : applyOp a g op = some g') :
    (g'.started = false → g'.vnis_ = []) ∧ RpcQueue.EXIT ∉ g'.queue_ := by
  cases op with
  | Start env =>
    simp only [applyOp, Option.map_eq_some', Prod.exists, exists_eq_right] at h
    obtain ⟨b, hb⟩ := h
    obtain ⟨f1, f2, f3⟩ := Start_fields a env g b g' hb
    refine ⟨?_, f3 hq⟩
    intro hs
    rw [f1]
    apply hinv
    rcases f2 with e | e
    · rw [← e]; exact hs
    · rw [e] at hs; cases hs
  | Stop nics =>
    simp only [applyOp] at h
    obtain ⟨x, h1, h2, h3, h4⟩ := Stop_total a nics g hinv hq
    rw [h1] at h
    cases h
    exact ⟨fun _ => h2, h4⟩
  | NicAdd env nic =>
    simp only [applyOp, Option.map_eq_some', Prod.exists, exists_eq_right] at h
    obtain ⟨b, hb⟩ := h
    by_cases hs : g.started = false
    · unfold NicAdd at hb
      rw [if_pos hs] at hb
      simp only [Option.some.injEq, Prod.mk.injEq] at hb
      rw [← hb.2]
      exact ⟨hinv, hq⟩
    · have hs' : g.started = true := by simpa using hs
      obtain ⟨c1, c2⟩ := NicAdd_started_queue a env g nic b g' hs' hb
      exact ⟨fun e => (by rw [c1] at e; cases e), c2⟩
  | NicDel nic =>
    simp only [applyOp] at h
    by_cases hs : g.started = false
    · unfold NicDel at h
      rw [if_pos hs] at h
      cases h
      exact ⟨hinv, hq⟩
    · have hs' : g.started = true := by simpa using hs
      obtain ⟨x, h1, h2, h3⟩ := NicDel_total a g nic hs' hq
      rw [h1] at h
      cases h
      exact ⟨fun e => (by rw [h2] at e; cases e), h3⟩

theorem runOps_inv (a : App) (ops : List Op) (g g' : Graph)
    (hinv : g.started = false → g.vnis_ = []) (hq : RpcQueue.EXIT ∉ g.queue_)
    (h : runOps a ops g = some g') :
    (g'.started = false → g'.vnis_ = []) ∧ RpcQueue.EXIT ∉ g'.queue_ := by
  induction ops generalizing g with
  | nil =>
    simp only [runOps, Option.some.injEq] at h
    rw [← h]
    exact ⟨hinv, hq⟩
  | cons op rest ih =>
    rw [runOps] at h
    cases h1 : applyOp a g op with
    | none => rw [h1] at h; cases h
    | some x =>
      rw [h1] at h
      obtain ⟨i1, i2⟩ := applyOp_inv a g x op hinv hq h1
      exact ih x i1 i2 h

theorem stepExecOr_links (fails : RpcQueue → Bool) (g : Graph) (c : RpcQueue) :
    (stepExecOr fails g c).links = execLinksOr fails g.links c := by
  unfold stepExecOr PollerExecOr execLinksOr
  cases c <;> simp only [PollerExec, execLinks] <;> split <;> rfl

theorem stepExecOr_poll_list (fails : RpcQueue → Bool) (g : Graph) (c : RpcQueue) :
    (stepExecOr fails g c).poll_list = lastPoll [c] g.poll_list := by
  unfold stepExecOr PollerExecOr lastPoll
  cases c <;> simp only [PollerExec, List.foldl_cons, List.foldl_nil] <;> split <;> rfl

theorem runAllOr_links (fails : RpcQueue → Bool) (g : Graph) (q : List RpcQueue) :
    (runAllOr fails g q).links = q.foldl (execLinksOr fails) g.links := by
  induction q generalizing g with
  | nil => rfl
  | cons c rest ih =>
    simp only [runAllOr, List.foldl_cons] at ih ⊢
    rw [ih, stepExecOr_links]

theorem runAllOr_poll_list (fails : RpcQueue → Bool) (g : Graph) (q : List RpcQueue) :
    (runAllOr fails g q).poll_list = lastPoll q g.poll_list := by
  induction q generalizing g with
  | nil => rfl
  | cons c rest ih =>
    simp only [runAllOr, List.foldl_cons] at ih ⊢
    rw [ih, stepExecOr_poll_list]
    simp only [lastPoll, List.foldl_cons, List.foldl_nil]

theorem execLinksOr_never (links : List (BrickShrPtr × BrickShrPtr)) (c : RpcQueue) :
    execLinksOr (fun _ => false) links c = execLinks links c := by
  simp [execLinksOr]

/-- What `Stop` leaves on a started graph: the poller has executed the commands
pending before the first `EXIT`, and those only. -/
theorem Stop_started_state (a : App) (nics : List app.Nic) (g g' : Graph)
    (hs : g.started = true) (h : Stop a nics g = some g') :
    ∃ g1 pre post, Stop_nics a nics g = some g1 ∧
      g1.queue_ ++ [RpcQueue.VHOST_STOP, RpcQueue.EXIT] = pre ++ RpcQueue.EXIT :: post ∧
      RpcQueue.EXIT ∉ pre ∧ g'.executed = g1.executed ++ pre ++ [RpcQueue.EXIT] ∧
      g'.queue_ = [] ∧ g'.links = pre.foldl execLinks g1.links ∧
      g'.poll_list = lastPoll pre g1.poll_list := by
  unfold Stop at h
  rw [if_neg (by rw [hs]; decide)] at h
  cases h1 : Stop_nics a nics g with
  | none => rw [h1] at h; cases h
  | some g1 =>
    rw [h1] at h
    simp only at h
    have hq : (exit (vhost_stop g1)).queue_ =
        g1.queue_ ++ [RpcQueue.VHOST_STOP, RpcQueue.EXIT] := by
      simp [exit, vhost_stop, push]
    obtain ⟨pre, post, e1, e2⟩ := exists_first_exit (exit (vhost_stop g1)).queue_
      (by rw [hq]; simp)
    have hp : PollerUpdate (exit (vhost_stop g1)) =
        (false, { runAllOr (fun _ => false) (exit (vhost_stop g1)) pre with
          queue_ := post,
          executed := (runAllOr (fun _ => false) (exit (vhost_stop g1)) pre).executed ++
            [RpcQueue.EXIT] }) := by
      unfold PollerUpdate
      rw [← PollerUpdate_loopOr_never]
      conv_lhs => rw [e1]
      exact PollerUpdate_loopOr_split _ pre post _ e2
    rw [hp] at h
    simp only [Bool.false_eq_true, if_false, Option.some.injEq] at h
    refine ⟨g1, pre, post, rfl, by rw [← hq]; exact e1, e2, ?_, ?_, ?_, ?_⟩
    · rw [← h]
      simp only
      rw [(runAllOr_fields _ _ _).2.2.2]
      rfl
    · rw [← h]
    · rw [← h]
      simp only
      rw [runAllOr_links]
      have e : execLinksOr (fun _ => false) = execLinks := by
        funext l c; exact execLinksOr_never l c
      rw [e]
      rfl
    · rw [← h]
      simp only
      rw [runAllOr_poll_list]
      rfl

/-- Where `NicAdd_attach` gives up, the entry held exactly one NIC and has got
the switch handle `env.sw`. -/
theorem NicAdd_attach_none_vnis (env : NicAddEnv) (g1 : Graph) (nic : app.Nic)
    (vni : GraphVni) (gn : GraphNic) (g2 : Graph)
    (hat : NicAdd_attach env g1 nic vni gn = (g2, none)) :
    ∃ first, vni.nics = [first] ∧
      g2.vnis_ = mapSet g1.vnis_ nic.vni { vni with sw := env.sw } := by
  unfold NicAdd_attach at hat
  obtain ⟨l, hl⟩ : ∃ l, l = vni.nics := ⟨_, rfl⟩
  rw [← hl] at hat
  cases l with
  | nil =>
    simp only [Prod.mk.injEq] at hat
    cases hat.2
  | cons first tl =>
    cases tl with
    | nil =>
      refine ⟨first, hl.symm, ?_⟩
      simp only at hat
      by_cases csw : env.sw = none
      · rw [if_pos csw] at hat
        simp only [Prod.mk.injEq] at hat
        rw [← hat.1, ← hl]
      rw [if_neg csw] at hat
      by_cases cul : env.unlink_edge_ok = false
      · rw [if_pos cul] at hat
        simp only [Prod.mk.injEq] at hat
        rw [← hat.1, ← hl]
      rw [if_neg cul] at hat
      simp only [Prod.mk.injEq] at hat
      cases hat.2
    | cons second tl2 =>
      simp only [Prod.mk.injEq] at hat
      cases hat.2

/-- The three ways in which `NicAdd` returns `false`: the graph is not started
and nothing changes; or the entry of `nic.vni` has been looked up or created
and nothing else of `vnis_` changes; or that entry held exactly one NIC and has
also got the switch handle `env.sw`. -/
theorem NicAdd_false_vnis (a : App) (env : NicAddEnv) (g : Graph) (nic : app.Nic)
    (g' : Graph) (h : NicAdd a env g nic = some (false, g')) :
    (g.started = false ∧ g' = g) ∨
    (g.started = true ∧
      (g'.vnis_ = (NicAdd_vni g nic).vnis_ ∨
       ∃ first, (entryOf g nic.vni).nics = [first] ∧
         g'.vnis_ = mapSet (NicAdd_vni g nic).vnis_ nic.vni
           { entryOf g nic.vni with sw := env.sw })) := by
  unfold NicAdd at h
  by_cases hs : g.started = false
  · rw [if_pos hs] at h
    simp only [Option.some.injEq, Prod.mk.injEq, true_and] at h
    exact Or.inl ⟨hs, h.symm⟩
  rw [if_neg hs] at h
  have hs' : g.started = true := by simpa using hs
  refine Or.inr ⟨hs', ?_⟩
  simp only at h
  obtain ⟨_, _, _, _, _, _, _, v8⟩ := NicAdd_vni_fields g nic
  rw [v8] at h
  simp only at h
  cases hb : NicAdd_branch a env (NicAdd_vni g nic) nic with
  | none => rw [hb] at h; simp at h
  | some r =>
    obtain ⟨g1, ogn⟩ := r
    have bv := NicAdd_branch_vnis _ _ _ _ _ _ hb
    cases ogn with
    | none =>
      rw [hb] at h
      simp only [Option.some.injEq, Prod.mk.injEq, true_and] at h
      rw [← h]
      exact Or.inl bv
    | some gn =>
      rw [hb] at h
      simp only at h
      cases hat : NicAdd_attach env g1 nic (entryOf g nic.vni) gn with
      | mk g2 ov =>
        rw [hat] at h
        cases ov with
        | none =>
          simp only [Option.some.injEq, Prod.mk.injEq, true_and] at h
          obtain ⟨first, hf, hv⟩ := NicAdd_attach_none_vnis env g1 nic _ gn g2 hat
          rw [← h, hv, bv]
          exact Or.inr ⟨first, hf, rfl⟩
        | some vni' =>
          simp only at h
          split at h
          · simp at h
          · simp at h

end Graph

/-! # The claims -/

set_option maxRecDepth 100000 in
/-- C1 (fails on the code): after a `NicAdd` has returned, a VNI entry can have
its switch handle set while it holds a single NIC.  `NicAdd(n1); NicAdd(n1)`
(the same id twice) returns `true` both times and leaves VNI 42 with the switch
24 set and one NIC, because `std::map::insert` keeps the first branch; and
`NicAdd(n1); NicAdd(n2)` where `pg_brick_unlink_edge` fails returns `false`
after `vni.sw` has been assigned. -/
theorem C1_switch_set_with_a_single_nic :
    NicAdd globals env1 g0 n1 = some (true, g1) ∧ SwitchInv g1 ∧
    (NicAdd globals env2 g1 n1).map Prod.fst = some true ∧
    g1Twice.vnis_ = [(42, vni42One (some 24))] ∧ ¬ SwitchInv g1Twice ∧
    (NicAdd globals env2UnlinkFails g1 n2).map Prod.fst = some false ∧
    g1UnlinkFails.vnis_ = [(42, vni42One (some 24))] ∧ ¬ SwitchInv g1UnlinkFails := by
  decide

set_option maxRecDepth 100000 in
/-- C2 (fails on the code): `NicAdd(n1)` builds the topology of the spec, and
`NicConfigPacketTrace(n1, true)` on this filtered NIC then sets `head` to the
sniffer, which `LinkSniffer` chains behind the antispoof: once the queue is
drained VNI 42 holds one NIC whose head, brick 15, is not linked to the VTEP,
brick 1 (the VTEP is still linked to the firewall, brick 10). -/
theorem C2_head_not_linked_after_packet_trace :
    LinkInv (quiesce g1) ∧
    (NicConfigPacketTrace globals (some 15) g1 n1 true).isSome = true ∧
    (quiesce g1Traced).vnis_ = [(42, { vni := 42, sw := none, nics := [("n1", gn1Traced)] })] ∧
    (quiesce g1Traced).queue_ = [] ∧
    (quiesce g1Traced).links =
      [(some 0, some 1), (some 10, some 11), (some 1, some 10), (some 11, some 15),
       (some 15, some 12)] ∧
    ((quiesce g1Traced).vtep_, gn1Traced.head) ∉ (quiesce g1Traced).links ∧
    ¬ LinkInv (quiesce g1Traced) := by
  decide

set_option maxRecDepth 100000 in
/-- C3 (fails on the code): `NicAdd(n2)` on a VNI that holds exactly one NIC
succeeds and pushes `FW_NEW`, `NOTHING`, `LINK(vtep, sw)`, `ADD_VNI(vtep, sw, 42)`,
`LINK(sw, head1)`, `LINK(sw, head2)`, `UPDATE_POLL`, `FW_RELOAD`; no
`UNLINK_EDGE` is ever pushed.  The edge `(vtep, head1)`, which the poller has
linked, is removed by a direct call of `pg_brick_unlink_edge` from `NicAdd`
itself: when `NicAdd` returns, the edge is gone although the poller has executed
no `UNLINK_EDGE`, and the six commands that attach the switch are still
pending. -/
theorem C3_no_unlink_edge_enqueued :
    NicAdd globals env2 g1 n2 = some (true, g2) ∧
    nicsOf g1 42 = [("n1", gn1)] ∧
    history g2 = history g1 ++
      [RpcQueue.FW_NEW "firewall-n2" 1 1 FwFlags.PG_NO_CONN_WORKER (some 20),
       RpcQueue.NOTHING,
       RpcQueue.LINK (some 1) (some 24),
       RpcQueue.ADD_VNI (some 1) (some 24) 42 [230, 0, 0, 42],
       RpcQueue.LINK (some 24) (some 10),
       RpcQueue.LINK (some 24) (some 20),
       RpcQueue.UPDATE_POLL
         { size := 2, pollables := [some 12, some 22], firewalls := [some 10, some 20] },
       RpcQueue.FW_RELOAD (some 20)] ∧
    (history g2).any isUnlinkEdge = false ∧
    (g1.vtep_, gn1.head) ∈ (runAll g1 g1.queue_).links ∧
    (g1.vtep_, gn1.head) ∉ g2.links ∧
    g2.executed.any isUnlinkEdge = false ∧
    g2.queue_ =
      [RpcQueue.LINK (some 1) (some 24),
       RpcQueue.ADD_VNI (some 1) (some 24) 42 [230, 0, 0, 42],
       RpcQueue.LINK (some 24) (some 10),
       RpcQueue.LINK (some 24) (some 20),
       RpcQueue.UPDATE_POLL
         { size := 2, pollables := [some 12, some 22], firewalls := [some 10, some 20] },
       RpcQueue.FW_RELOAD (some 20)] := by
  decide

/-- C4: `NicDel` of a NIC present in a started graph returns, having pushed
`UPDATE_POLL`, then, by cases on the number of NICs of the VNI before the
removal: exactly two: `UNLINK(switch)`, `LINK(vtep, other_head)`,
`ADD_VNI(vtep, other_head, vni)` and a fence, after which the switch handle is
released; any other number: `UNLINK(head)` of the removed NIC; and then in
every case `BRICK_DESTROY(firewall)` of the removed NIC and a fence, so that the
queue is empty when it returns. -/
theorem C4_NicDel_commands (a : App) (g : Graph) (nic : app.Nic) (vni : GraphVni)
    (n : GraphNic) (hs : Started g) (hwf : WF g)
    (hv : mapFind g.vnis_ nic.vni = some vni)
    (hn : mapFind vni.nics nic.id = some n) :
    ∃ g', NicDel a g nic = some g' ∧ g'.queue_ = [] ∧
      (∃ p, history g' = history g ++ [RpcQueue.UPDATE_POLL p] ++
        NicDel_topology g vni n nic ++
        [RpcQueue.BRICK_DESTROY n.firewall, RpcQueue.NOTHING]) ∧
      (vni.nics.length = 2 → switchOf g' nic.vni = none) := by
  obtain ⟨g', h1, _, _, _, hq, hex, _, hvn⟩ := NicDel_present a g nic vni n hs.1 hv hn hs.2
  have hmem := mapFind_mem _ _ _ hv
  obtain ⟨_, hnd, hid⟩ := hwf.2 _ hmem
  simp only at hnd hid
  refine ⟨g', h1, hq, ⟨update_poll_vnis a.GRAPH_VHOST_MAX_SIZE
    (NicDel_disabled g vni n nic) ⟨0, [], []⟩, ?_⟩, ?_⟩
  · unfold history
    rw [hex, hq, NicDel_cmds_eq_topology g vni n nic hnd hid]
    simp only [List.append_assoc, List.append_nil]
  · intro hlen
    unfold switchOf
    rw [hvn]
    match hshape : vni.nics, hlen with
    | [x, y], _ =>
      have he : ∃ e, mapErase [x, y] nic.id = [e] := by
        simp only [mapErase_cons]
        by_cases hx1 : x.1 = nic.id
        · exact ⟨_, by rw [if_pos hx1]⟩
        · rw [hshape, mapFind_cons, if_neg hx1, mapFind_cons] at hn
          have hy1 : y.1 = nic.id := by
            by_contra hne; rw [if_neg hne] at hn; simp [mapFind] at hn
          exact ⟨_, by rw [if_neg hx1, if_pos hy1]⟩
      obtain ⟨e, he⟩ := he
      simp [NicDel_vnis, NicDel_entry, hshape, he, mapFind_mapSet_self, hv]

set_option maxRecDepth 100000 in
/-- C4 (witness): `NicDel(n1)` when VNI 42 holds `n1` and `n2`; the topology
commands are `UNLINK(sw)`, `LINK(vtep, head2)`, `ADD_VNI(vtep, head2, 42)` and a
fence. -/
theorem C4_witness :
    (NicDel_topology g2 vni42Two gn1 n1 =
      [RpcQueue.UNLINK (some 24), RpcQueue.LINK (some 1) (some 20),
       RpcQueue.ADD_VNI (some 1) (some 20) 42 [230, 0, 0, 42], RpcQueue.NOTHING]) ∧
    ∃ g', NicDel globals g2 n1 = some g' ∧ g'.queue_ = [] ∧
      (∃ p, history g' = history g2 ++ [RpcQueue.UPDATE_POLL p] ++
        NicDel_topology g2 vni42Two gn1 n1 ++
        [RpcQueue.BRICK_DESTROY gn1.firewall, RpcQueue.NOTHING]) ∧
      (vni42Two.nics.length = 2 → switchOf g' n1.vni = none) :=
  ⟨by decide, C4_NicDel_commands globals g2 n1 vni42Two gn1
    ⟨by decide, by decide⟩ (by unfold WF; decide) (by decide) (by decide)⟩

set_option maxRecDepth 100000 in
/-- C5 (counterexample): a `NicAdd` in which the firewall creation fails leaves
an entry for VNI 42 without NIC; from that started graph `NicAdd(n2)` succeeds
and `NicDel(n2)` erases the entry, so `vnis_` has lost the key 42 it had before
`NicAdd(n2)`. -/
theorem C5_vni_key_lost :
    NicAdd globals env1NoFirewall g0 n1 = some (false, gEmptyVni) ∧
    gEmptyVni.started = true ∧
    gEmptyVni.vnis_ = [(42, { vni := 42, sw := none, nics := [] })] ∧
    mapFind (nicsOf gEmptyVni n2.vni) n2.id = none ∧
    NicAdd globals env2 gEmptyVni n2 = some (true, gEmptyVniAdd) ∧
    (NicDel globals gEmptyVniAdd n2).map (fun g => g.vnis_) = some [] := by
  decide

/-- C5 (amended): from a graph that satisfies the invariants of the data model
(every VNI entry keyed by its `vni`, holding at least one NIC, keying its NICs
by their `id`, with its switch handle set if and only if it holds at least two
NICs and, when it holds exactly one NIC, the VTEP linked to the head of that NIC
once the queue is drained), for a NIC whose id is not yet present in its VNI:
if `NicAdd` succeeds then `NicDel` returns with an empty queue, `vnis_` is what
it was before `NicAdd`, and the links between bricks other than those created
for the NIC are those that existed before `NicAdd` once the queue was drained. -/
theorem C5_NicAdd_NicDel_restores (a : App) (env : NicAddEnv) (g : Graph) (nic : app.Nic)
    (g1 : Graph) (hc : Consistent g)
    (hfresh : mapFind (nicsOf g nic.vni) nic.id = none)
    (hadd : NicAdd a env g nic = some (true, g1)) :
    ∃ g2, NicDel a g1 nic = some g2 ∧ g2.queue_ = [] ∧ g2.vnis_ = g.vnis_ ∧
      ∀ p q, isOld env p → isOld env q →
        ((p, q) ∈ g2.links ↔ (p, q) ∈ (quiesce g).links) := by
  obtain ⟨hs, hx, s1, vt, i6, hv1, hex, ⟨rest, hq, hr⟩, ⟨D, hD, hl⟩, hsw⟩ :=
    NicAdd_true a env g nic g1 hadd
  obtain ⟨_, _, _, _, _, _, _, v8⟩ := NicAdd_vni_fields g nic
  rw [nicsOf_eq] at hfresh
  have hE : mapFind g1.vnis_ nic.vni = some (NicAdd_entry env g nic) := by
    rw [hv1]; unfold NicAdd_vnis; rw [mapFind_mapSet_self, v8]; rfl
  have hEn : (NicAdd_entry env g nic).nics =
      mapPlace strLt (nic.id, branchNic env nic) (entryOf g nic.vni).nics := by
    simp [NicAdd_entry, mapInsert, hfresh]
  have hgn : mapFind (NicAdd_entry env g nic).nics nic.id = some (branchNic env nic) := by
    rw [hEn]; exact mapFind_mapPlace_self _ _ _ _ hfresh
  have hx1 : RpcQueue.EXIT ∉ g1.queue_ := by
    rw [hq]
    have := exit_not_mem_NicAdd_topology env g nic
    rcases hr with h | ⟨fw, h⟩ <;> subst h <;> simp [this]
  obtain ⟨g2, h2, _, _, _, hq2, _, hl2, hv2⟩ :=
    NicDel_present a g1 nic _ _ s1 hE hgn hx1
  have hlen : (NicAdd_entry env g nic).nics.length = (entryOf g nic.vni).nics.length + 1 := by
    rw [hEn, length_mapPlace]
  have hen : (NicDel_entry (NicAdd_entry env g nic) nic).nics = (entryOf g nic.vni).nics := by
    show mapErase (NicAdd_entry env g nic).nics nic.id = _
    rw [hEn, mapErase_mapPlace _ _ _ _ hfresh]
  have hlinks : ∀ p q, ((p, q) ∈ g2.links ↔ (p, q) ∈
      (NicDel_cmds g1 (NicAdd_entry env g nic) (branchNic env nic) nic).foldl execLinks
        ((NicAdd_topology env g nic).foldl execLinks
          (NicAdd_links g nic ((runAll g g.queue_).links ++ D)))) := by
    intro p q
    rw [hl2, runAll_links g1, hq, foldl_execLinks_tail _ _ _ _ hr, hl]
  have hDn : ∀ p q, isOld env p → (p, q) ∉ D := fun p q hp hm => hD _ hm hp
  have hhead : (branchNic env nic).head = branchHead env nic := rfl
  have hbh := branchHead_mem env nic
  refine ⟨g2, h2, hq2, ?_, ?_⟩
  · rw [hv2]; unfold NicDel_vnis
    rw [hen]
    cases hfind : mapFind g.vnis_ nic.vni with
    | none =>
      have he : entryOf g nic.vni = { vni := nic.vni, sw := none, nics := [] } := by
        unfold entryOf; rw [hfind]
      have hvni : (NicAdd_vni g nic).vnis_ =
          mapPlace natLt (nic.vni, { vni := nic.vni, sw := none, nics := [] }) g.vnis_ := by
        unfold NicAdd_vni; rw [hfind]; simp [mapInsert, hfind]
      have hk : (NicAdd_entry env g nic).vni = nic.vni := by simp [NicAdd_entry, he]
      rw [he]
      simp only [if_true]
      rw [hk, mapErase_mapSet, hv1]
      unfold NicAdd_vnis
      rw [mapErase_mapSet, hvni, mapErase_mapPlace _ _ _ _ hfind]
    | some v =>
      obtain ⟨hkey, hne, hid, hswi, hlink⟩ := hc _ (mapFind_mem _ _ _ hfind)
      have he : entryOf g nic.vni = v := by unfold entryOf; rw [hfind]
      have hvni : (NicAdd_vni g nic).vnis_ = g.vnis_ := by unfold NicAdd_vni; rw [hfind]
      rw [he, if_neg hne, hv1]
      unfold NicAdd_vnis
      rw [mapSet_mapSet, hvni]
      apply mapSet_of_mapFind
      rw [hfind]
      congr 1
      rw [he] at hen hlen
      cases v with
      | mk vv vsw vn =>
        simp only at hen hlen hne hswi
        simp only [NicDel_entry, GraphVni.mk.injEq]
        refine ⟨?_, ?_, hen.symm⟩
        · simp [NicAdd_entry, he]
        · cases vn with
          | nil => exact absurd rfl hne
          | cons x tl =>
            cases tl with
            | nil =>
              have : vsw = none := by
                by_contra hh
                have := hswi.1 hh
                simp at this
              rw [hlen, this]; simp
            | cons y tl2 =>
              rw [hlen]
              simp [NicAdd_entry, he]
  · intro p q hp hq'
    rw [hlinks]
    have hph := isOld_ne env p _ hp hbh
    have hqh := isOld_ne env q _ hq' hbh
    have hDpq := hDn p q hp
    cases hfind : mapFind g.vnis_ nic.vni with
    | none =>
      have he : entryOf g nic.vni = { vni := nic.vni, sw := none, nics := [] } := by
        unfold entryOf; rw [hfind]
      rw [he] at hlen
      rw [NicDel_cmds_of_length_ne_two _ _ _ _ (by rw [hlen]; simp), quiesce_links g hx]
      simp only [NicAdd_topology, nicsOf_eq, NicAdd_links, he, List.foldl_cons,
        List.foldl_nil, execLinks, pg_brick_link, pg_brick_unlink, List.mem_filter,
        List.mem_append, List.mem_singleton, decide_eq_true_eq, Prod.mk.injEq, hhead]
      simp [hph, hqh, hDpq]
    | some v =>
      obtain ⟨hkey, hne, hid, hswi, hlink⟩ := hc _ (mapFind_mem _ _ _ hfind)
      have he : entryOf g nic.vni = v := by unfold entryOf; rw [hfind]
      rw [he] at hlen hfresh hEn
      rw [quiesce_links g hx] at hlink ⊢
      simp only at hne hid hlink
      cases hvn : v.nics with
      | nil => exact absurd hvn hne
      | cons x tl =>
        cases tl with
        | nil =>
          have hswn : env.sw ∈ newBricks env := by simp [newBricks]
          have hps := isOld_ne env p _ hp hswn
          have hqs := isOld_ne env q _ hq' hswn
          have hxid : x.2.id ≠ nic.id := by
            rw [hid x (by rw [hvn]; simp)]
            intro e
            rw [hvn, mapFind_cons, if_pos e] at hfresh
            simp at hfresh
          have hl1 := hlink x (by rw [hvn]; simp) (by rw [hvn]; rfl)
          have hcmds : NicDel_cmds g1 (NicAdd_entry env g nic) (branchNic env nic) nic =
              [RpcQueue.UNLINK env.sw, RpcQueue.LINK g.vtep_ x.2.head,
               RpcQueue.ADD_VNI g.vtep_ x.2.head nic.vni (mcastOf g1 nic.vni),
               RpcQueue.NOTHING] := by
            have hbid : (branchNic env nic).id = nic.id := rfl
            have hesw : (NicAdd_entry env g nic).sw = env.sw := by
              simp [NicAdd_entry, he, hvn]
            unfold NicDel_cmds
            rw [hEn, hvn, hesw, vt]
            unfold mapPlace
            by_cases hlt : strLt nic.id x.1 = true
            · simp [hlt, hbid, hxid]
            · simp [hlt, hbid, hxid, mapPlace]
          rw [hcmds]
          simp only [NicAdd_topology, nicsOf_eq, NicAdd_links, he, hvn, List.foldl_cons,
            List.foldl_nil, execLinks, pg_brick_link, pg_brick_unlink, pg_brick_unlink_edge,
            List.mem_filter, List.mem_append, List.mem_singleton, decide_eq_true_eq,
            Prod.mk.injEq, hhead]
          by_cases hpq : p = g.vtep_ ∧ q = x.2.head
          · rw [hpq.1, hpq.2]
            simp [hl1]
          · have hne2 : (p, q) ≠ (g.vtep_, x.2.head) := by
              simpa [Prod.mk.injEq] using hpq
            simp [hps, hqs, hDpq, hpq, hne2]
        | cons y tl2 =>
          rw [hvn] at hlen
          rw [NicDel_cmds_of_length_ne_two _ _ _ _ (by rw [hlen]; simp)]
          simp only [NicAdd_topology, nicsOf_eq, NicAdd_links, he, hvn, List.foldl_cons,
            List.foldl_nil, execLinks, pg_brick_link, pg_brick_unlink, List.mem_filter,
            List.mem_append, List.mem_singleton, decide_eq_true_eq, Prod.mk.injEq, hhead]
          simp [hph, hqh, hDpq]

set_option maxRecDepth 100000 in
/-- C5 (witness): `NicAdd(n2); NicDel(n2)` on the graph that holds `n1`. -/
theorem C5_witness :
    ∃ g', NicDel globals g2 n2 = some g' ∧ g'.queue_ = [] ∧ g'.vnis_ = g1.vnis_ ∧
      ∀ p q, isOld env2 p → isOld env2 q →
        ((p, q) ∈ g'.links ↔ (p, q) ∈ (quiesce g1).links) :=
  C5_NicAdd_NicDel_restores globals env2 g1 n2 g2 (by decide) (by decide) (by decide)

/-- C6: after `NicDel` of a NIC present in a started graph, the entry of the
NIC is erased from its VNI, every other NIC entry of that VNI and every other
VNI entry is unchanged, and the VNI entry is absent from `vnis_` exactly when
the NIC was the only one of the VNI. -/
theorem C6_NicDel_frame (a : App) (g : Graph) (nic : app.Nic) (vni : GraphVni)
    (n : GraphNic) (hs : Started g) (hwf : WF g)
    (hv : mapFind g.vnis_ nic.vni = some vni)
    (hn : mapFind vni.nics nic.id = some n) :
    ∃ g', NicDel a g nic = some g' ∧
      mapFind (nicsOf g' nic.vni) nic.id = none ∧
      (∀ id, id ≠ nic.id → mapFind (nicsOf g' nic.vni) id = mapFind vni.nics id) ∧
      (∀ k, k ≠ nic.vni → mapFind g'.vnis_ k = mapFind g.vnis_ k) ∧
      (mapFind g'.vnis_ nic.vni = none ↔ vni.nics.length = 1) := by
  obtain ⟨g', h1, _, _, _, _, _, _, hvn⟩ := NicDel_present a g nic vni n hs.1 hv hn hs.2
  have hmem := mapFind_mem _ _ _ hv
  obtain ⟨hkey, hnd, _⟩ := hwf.2 _ hmem
  simp only at hkey hnd
  refine ⟨g', h1, ?_⟩
  unfold nicsOf
  rw [hvn]
  unfold NicDel_vnis
  have hen : (NicDel_entry vni nic).nics = mapErase vni.nics nic.id := rfl
  by_cases hE : mapErase vni.nics nic.id = []
  · have hlen := (mapErase_eq_nil_iff _ _ _ hn).1 hE
    rw [hen, if_pos hE, hkey, mapErase_mapSet]
    have hnone : mapFind (mapErase g.vnis_ nic.vni) nic.vni = none :=
      mapFind_mapErase_self _ _ hwf.1
    rw [hnone]
    refine ⟨rfl, ?_, ?_, ?_⟩
    · intro id hid
      rw [mapFind_of_length_one _ _ _ _ hn hlen hid]
      rfl
    · intro k hk
      exact mapFind_mapErase_of_ne _ _ _ hk
    · exact ⟨fun _ => hlen, fun _ => rfl⟩
  · rw [hen, if_neg hE, mapFind_mapSet_self, hv]
    simp only [Option.map_some']
    rw [hen]
    refine ⟨mapFind_mapErase_self _ _ hnd, ?_, ?_, ?_⟩
    · intro id hid
      exact mapFind_mapErase_of_ne _ _ _ hid
    · intro k hk
      exact mapFind_mapSet_of_ne _ _ _ _ hk
    · constructor
      · intro h; cases h
      · intro h; exact absurd ((mapErase_eq_nil_iff _ _ _ hn).2 h) hE

set_option maxRecDepth 100000 in
/-- C6 (witness): `NicDel(n1)` when VNI 42 holds `n1` and `n2`. -/
theorem C6_witness :
    ∃ g', NicDel globals g2 n1 = some g' ∧
      mapFind (nicsOf g' n1.vni) n1.id = none ∧
      (∀ id, id ≠ n1.id → mapFind (nicsOf g' n1.vni) id = mapFind vni42Two.nics id) ∧
      (∀ k, k ≠ n1.vni → mapFind g'.vnis_ k = mapFind g2.vnis_ k) ∧
      (mapFind g'.vnis_ n1.vni = none ↔ vni42Two.nics.length = 1) :=
  C6_NicDel_frame globals g2 n1 vni42Two gn1
    ⟨by decide, by decide⟩ (by unfold WF; decide) (by decide) (by decide)

/-- C7 (fails on the code): for a security group without rule, or whose rules
all compile to the empty string, `FwBuildSg` evaluates `r.back()` on the empty
string `r`: the result is undefined instead of the empty string. -/
theorem C7_FwBuildSg_undefined_when_no_rule_compiles :
    FwBuildSg_loop globals sgEmpty.rules "" = "" ∧ FwBuildSg globals sgEmpty = none ∧
    FwBuildRule globals { rule80 with direction := app.Direction.OUTBOUND } = "" ∧
    FwBuildSg_loop globals sgOutbound.rules "" = "" ∧
    FwBuildSg globals sgOutbound = none := by
  decide

set_option maxRecDepth 100000 in
/-- C8 (fails on the code): for a NIC without security group `FwUpdate`
evaluates `in_rules.back()` on the empty string, and for a NIC whose last
referenced group is empty it calls `FwBuildSg` on that group, which does the
same: the inbound string is undefined, and so is the outcome of `FwUpdate`. -/
theorem C8_in_rules_undefined :
    FwUpdate_in_loop globals n1NoSg.security_groups "" = some "" ∧
    FwUpdate_in_rules globals n1NoSg = none ∧
    FwUpdate globals true true g1 n1NoSg = none ∧
    FwUpdate_in_rules globals n1LastEmpty = none ∧
    FwUpdate globals true true g1 n1LastEmpty = none ∧
    FwUpdate_in_rules globals n1 = some "((src net 10.0.0.0/24 and tcp dst port 80))" := by
  decide

/-- C9: the outbound rule string of `FwUpdate` is the ` || `-separated list of
`(src host ip)` over `ip_list`, in order, followed by the DHCP-request permit;
the permit is the whole string when `ip_list` is empty; for
`ip_list = [192.0.2.5]` it is the string of the spec. -/
theorem C9_out_rules (nic : app.Nic) :
    FwUpdate_out_rules nic =
      joinWith " || "
        (nic.ip_list.map (fun ip => "(src host " ++ ip.Str ++ ")") ++ [dhcpPermit]) ∧
    (nic.ip_list = [] → FwUpdate_out_rules nic = dhcpPermit) ∧
    dhcpPermit = "(src host 0.0.0.0 and dst host 255.255.255.255 and udp src port 68 and udp dst port 67)" ∧
    FwUpdate_out_rules n1 = "(src host 192.0.2.5) || (src host 0.0.0.0 and dst host 255.255.255.255 and udp src port 68 and udp dst port 67)" := by
  have main : FwUpdate_out_rules nic =
      joinWith " || "
        (nic.ip_list.map (fun ip => "(src host " ++ ip.Str ++ ")") ++ [dhcpPermit]) := by
    unfold FwUpdate_out_rules
    simp only [FwUpdate_out_loop_eq, String.empty_append]
    cases h : nic.ip_list with
    | nil => simp [joinWith]
    | cons ip rest =>
      have hlen : (joinWith " || "
          (List.map (fun ip => "(src host " ++ ip.Str ++ ")") (ip :: rest))).length > 0 := by
        have := length_joinWith_cons " || " ("(src host " ++ ip.Str ++ ")")
          (List.map (fun ip => "(src host " ++ ip.Str ++ ")") rest)
        simp only [List.map_cons]
        simp only [String.length_append] at this
        have h2 : "(src host ".length = 10 := by decide
        omega
      rw [if_pos hlen]
      rw [joinWith_append_singleton _ _ _ (by simp)]
  refine ⟨main, ?_, by decide, by decide⟩
  intro h
  rw [main, h]
  rfl

/-- C10: for an `INBOUND` rule without security group, with a non-zero mask,
protocol TCP or UDP and ports `S ≤ E < 65536`, `FwBuildRule` returns
`src net A/M and tcp` (or `and udp`) followed by ` dst port S` when `S = E` and
by ` dst portrange S-E` when `S < E`. -/
theorem C10_FwBuildRule_tcp_udp (a : App) (rule : app.Rule)
    (hdir : rule.direction = app.Direction.INBOUND)
    (hsg : rule.security_group = "")
    (hmask : rule.cidr.mask_size ≠ 0)
    (hproto : rule.protocol = IPPROTO_TCP ∨ rule.protocol = IPPROTO_UDP)
    (hSE : rule.port_start ≤ rule.port_end) (hE : rule.port_end < 65536) :
    FwBuildRule a rule =
      "src net " ++ rule.cidr.address.Str ++ "/" ++ toString rule.cidr.mask_size ++
      (if rule.protocol = IPPROTO_TCP then " and tcp" else " and udp") ++
      (if rule.port_start = rule.port_end then " dst port " ++ toString rule.port_start
       else " dst portrange " ++ toString rule.port_start ++ "-" ++
         toString rule.port_end) := by
  have hS : rule.port_start < 65536 := lt_of_le_of_lt hSE hE
  have hsrc : FwBuildRule_source a rule =
      some ("src net " ++ rule.cidr.address.Str ++ "/" ++
        toString rule.cidr.mask_size) := by
    unfold FwBuildRule_source
    rw [hsg]
    rw [if_pos (by decide), if_pos hmask, String.empty_append]
  unfold FwBuildRule
  rw [if_neg (by rw [hdir]; decide), hsrc]
  simp only
  rw [if_pos hproto, if_pos ⟨hS, hE⟩]
  have hp : ∀ r : String, FwBuildRule_protocol rule r =
      r ++ (if rule.protocol = IPPROTO_TCP then " and tcp" else " and udp") := by
    intro r
    unfold FwBuildRule_protocol
    rcases hproto with h | h
    · rw [h]; simp [IPPROTO_TCP, IPPROTO_ICMP, IPPROTO_ICMPV6]
    · rw [h]; simp [IPPROTO_TCP, IPPROTO_ICMP, IPPROTO_ICMPV6, IPPROTO_UDP]
  rw [hp]
  by_cases heq : rule.port_start = rule.port_end
  · rw [if_pos heq, if_pos heq, heq]
  · rw [if_neg heq, if_neg heq, if_pos (lt_of_le_of_ne hSE heq)]

/-- C10 (witness): the rule `{INBOUND, TCP, 10.0.0.0/24, ports 80..80}` gives
`src net 10.0.0.0/24 and tcp dst port 80`. -/
theorem C10_witness :
    FwBuildRule globals rule80 = "src net 10.0.0.0/24 and tcp dst port 80" :=
  (C10_FwBuildRule_tcp_udp globals rule80 rfl rfl (by decide) (Or.inl rfl)
    (by decide) (by decide)).trans (by decide)

/-- C11: `FwBuildRule` returns the empty string exactly when the rule is
dropped: its direction is `OUTBOUND`, or it names a security group that the
model does not know or that has no member, or its protocol is TCP or UDP and
`port_start > port_end` or one of the ports is at least 65536.  For every other
rule the result is non-empty. -/
theorem C11_FwBuildRule_empty_iff_dropped (a : App) (rule : app.Rule) :
    (FwBuildRule a rule = "" ↔
      (rule.direction = app.Direction.OUTBOUND ∨
       (rule.security_group ≠ "" ∧
         (mapFind a.security_groups rule.security_group = none ∨
          ∃ sg, mapFind a.security_groups rule.security_group = some sg ∧
            sg.members = [])) ∨
       ((rule.protocol = IPPROTO_TCP ∨ rule.protocol = IPPROTO_UDP) ∧
         (rule.port_start > rule.port_end ∨ rule.port_start ≥ 65536 ∨
          rule.port_end ≥ 65536)))) ∧
    (FwBuildRule a rule ≠ "" ↔ (FwBuildRule a rule).length > 0) := by
  refine ⟨?_, ?_⟩
  swap
  · rw [Ne, str_eq_empty_iff_length]; omega
  unfold FwBuildRule
  by_cases hdir : rule.direction = app.Direction.OUTBOUND
  · rw [if_pos hdir]; simp [hdir]
  rw [if_neg hdir]
  cases hsrc : FwBuildRule_source a rule with
  | none =>
    have := (FwBuildRule_source_none_iff a rule).1 hsrc
    simp only [true_iff]
    exact Or.inr (Or.inl this)
  | some r =>
    have hnone : ¬ (rule.security_group ≠ "" ∧
        (mapFind a.security_groups rule.security_group = none ∨
         ∃ sg, mapFind a.security_groups rule.security_group = some sg ∧
           sg.members = [])) := by
      intro h
      rw [(FwBuildRule_source_none_iff a rule).2 h] at hsrc
      cases hsrc
    have hr := FwBuildRule_source_length a rule r hsrc
    have hp := FwBuildRule_protocol_length rule r
    simp only
    by_cases hproto : rule.protocol = IPPROTO_TCP ∨ rule.protocol = IPPROTO_UDP
    · rw [if_pos hproto]
      by_cases hports : rule.port_start < 65536 ∧ rule.port_end < 65536
      · rw [if_pos hports]
        by_cases heq : rule.port_start = rule.port_end
        · rw [if_pos heq]
          rw [str_eq_empty_iff_length, String.length_append]
          constructor
          · intro h; omega
          · rintro (h | h | ⟨_, h⟩)
            · exact absurd h hdir
            · exact absurd h hnone
            · omega
        · rw [if_neg heq]
          by_cases hlt : rule.port_start < rule.port_end
          · rw [if_pos hlt]
            rw [str_eq_empty_iff_length, String.length_append]
            constructor
            · intro h; omega
            · rintro (h | h | ⟨_, h⟩)
              · exact absurd h hdir
              · exact absurd h hnone
              · omega
          · rw [if_neg hlt]
            simp only [true_iff]
            exact Or.inr (Or.inr ⟨hproto, Or.inl (by omega)⟩)
      · rw [if_neg hports]
        simp only [true_iff]
        refine Or.inr (Or.inr ⟨hproto, ?_⟩)
        by_cases h1 : rule.port_start < 65536
        · exact Or.inr (Or.inr (by
            have : ¬ rule.port_end < 65536 := fun h => hports ⟨h1, h⟩
            omega))
        · exact Or.inr (Or.inl (by omega))
    · rw [if_neg hproto]
      rw [str_eq_empty_iff_length]
      constructor
      · intro h; omega
      · rintro (h | h | ⟨h, _⟩)
        · exact absurd h hdir
        · exact absurd h hnone
        · exact absurd h hproto

/-- C12: for an `INBOUND` rule without security group whose protocol is
neither TCP nor UDP, `FwBuildRule` returns the source clause (`src net A/M` for
a non-zero mask, otherwise `ip` for an IPv4 CIDR and `ip6` for an IPv6 one)
followed by the protocol clause (nothing for protocol -1, ` and icmp`,
` and icmp6`, and for any other number `N` ` and (ip proto N)` for an IPv4 CIDR
or ` and (ip6 proto N)` for an IPv6 one); the result does not depend on
`port_start` and `port_end`. -/
theorem C12_FwBuildRule_other_protocols (a : App) (rule : app.Rule)
    (hdir : rule.direction = app.Direction.INBOUND)
    (hsg : rule.security_group = "")
    (htcp : rule.protocol ≠ IPPROTO_TCP) (hudp : rule.protocol ≠ IPPROTO_UDP) :
    FwBuildRule a rule =
      (if rule.cidr.mask_size ≠ 0 then
         "src net " ++ rule.cidr.address.Str ++ "/" ++ toString rule.cidr.mask_size
       else if rule.cidr.address.Type_ = app.IpType.V4 then "ip" else "ip6") ++
      (if rule.protocol = -1 then ""
       else if rule.protocol = IPPROTO_ICMP then " and icmp"
       else if rule.protocol = IPPROTO_ICMPV6 then " and icmp6"
       else if rule.cidr.address.Type_ = app.IpType.V4 then
         " and (ip proto " ++ toString rule.protocol ++ ")"
       else " and (ip6 proto " ++ toString rule.protocol ++ ")") ∧
    ∀ s e : Int, FwBuildRule a { rule with port_start := s, port_end := e } =
      FwBuildRule a rule := by
  have key : ∀ r : app.Rule, r.direction = app.Direction.INBOUND →
      r.security_group = "" → r.protocol ≠ IPPROTO_TCP → r.protocol ≠ IPPROTO_UDP →
      FwBuildRule a r =
        (if r.cidr.mask_size ≠ 0 then
           "src net " ++ r.cidr.address.Str ++ "/" ++ toString r.cidr.mask_size
         else if r.cidr.address.Type_ = app.IpType.V4 then "ip" else "ip6") ++
        (if r.protocol = -1 then ""
         else if r.protocol = IPPROTO_ICMP then " and icmp"
         else if r.protocol = IPPROTO_ICMPV6 then " and icmp6"
         else if r.cidr.address.Type_ = app.IpType.V4 then
           " and (ip proto " ++ toString r.protocol ++ ")"
         else " and (ip6 proto " ++ toString r.protocol ++ ")") := by
    intro r hd hs ht hu
    have hsrc : FwBuildRule_source a r =
        some (if r.cidr.mask_size ≠ 0 then
           "src net " ++ r.cidr.address.Str ++ "/" ++ toString r.cidr.mask_size
         else if r.cidr.address.Type_ = app.IpType.V4 then "ip" else "ip6") := by
      unfold FwBuildRule_source
      rw [hs, if_pos (by decide)]
      by_cases hm : r.cidr.mask_size ≠ 0
      · rw [if_pos hm, if_pos hm, String.empty_append]
      · rw [if_neg hm, if_neg hm]
        by_cases h4 : r.cidr.address.Type_ = app.IpType.V4
        · rw [if_pos h4, if_pos h4]; rfl
        · rw [if_neg h4, if_neg h4]; rfl
    unfold FwBuildRule
    rw [if_neg (by rw [hd]; decide), hsrc]
    simp only
    rw [if_neg (by intro h; rcases h with h | h; exact ht h; exact hu h)]
    unfold FwBuildRule_protocol
    by_cases h1 : r.protocol = IPPROTO_ICMP
    · have hm1 : r.protocol ≠ -1 := by rw [h1]; decide
      rw [if_pos h1, if_neg hm1, if_pos h1]
    rw [if_neg h1]
    by_cases h2 : r.protocol = IPPROTO_ICMPV6
    · have hm1 : r.protocol ≠ -1 := by rw [h2]; decide
      rw [if_pos h2, if_neg hm1, if_neg h1, if_pos h2]
    rw [if_neg h2, if_neg ht, if_neg hu]
    by_cases h3 : r.protocol = -1
    · rw [if_pos h3, if_pos h3, String.append_empty]
    rw [if_neg h3, if_neg h3, if_neg h1, if_neg h2]
    by_cases h4 : r.cidr.address.Type_ = app.IpType.V4
    · simp only [if_pos h4]
    · simp only [if_neg h4]
  refine ⟨key rule hdir hsg htcp hudp, ?_⟩
  intro s e
  rw [key rule hdir hsg htcp hudp]
  exact key _ hdir hsg htcp hudp

/-- C12 (witness): the rule `{INBOUND, ICMP, 10.0.0.0/24}` gives
`src net 10.0.0.0/24 and icmp`, with the ports 80..80 as with the ports 7..3. -/
theorem C12_witness :
    FwBuildRule globals { rule80 with protocol := 1 } = "src net 10.0.0.0/24 and icmp" ∧
    FwBuildRule globals
        { ({ rule80 with protocol := 1 } : app.Rule) with port_start := 7, port_end := 3 } =
      FwBuildRule globals { rule80 with protocol := 1 } :=
  ⟨(C12_FwBuildRule_other_protocols globals { rule80 with protocol := 1 } rfl rfl
      (by decide) (by decide)).1.trans (by decide),
   (C12_FwBuildRule_other_protocols globals { rule80 with protocol := 1 } rfl rfl
      (by decide) (by decide)).2 7 3⟩

/-- C13: for an `INBOUND` rule naming a security group that the model knows
and that has the members `m1, …, mk` (`k ≥ 1`), the source clause that
`FwBuildRule` emits is ` ( src host m1 or src host m2 or … src host mk)`: one
` src host` atom per member, in member order, the atoms joined by ` or`, no
` or` after the last atom, the whole between one `(` and one `)`.  It is the
whole result for a rule of protocol -1, and the start of it for every rule
that is not dropped. -/
theorem C13_FwBuildRule_group_source (a : App) (rule : app.Rule) (sg : app.Sg)
    (hdir : rule.direction = app.Direction.INBOUND)
    (hname : rule.security_group ≠ "")
    (hsg : mapFind a.security_groups rule.security_group = some sg)
    (hm : sg.members ≠ []) :
    FwBuildRule_source a rule =
      some (" (" ++ joinWith " or" (sg.members.map (fun m => " src host " ++ m.Str)) ++
        ")") ∧
    (rule.protocol = -1 → FwBuildRule a rule =
      " (" ++ joinWith " or" (sg.members.map (fun m => " src host " ++ m.Str)) ++ ")") ∧
    (FwBuildRule a rule = "" ∨ ∃ rest, FwBuildRule a rule =
      " (" ++ joinWith " or" (sg.members.map (fun m => " src host " ++ m.Str)) ++ ")" ++
        rest) := by
  have hsrc : FwBuildRule_source a rule =
      some (" (" ++ joinWith " or" (sg.members.map (fun m => " src host " ++ m.Str)) ++
        ")") := by
    unfold FwBuildRule_source
    have h0 : ¬ rule.security_group.length = 0 :=
      fun h => hname ((str_eq_empty_iff_length _).2 h)
    rw [if_neg h0, hsg]
    simp only
    rw [if_pos (List.length_pos.2 hm), FwBuildRule_members_eq, String.empty_append]
  refine ⟨hsrc, ?_, ?_⟩
  · intro hp
    unfold FwBuildRule
    rw [if_neg (by rw [hdir]; decide), hsrc]
    simp only
    rw [if_neg (by rw [hp]; decide)]
    unfold FwBuildRule_protocol
    rw [hp]
    rfl
  · unfold FwBuildRule
    rw [if_neg (by rw [hdir]; decide), hsrc]
    simp only
    have hprot : ∃ t, FwBuildRule_protocol rule
        (" (" ++ joinWith " or" (sg.members.map (fun m => " src host " ++ m.Str)) ++ ")") =
        " (" ++ joinWith " or" (sg.members.map (fun m => " src host " ++ m.Str)) ++ ")" ++
          t := by
      unfold FwBuildRule_protocol
      split_ifs
      · exact ⟨_, rfl⟩
      · exact ⟨_, rfl⟩
      · exact ⟨_, rfl⟩
      · exact ⟨_, rfl⟩
      · exact ⟨"", (String.append_empty _).symm⟩
      · exact ⟨_, rfl⟩
      · exact ⟨_, rfl⟩
    obtain ⟨t, ht⟩ := hprot
    rw [ht]
    split_ifs
    · exact Or.inr ⟨_, by rw [String.append_assoc]⟩
    · exact Or.inr ⟨_, by rw [String.append_assoc]⟩
    · exact Or.inl rfl
    · exact Or.inl rfl
    · exact Or.inr ⟨_, rfl⟩

/-- C13 (witness): a rule whose source is a group with the members `10.0.0.1`
and `10.0.0.2` compiles to ` ( src host 10.0.0.1 or src host 10.0.0.2)`. -/
theorem C13_witness :
    FwBuildRule globalsTwo ruleSg = " ( src host 10.0.0.1 or src host 10.0.0.2)" :=
  ((C13_FwBuildRule_group_source globalsTwo ruleSg sgTwo rfl (by decide) (by decide)
      (by decide)).2.1 rfl).trans (by decide)

set_option maxRecDepth 100000 in
/-- C14 (fails on the code): the started graph `g1` holds the NIC `n1`, which
is not bypassed.  When `n1` references no security group, only a group that the
model does not know, or only a group without rule, `FwUpdate` reads `back()` of
an empty string before it reaches the flush: whatever the two rule-adds would
answer, it has no defined outcome, so no flush, no rule-add and no `FW_RELOAD`
is guaranteed.  With the group `sg1` the four steps are made in order. -/
theorem C14_FwUpdate_undefined_without_rules :
    g1.started = true ∧ n1.bypass_filtering = false ∧ FindNic g1 n1 = some gn1 ∧
    FindNic g1 n1NoSg = some gn1 ∧ FindNic g1 n1UnknownSg = some gn1 ∧
    FindNic g1 n1EmptySg = some gn1 ∧
    FwUpdate_in_loop globals n1NoSg.security_groups "" = some "" ∧
    FwUpdate_in_loop globals n1UnknownSg.security_groups "" = some "" ∧
    FwUpdate_in_loop globals n1EmptySg.security_groups "" = none ∧
    (∀ i o : Bool, FwUpdate globals i o g1 n1NoSg = none) ∧
    (∀ i o : Bool, FwUpdate globals i o g1 n1UnknownSg = none) ∧
    (∀ i o : Bool, FwUpdate globals i o g1 n1EmptySg = none) ∧
    FwUpdate globals true true g1 n1 =
      some { g1 with
        fw_rules := pg_firewall_rule_flush g1.fw_rules gn1.firewall ++
          [{ firewall := gn1.firewall,
             filter := "((src net 10.0.0.0/24 and tcp dst port 80))",
             side := Side.PG_WEST_SIDE, priority := 0 },
           { firewall := gn1.firewall, filter := FwUpdate_out_rules n1,
             side := Side.PG_EAST_SIDE, priority := 1 }],
        queue_ := g1.queue_ ++ [RpcQueue.FW_RELOAD gn1.firewall] } := by
  decide

/-- C15: for every VNI `v` (in particular for `0 ≤ v < 2^24`) the four bytes,
in network order, of the address that `BuildMulticastIp4 v` returns are
`230, (v >> 16) & 0xff, (v >> 8) & 0xff, v & 0xff`: the VNI in network byte order
with the high octet overwritten by 230, an address of `230.0.0.0/8`.  The VNI
`0x000010` gives `230.0.0.16`. -/
theorem C15_BuildMulticastIp4 (v : Nat) :
    BuildMulticastIp4 v = [230, (v >>> 16) &&& 0xff, (v >>> 8) &&& 0xff, v &&& 0xff] ∧
    (BuildMulticastIp4 v).head? = some 230 ∧
    BuildMulticastIp4 0x000010 = [230, 0, 0, 16] := by
  have h255 : ∀ x : Nat, x &&& 255 = x % 256 := fun x => Nat.and_pow_two_sub_one_eq_mod x 8
  refine ⟨?_, rfl, by decide⟩
  simp only [BuildMulticastIp4, htonlBytes, List.set_cons_zero, Nat.shiftRight_eq_div_pow,
    h255]

/-- C16 (counterexample): for the VNI `0x010203` the bytes 12..15
that `BuildMulticastIp6` writes are `00, 01, 02, 03`, not `03, 02, 01, 00`. -/
theorem C16_bytes_not_little_endian :
    BuildMulticastIp6 0x010203 = [0xff, 0, 0, 0, 0, 0, 0, 0, 0, 0, 0, 0, 0, 1, 2, 3] ∧
    BuildMulticastIp6 0x010203 ≠ [0xff, 0, 0, 0, 0, 0, 0, 0, 0, 0, 0, 0, 3, 2, 1, 0] := by
  decide

/-- C16 (amended): for every 32-bit VNI `v`, `BuildMulticastIp6` writes sixteen
bytes: byte 0 is `0xff`, bytes 1..11 are zero and bytes 12..15 hold `v`
big-endian (byte 12 is the most significant byte of `v`, byte 15 the least
significant one).  The function copies the bytes of `v` in reverse memory
order, which on the little-endian host gives network byte order; only on a
host that stores `v` big-endian would bytes 12..15 hold `v` little-endian. -/
theorem C16_BuildMulticastIp6_big_endian (v : Nat) :
    BuildMulticastIp6 v =
      [0xff, 0, 0, 0, 0, 0, 0, 0, 0, 0, 0, 0,
       v / 2 ^ 24 % 256, v / 2 ^ 16 % 256, v / 2 ^ 8 % 256, v % 256] ∧
    BuildMulticastIp6 v = BuildMulticastIp6_mem (hostBytes v) ∧
    BuildMulticastIp6_mem (htonlBytes v) =
      [0xff, 0, 0, 0, 0, 0, 0, 0, 0, 0, 0, 0,
       v % 256, v / 2 ^ 8 % 256, v / 2 ^ 16 % 256, v / 2 ^ 24 % 256] := by
  refine ⟨rfl, rfl, rfl⟩

/-- C17: for every `K` with `1400 ≤ K ≤ 65535` and a device that accepts
exactly the values `m ≤ K`, `SetConfigMtu` with `nic_mtu = "max"` returns (its
loop ends within 17 evaluations of its condition), the search loop ends with
the low bound `K` (and the high bound `K + 1`), the last call of
`pg_nic_set_mtu` is for the value `K`, it succeeds, and the MTU installed is
`K`. -/
theorem C17_SetConfigMtu_max (K : Int) (h1 : 1400 ≤ K) (h2 : K ≤ 65535)
    (stoi : String → Option Int) (fuel : Nat) (hf : 17 ≤ fuel) (s : MtuState) :
    ∃ s1 s2, SetConfigMtu_loop (fun m => decide (m ≤ K)) fuel 1400 65536 s =
        some (K, K + 1, s1) ∧
      SetConfigMtu "max" stoi (fun m => decide (m ≤ K)) fuel s = some s2 ∧
      s2.calls = s1.calls ++ [K] ∧ s2.calls.getLast? = some K ∧
      (pg_nic_set_mtu (fun m => decide (m ≤ K)) s1 K).1 = true ∧ s2.mtu = some K := by
  obtain ⟨s1, hs1⟩ := SetConfigMtu_loop_finds K 16 fuel 1400 65536 s (by omega)
    (by decide) h1 (by omega) (by norm_num)
  refine ⟨s1, (pg_nic_set_mtu (fun m => decide (m ≤ K)) s1 K).2, hs1, ?_, ?_, ?_, ?_, ?_⟩
  · unfold SetConfigMtu
    rw [if_neg (by decide), if_pos rfl, hs1]
  · simp [pg_nic_set_mtu]
  · simp [pg_nic_set_mtu]
  · simp [pg_nic_set_mtu]
  · simp [pg_nic_set_mtu]

/-- C17 (witness): a device that accepts the values up to 9000. -/
theorem C17_witness :
    ∃ s1 s2, SetConfigMtu_loop (fun m => decide (m ≤ 9000)) 17 1400 65536
        { calls := [], mtu := none } = some (9000, 9000 + 1, s1) ∧
      SetConfigMtu "max" (fun _ => none) (fun m => decide (m ≤ 9000)) 17
        { calls := [], mtu := none } = some s2 ∧
      s2.calls = s1.calls ++ [9000] ∧ s2.calls.getLast? = some 9000 ∧
      (pg_nic_set_mtu (fun m => decide (m ≤ 9000)) s1 9000).1 = true ∧
      s2.mtu = some 9000 :=
  C17_SetConfigMtu_max 9000 (by decide) (by decide) (fun _ => none) 17 (by decide)
    { calls := [], mtu := none }

/-- C18: a `NicAdd` that returns `true` has built a branch whose firewall and
tail exist and whose head follows from the flags of the NIC: the sniffer
(which exists) when `bypass_filtering` and `packet_trace` are both set, the
tail when `bypass_filtering` is set and `packet_trace` is not, the firewall
whenever `bypass_filtering` is not set.  When the VNI did not hold the id of
the NIC, this branch is the one that the graph holds for the NIC afterwards. -/
theorem C18_NicAdd_head (a : App) (env : NicAddEnv) (g : Graph) (nic : app.Nic)
    (g' : Graph) (h : NicAdd a env g nic = some (true, g')) :
    ∃ g1 gn, NicAdd_branch a env (NicAdd_vni g nic) nic = some (g1, some gn) ∧
      gn.firewall ≠ none ∧ gn.vhost ≠ none ∧
      (nic.bypass_filtering = true → nic.packet_trace = true →
        gn.sniffer ≠ none ∧ gn.head = gn.sniffer) ∧
      (nic.bypass_filtering = true → nic.packet_trace = false → gn.head = gn.vhost) ∧
      (nic.bypass_filtering = false → gn.head = gn.firewall) ∧
      (mapFind (nicsOf g nic.vni) nic.id = none → FindNic g' nic = some gn) := by
  obtain ⟨g1, gn, hb⟩ := NicAdd_true_branch a env g nic g' h
  obtain ⟨_, hgn, _⟩ := NicAdd_branch_some a env _ nic g1 gn hb
  obtain ⟨c1, _, c4, c5, _⟩ := NicAdd_branch_detail a env _ nic g1 gn hb
  subst hgn
  refine ⟨g1, _, hb, c1, c4, ?_, ?_, ?_, ?_⟩
  · intro h1 h2
    simp [branchNic, branchHead, h1, h2, c5 h2]
  · intro h1 h2
    simp [branchNic, branchHead, h1, h2]
  · intro h1
    simp [branchNic, branchHead, h1]
  · intro hfresh
    exact FindNic_NicAdd a env g nic g' h hfresh

set_option maxRecDepth 100000 in
/-- C18 (witness): `NicAdd` of the bypassed, traced NIC `nb`, whose head is the
sniffer. -/
theorem C18_witness :
    ∃ g1 gn, NicAdd_branch globals env1 (NicAdd_vni g0 nB) nB = some (g1, some gn) ∧
      gn.firewall ≠ none ∧ gn.vhost ≠ none ∧
      (nB.bypass_filtering = true → nB.packet_trace = true →
        gn.sniffer ≠ none ∧ gn.head = gn.sniffer) ∧
      (nB.bypass_filtering = true → nB.packet_trace = false → gn.head = gn.vhost) ∧
      (nB.bypass_filtering = false → gn.head = gn.firewall) ∧
      (mapFind (nicsOf g0 nB.vni) nB.id = none → FindNic gB nB = some gn) :=
  C18_NicAdd_head globals env1 g0 nB gB (by decide)

set_option maxRecDepth 100000 in
/-- C19 (fails on the code): `LinkAndStalk` follows the global
`app::config.packet_trace`, not the flag of the NIC.  With the global trace
off, `NicAdd` of the filtered NIC `n1` whose own `packet_trace` flag is set
creates the sniffer 13 and links firewall 10 → antispoof 11 → tail 12: the
sniffer is linked to nothing.  With the global trace on, `NicAdd` of `n1`
whose flag is not set chains the empty sniffer handle between the antispoof
and the tail, and, when the library refuses that call, returns `true` with the
antispoof linked to nothing. -/
theorem C19_branch_links_follow_global_trace :
    NicAdd globals env1 g0 n1Trace = some (true, g1T) ∧
    FindNic g1T n1Trace =
      some { gn1 with sniffer := some 13, packet_trace_path := "/tmp/n1.pcap" } ∧
    (quiesce g1T).links =
      [(some 0, some 1), (some 10, some 11), (some 11, some 12), (some 1, some 10)] ∧
    NicAdd globalsTrace env1 g0 n1 = some (true, g1G) ∧
    FindNic g1G n1 = some gn1 ∧
    (quiesce g1G).links =
      [(some 0, some 1), (some 10, some 11), (some 11, none), (none, some 12),
       (some 1, some 10)] ∧
    (NicAdd globalsTrace env1StalkFails g0 n1).map (fun r => (r.1, (quiesce r.2).links)) =
      some (true, [(some 0, some 1), (some 10, some 11), (some 1, some 10)]) := by
  decide

set_option maxRecDepth 100000 in
/-- C20 (fails on the code): for the filtered NIC `n1`, alone in its VNI,
`NicConfigPacketTrace(n1, true); NicConfigPacketTrace(n1, false)` both return
and, once the queue is executed, leave the links that `NicAdd` built, but the
head of the branch is the antispoof 11 instead of the firewall 10.  For the
bypassed NIC `b1` the branch is restored when `b1` is alone in its VNI; when
the VNI has the switch 24, the tail 12 of `b1` ends linked to the VTEP 1
instead of the switch. -/
theorem C20_packet_trace_round_trip :
    (NicConfigPacketTrace globals (some 15) g1 n1Off true).isSome = true ∧
    (NicConfigPacketTrace globals none g1On n1Trace false).isSome = true ∧
    (FindNic g1 n1).map (fun b => b.head) = some (some 10) ∧
    (FindNic g1OnOff n1).map (fun b => b.head) = some (some 11) ∧
    (quiesce g1).links =
      [(some 0, some 1), (some 10, some 11), (some 11, some 12), (some 1, some 10)] ∧
    (quiesce g1OnOff).links =
      [(some 0, some 1), (some 10, some 11), (some 1, some 10), (some 11, some 12)] ∧
    (FindNic gb1 nb1).map (fun b => b.head) = some (some 12) ∧
    (FindNic gb1OnOff nb1).map (fun b => b.head) = some (some 12) ∧
    (quiesce gb1).links = [(some 0, some 1), (some 1, some 12)] ∧
    (quiesce gb1OnOff).links = [(some 0, some 1), (some 1, some 12)] ∧
    (FindNic gb2 nb1).map (fun b => b.head) = some (some 12) ∧
    (FindNic gb2OnOff nb1).map (fun b => b.head) = some (some 12) ∧
    (quiesce gb2).links =
      [(some 0, some 1), (some 1, some 24), (some 24, some 12), (some 24, some 22)] ∧
    (quiesce gb2OnOff).links =
      [(some 0, some 1), (some 1, some 24), (some 24, some 22), (some 1, some 12)] := by
  decide

/-- C21: `PollerUpdate` executes the pending commands in enqueue order, each
once, whatever library calls fail.  Without `EXIT` in the queue it executes
them all, empties the queue and returns `true`: the links are then those that
the calls `pg_brick_link`, `pg_brick_unlink` and `pg_brick_unlink_edge` of the
commands give, made in queue order (a call that fails changing nothing), and
the snapshot is that of the last `UPDATE_POLL`.  With an `EXIT` it executes the
commands before the first `EXIT`, dequeues that `EXIT`, returns `false` and
leaves the commands after it in the queue: links and snapshot are those given
by the commands before the `EXIT`, and by no later one.  It returns `false`
exactly when the queue holds an `EXIT`.  `Stop` on a started graph pushes
`VHOST_STOP` and `EXIT`, lets the poller run up to the first `EXIT` and empties
the queue: what was enqueued after that `EXIT` is never executed. -/
theorem C21_PollerUpdate_order (fails : RpcQueue → Bool) (g : Graph) :
    (RpcQueue.EXIT ∉ g.queue_ →
      PollerUpdateOr fails g = (true, { runAllOr fails g g.queue_ with queue_ := [] }) ∧
      (PollerUpdateOr fails g).2.executed = g.executed ++ g.queue_ ∧
      (PollerUpdateOr fails g).2.links = g.queue_.foldl (execLinksOr fails) g.links ∧
      (PollerUpdateOr fails g).2.poll_list = lastPoll g.queue_ g.poll_list) ∧
    (∀ pre post, g.queue_ = pre ++ RpcQueue.EXIT :: post → RpcQueue.EXIT ∉ pre →
      PollerUpdateOr fails g =
        (false, { runAllOr fails g pre with
          queue_ := post,
          executed := (runAllOr fails g pre).executed ++ [RpcQueue.EXIT] }) ∧
      (PollerUpdateOr fails g).2.executed = g.executed ++ pre ++ [RpcQueue.EXIT] ∧
      (PollerUpdateOr fails g).2.queue_ = post ∧
      (PollerUpdateOr fails g).2.links = pre.foldl (execLinksOr fails) g.links ∧
      (PollerUpdateOr fails g).2.poll_list = lastPoll pre g.poll_list) ∧
    ((PollerUpdateOr fails g).1 = false ↔ RpcQueue.EXIT ∈ g.queue_) ∧
    PollerUpdateOr (fun _ => false) g = PollerUpdate g ∧
    (∀ (a : App) (nics : List app.Nic) (g' : Graph), g.started = true →
      Stop a nics g = some g' →
      ∃ g1 pre post, Stop_nics a nics g = some g1 ∧
        g1.queue_ ++ [RpcQueue.VHOST_STOP, RpcQueue.EXIT] = pre ++ RpcQueue.EXIT :: post ∧
        RpcQueue.EXIT ∉ pre ∧ g'.executed = g1.executed ++ pre ++ [RpcQueue.EXIT] ∧
        g'.queue_ = [] ∧ g'.links = pre.foldl execLinks g1.links ∧
        g'.poll_list = lastPoll pre g1.poll_list) := by
  have h1 : RpcQueue.EXIT ∉ g.queue_ →
      PollerUpdateOr fails g = (true, { runAllOr fails g g.queue_ with queue_ := [] }) ∧
      (PollerUpdateOr fails g).2.executed = g.executed ++ g.queue_ ∧
      (PollerUpdateOr fails g).2.links = g.queue_.foldl (execLinksOr fails) g.links ∧
      (PollerUpdateOr fails g).2.poll_list = lastPoll g.queue_ g.poll_list := by
    intro h
    have e := PollerUpdate_loopOr_of_not_mem fails g.queue_ g h
    unfold PollerUpdateOr
    rw [e]
    exact ⟨rfl, (runAllOr_fields fails g g.queue_).2.2.2, runAllOr_links fails g g.queue_,
      runAllOr_poll_list fails g g.queue_⟩
  have h2 : ∀ pre post, g.queue_ = pre ++ RpcQueue.EXIT :: post → RpcQueue.EXIT ∉ pre →
      PollerUpdateOr fails g =
        (false, { runAllOr fails g pre with
          queue_ := post,
          executed := (runAllOr fails g pre).executed ++ [RpcQueue.EXIT] }) ∧
      (PollerUpdateOr fails g).2.executed = g.executed ++ pre ++ [RpcQueue.EXIT] ∧
      (PollerUpdateOr fails g).2.queue_ = post ∧
      (PollerUpdateOr fails g).2.links = pre.foldl (execLinksOr fails) g.links ∧
      (PollerUpdateOr fails g).2.poll_list = lastPoll pre g.poll_list := by
    intro pre post hq hp
    have e : PollerUpdateOr fails g =
        (false, { runAllOr fails g pre with
          queue_ := post,
          executed := (runAllOr fails g pre).executed ++ [RpcQueue.EXIT] }) := by
      unfold PollerUpdateOr
      conv_lhs => rw [hq]
      exact PollerUpdate_loopOr_split fails pre post g hp
    rw [e]
    refine ⟨rfl, ?_, rfl, runAllOr_links fails g pre, runAllOr_poll_list fails g pre⟩
    simp only
    rw [(runAllOr_fields fails g pre).2.2.2]
  refine ⟨h1, h2, ?_, ?_, ?_⟩
  · constructor
    · intro hf
      by_contra hn
      rw [(h1 hn).1] at hf
      cases hf
    · intro hm
      obtain ⟨pre, post, e1, e2⟩ := exists_first_exit g.queue_ hm
      rw [(h2 pre post e1 e2).1]
  · unfold PollerUpdateOr PollerUpdate
    exact PollerUpdate_loopOr_never _ _
  · intro a nics g' hs hst
    exact Stop_started_state a nics g g' hs hst

set_option maxRecDepth 100000 in
/-- C21 (witness): the graph `gOrder`, whose queue is `LINK(1, 10)`,
`UPDATE_POLL(pollOne)`, `UNLINK(10)`, `LINK(1, 20)`, `UPDATE_POLL(pollTwo)`,
`EXIT`, `LINK(1, 30)`, first with no failing call, then with every `UNLINK`
failing; the graph `g2`, whose queue holds no `EXIT`, every `LINK` failing; and
`Stop` on `g2`. -/
theorem C21_witness :
    (PollerUpdateOr (fun _ => false) gOrder).1 = false ∧
    (PollerUpdateOr (fun _ => false) gOrder).2.executed = gOrderPre ++ [RpcQueue.EXIT] ∧
    (PollerUpdateOr (fun _ => false) gOrder).2.queue_ = [RpcQueue.LINK (some 1) (some 30)] ∧
    (PollerUpdateOr (fun _ => false) gOrder).2.links =
      [(some 0, some 1), (some 1, some 20)] ∧
    (PollerUpdateOr (fun _ => false) gOrder).2.poll_list = some pollTwo ∧
    (PollerUpdateOr failUnlink gOrder).2.links =
      [(some 0, some 1), (some 1, some 10), (some 1, some 20)] ∧
    (PollerUpdateOr failUnlink gOrder).2.poll_list = some pollTwo ∧
    (PollerUpdateOr failLink g2).1 = true ∧
    (PollerUpdateOr failLink g2).2.executed = g2.executed ++ g2.queue_ ∧
    (PollerUpdateOr failLink g2).2.links = g2.links ∧
    (PollerUpdateOr failLink g2).2.poll_list =
      some { size := 2, pollables := [some 12, some 22], firewalls := [some 10, some 20] } ∧
    (∃ g1 pre post, Stop_nics globals [n1, n2] g2 = some g1 ∧
      g1.queue_ ++ [RpcQueue.VHOST_STOP, RpcQueue.EXIT] = pre ++ RpcQueue.EXIT :: post ∧
      RpcQueue.EXIT ∉ pre ∧
      (afterVoid g2 (Stop globals [n1, n2] g2)).executed =
        g1.executed ++ pre ++ [RpcQueue.EXIT] ∧
      (afterVoid g2 (Stop globals [n1, n2] g2)).queue_ = [] ∧
      (afterVoid g2 (Stop globals [n1, n2] g2)).links = pre.foldl execLinks g1.links ∧
      (afterVoid g2 (Stop globals [n1, n2] g2)).poll_list = lastPoll pre g1.poll_list) :=
  ⟨by rw [((C21_PollerUpdate_order (fun _ => false) gOrder).2.1 gOrderPre
        [RpcQueue.LINK (some 1) (some 30)] rfl (by decide)).1],
   ((C21_PollerUpdate_order (fun _ => false) gOrder).2.1 gOrderPre
        [RpcQueue.LINK (some 1) (some 30)] rfl (by decide)).2.1,
   ((C21_PollerUpdate_order (fun _ => false) gOrder).2.1 gOrderPre
        [RpcQueue.LINK (some 1) (some 30)] rfl (by decide)).2.2.1,
   (((C21_PollerUpdate_order (fun _ => false) gOrder).2.1 gOrderPre
        [RpcQueue.LINK (some 1) (some 30)] rfl (by decide)).2.2.2.1).trans (by decide),
   (((C21_PollerUpdate_order (fun _ => false) gOrder).2.1 gOrderPre
        [RpcQueue.LINK (some 1) (some 30)] rfl (by decide)).2.2.2.2).trans (by decide),
   (((C21_PollerUpdate_order failUnlink gOrder).2.1 gOrderPre
        [RpcQueue.LINK (some 1) (some 30)] rfl (by decide)).2.2.2.1).trans (by decide),
   (((C21_PollerUpdate_order failUnlink gOrder).2.1 gOrderPre
        [RpcQueue.LINK (some 1) (some 30)] rfl (by decide)).2.2.2.2).trans (by decide),
   by rw [((C21_PollerUpdate_order failLink g2).1 (by decide)).1],
   ((C21_PollerUpdate_order failLink g2).1 (by decide)).2.1,
   (((C21_PollerUpdate_order failLink g2).1 (by decide)).2.2.1).trans (by decide),
   (((C21_PollerUpdate_order failLink g2).1 (by decide)).2.2.2).trans (by decide),
   (C21_PollerUpdate_order failLink g2).2.2.2.2 globals [n1, n2]
     (afterVoid g2 (Stop globals [n1, n2] g2)) (by decide) (by decide)⟩

/-- C22: the snapshot that `update_poll` builds lists NIC entries of `vnis_`
whose branch has `enable = true`: `pollables[i]` is the tail and `firewalls[i]`
the firewall of the `i`-th listed entry, the listed entries are taken from the
entries of `vnis_` without repetition (no two have the same keys when the keys
of the maps are unique), and the snapshot that `NicDel` enqueues, the only
`UPDATE_POLL` among its commands, does not list the NIC being removed. -/
theorem C22_snapshot_lists_enabled_nics (a : App) (g : Graph) :
    snapshot a g =
      { size := (snapshotEntries a g).length,
        pollables := (snapshotEntries a g).map (fun e => e.2.2.vhost),
        firewalls := (snapshotEntries a g).map (fun e => e.2.2.firewall) } ∧
    (∀ e ∈ snapshotEntries a g, e.2.2.enable = true ∧
      ∃ v, (e.1, v) ∈ g.vnis_ ∧ (e.2.1, e.2.2) ∈ v.nics) ∧
    (snapshotEntries a g).Sublist (allEntries g.vnis_) ∧
    (WF g → ((snapshotEntries a g).map (fun e => (e.1, e.2.1))).Nodup) ∧
    (∀ (nic : app.Nic) (vni : GraphVni) (n : GraphNic), Started g → WF g →
      mapFind g.vnis_ nic.vni = some vni → mapFind vni.nics nic.id = some n →
      ∃ g', NicDel a g nic = some g' ∧
        g'.executed = g.executed ++ g.queue_ ++
          [RpcQueue.UPDATE_POLL
            (snapshot a { g with vnis_ := NicDel_disabled g vni n nic })] ++
          NicDel_cmds g vni n nic ++ [RpcQueue.BRICK_DESTROY n.firewall, RpcQueue.NOTHING] ∧
        (∀ c ∈ NicDel_cmds g vni n nic, isUpdatePoll c = false) ∧
        ∀ e ∈ snapshotEntries a { g with vnis_ := NicDel_disabled g vni n nic },
          (e.1, e.2.1) ≠ (nic.vni, nic.id)) := by
  refine ⟨snapshot_eq a g, ?_, snapshotEntries_sublist a g, ?_, ?_⟩
  · intro e he
    have h := mem_snapshotEntries a g e he
    rw [mem_enabledEntries, mem_allEntries] at h
    obtain ⟨⟨p, hp, q, hq, rfl⟩, hen⟩ := h
    exact ⟨hen, p.2, hp, hq⟩
  · intro hwf
    have hk := nodup_allEntries_keys g.vnis_ hwf.1 (fun p hp => (hwf.2 p hp).2.1)
    exact hk.sublist ((snapshotEntries_sublist a g).map _)
  · intro nic vni n hs hwf hv hn
    obtain ⟨g', h1, _, _, _, _, hex, _, _⟩ := NicDel_present a g nic vni n hs.1 hv hn hs.2
    refine ⟨g', h1, hex, NicDel_cmds_no_update_poll g vni n nic, ?_⟩
    intro e he
    exact (mem_enabledEntries_disabled g vni n nic hwf hv e
      (mem_snapshotEntries a _ e he)).2

set_option maxRecDepth 100000 in
/-- C22 (witness): the graph that holds `n1` and `n2`, and `NicDel(n1)`. -/
theorem C22_witness :
    snapshot globals g2 = { size := 2, pollables := [some 12, some 22],
                            firewalls := [some 10, some 20] } ∧
    ((snapshotEntries globals g2).map (fun e => (e.1, e.2.1))).Nodup ∧
    ∃ g', NicDel globals g2 n1 = some g' ∧
      g'.executed = g2.executed ++ g2.queue_ ++
        [RpcQueue.UPDATE_POLL
          (snapshot globals { g2 with vnis_ := NicDel_disabled g2 vni42Two gn1 n1 })] ++
        NicDel_cmds g2 vni42Two gn1 n1 ++
        [RpcQueue.BRICK_DESTROY gn1.firewall, RpcQueue.NOTHING] ∧
      (∀ c ∈ NicDel_cmds g2 vni42Two gn1 n1, isUpdatePoll c = false) ∧
      ∀ e ∈ snapshotEntries globals { g2 with vnis_ := NicDel_disabled g2 vni42Two gn1 n1 },
        (e.1, e.2.1) ≠ (n1.vni, n1.id) :=
  ⟨(C22_snapshot_lists_enabled_nics globals g2).1.trans (by decide),
   (C22_snapshot_lists_enabled_nics globals g2).2.2.2.1 (by unfold WF; decide),
   (C22_snapshot_lists_enabled_nics globals g2).2.2.2.2 n1 vni42Two gn1
     ⟨by decide, by decide⟩ (by unfold WF; decide) (by decide) (by decide)⟩

set_option maxRecDepth 100000 in
/-- C23 (fails on the code): the snapshot of `update_poll` holds the first
`GRAPH_VHOST_MAX_SIZE - 1` enabled NICs, not the first `GRAPH_VHOST_MAX_SIZE`:
its size is `min(E, GRAPH_VHOST_MAX_SIZE - 1)` for `E` enabled NICs.  With a
capacity of 2 and the two enabled NICs `n1` and `n2`, the snapshot lists `n1`
only. -/
theorem C23_snapshot_size_off_by_one :
    (∀ (a : App) (g : Graph), (snapshot a g).size =
      min (enabledEntries g.vnis_).length (a.GRAPH_VHOST_MAX_SIZE - 1)) ∧
    (enabledEntries g2.vnis_).length = 2 ∧
    globalsCap2.GRAPH_VHOST_MAX_SIZE = 2 ∧
    snapshot globalsCap2 g2 =
      { size := 1, pollables := [some 12], firewalls := [some 10] } ∧
    snapshot globals g2 =
      { size := 2, pollables := [some 12, some 22], firewalls := [some 10, some 20] } := by
  refine ⟨?_, by decide, rfl, by decide, by decide⟩
  intro a g
  rw [snapshot_eq]
  simp only [snapshotEntries, List.length_take]
  exact Nat.min_comm _ _

/-- C24: in every state that the calls of `Start`, `Stop`, `NicAdd` and
`NicDel` reach from a new graph, `started = false` implies that `vnis_` is
empty; `Stop` returns from such a state and leaves `vnis_` empty and
`started = false`; and `NicAdd` on a graph that is not started returns `false`
and leaves the graph as it was. -/
theorem C24_not_started_implies_no_vni (a : App) (ops : List Op) (g : Graph)
    (h : runOps a ops Graph_ctor = some g) :
    (g.started = false → g.vnis_ = []) ∧
    (∀ nics : List app.Nic, ∃ g', Stop a nics g = some g' ∧ g'.vnis_ = [] ∧
      g'.started = false) ∧
    (∀ (env : NicAddEnv) (nic : app.Nic), g.started = false →
      NicAdd a env g nic = some (false, g)) := by
  obtain ⟨i1, i2⟩ := runOps_inv a ops Graph_ctor g (fun _ => rfl) (by simp [Graph_ctor]) h
  refine ⟨i1, ?_, ?_⟩
  · intro nics
    obtain ⟨g', h1, h2, h3, _⟩ := Stop_total a nics g i1 i2
    exact ⟨g', h1, h2, h3⟩
  · intro env nic hs
    unfold NicAdd
    rw [if_pos hs]

set_option maxRecDepth 100000 in
/-- C24 (witness): the state after `Start; NicAdd(n1); NicAdd(n2); NicDel(n2);
Stop` on a new graph. -/
theorem C24_witness :
    (gStopped.started = false → gStopped.vnis_ = []) ∧
    (∀ nics : List app.Nic, ∃ g', Stop globals nics gStopped = some g' ∧ g'.vnis_ = [] ∧
      g'.started = false) ∧
    (∀ (env : NicAddEnv) (nic : app.Nic), gStopped.started = false →
      NicAdd globals env gStopped nic = some (false, gStopped)) :=
  C24_not_started_implies_no_vni globals opsStop gStopped (by decide)

set_option maxRecDepth 100000 in
/-- C25 (fails on the code): on the started graph `g0`, which holds no NIC,
`FindNic(n1)` returns `NULL`; `NicConfigPacketTrace(n1, true)` with the flag of
the caller off, `NicConfigPacketTrace(n1, false)` with the flag on and
`NicConfigPacketTracePath(n1, path)` with a new path all dereference that
`NULL` branch; and `NicConfigPacketTrace(n1, true)` with the flag already on
enqueues an `UPDATE_POLL`. -/
theorem C25_missing_nic_dereferenced :
    FindNic g0 n1 = none ∧
    NicConfigPacketTrace globals (some 15) g0 n1 true = none ∧
    NicConfigPacketTrace globals (some 15) g0 n1Trace false = none ∧
    NicConfigPacketTracePath globals (some 15) g0 n1 "/tmp/x.pcap" = none ∧
    NicConfigPacketTracePath globals (some 15) g0 n1Trace "/tmp/x.pcap" = none ∧
    NicConfigPacketTrace globals (some 15) g0 n1Trace true =
      some { g0 with queue_ :=
        [RpcQueue.UPDATE_POLL { size := 0, pollables := [], firewalls := [] }] } := by
  decide

/-- C26: for a NIC that a started graph holds, the bricks of the other NICs
being different from its tail and its firewall, the commands that `NicDel`
pushes are one `UPDATE_POLL`, whose snapshot holds neither the tail nor the
firewall of the NIC, followed by the topology commands (every `UNLINK` is
among them), `BRICK_DESTROY` of the firewall of the NIC and a fence, none of
which is an `UPDATE_POLL`.  Hence a poller that executes these commands in
order has that snapshot as its current one after each of them, whatever
snapshot it had before; and no snapshot built from the graph that `NicDel`
returns holds the tail or the firewall of the NIC. -/
theorem C26_NicDel_snapshot_precedes_unlink (a : App) (g : Graph) (nic : app.Nic)
    (vni : GraphVni) (n : GraphNic) (hs : Started g) (hwf : WF g)
    (hv : mapFind g.vnis_ nic.vni = some vni) (hn : mapFind vni.nics nic.id = some n)
    (hd : ∀ p ∈ g.vnis_, ∀ q ∈ p.2.nics, (p.1, q.1) ≠ (nic.vni, nic.id) →
      q.2.vhost ≠ n.vhost ∧ q.2.firewall ≠ n.firewall) :
    ∃ g', NicDel a g nic = some g' ∧
      history g' = history g ++
        [RpcQueue.UPDATE_POLL (snapshot a { g with vnis_ := NicDel_disabled g vni n nic })] ++
        (NicDel_cmds g vni n nic ++ [RpcQueue.BRICK_DESTROY n.firewall, RpcQueue.NOTHING]) ∧
      n.vhost ∉ (snapshot a { g with vnis_ := NicDel_disabled g vni n nic }).pollables ∧
      n.firewall ∉ (snapshot a { g with vnis_ := NicDel_disabled g vni n nic }).firewalls ∧
      (∀ c ∈ NicDel_cmds g vni n nic ++
          [RpcQueue.BRICK_DESTROY n.firewall, RpcQueue.NOTHING], isUpdatePoll c = false) ∧
      (∀ (x : Graph) (k : Nat),
        (runAll x (RpcQueue.UPDATE_POLL
            (snapshot a { g with vnis_ := NicDel_disabled g vni n nic }) ::
          (NicDel_cmds g vni n nic ++
            [RpcQueue.BRICK_DESTROY n.firewall, RpcQueue.NOTHING]).take k)).poll_list =
        some (snapshot a { g with vnis_ := NicDel_disabled g vni n nic })) ∧
      (∀ a' : App, n.vhost ∉ (snapshot a' g').pollables ∧
        n.firewall ∉ (snapshot a' g').firewalls) := by
  obtain ⟨g', h1, _, _, _, hq, hex, _, hvn⟩ := NicDel_present a g nic vni n hs.1 hv hn hs.2
  have hno : ∀ c ∈ NicDel_cmds g vni n nic ++
      [RpcQueue.BRICK_DESTROY n.firewall, RpcQueue.NOTHING], isUpdatePoll c = false := by
    intro c hc
    rcases List.mem_append.1 hc with h | h
    · exact NicDel_cmds_no_update_poll g vni n nic c h
    · simp only [List.mem_cons, List.mem_singleton, List.not_mem_nil, or_false] at h
      rcases h with h | h <;> rw [h] <;> rfl
  have hent : ∀ e ∈ snapshotEntries a { g with vnis_ := NicDel_disabled g vni n nic },
      e.2.2.vhost ≠ n.vhost ∧ e.2.2.firewall ≠ n.firewall := by
    intro e he
    obtain ⟨m1, m2⟩ := mem_enabledEntries_disabled g vni n nic hwf hv e
      (mem_snapshotEntries a _ e he)
    rw [mem_allEntries] at m1
    obtain ⟨p, hp, q, hq', rfl⟩ := m1
    exact hd p hp q hq' m2
  have hlater : ∀ (a' : App), ∀ e ∈ snapshotEntries a' g',
      e.2.2.vhost ≠ n.vhost ∧ e.2.2.firewall ≠ n.firewall := by
    intro a' e he
    have he' := ((mem_enabledEntries _ _).1 (mem_snapshotEntries a' _ e he)).1
    rw [hvn] at he'
    obtain ⟨m1, m2⟩ := mem_allEntries_NicDel g vni nic hwf hv e he'
    rw [mem_allEntries] at m1
    obtain ⟨p, hp, q, hq', rfl⟩ := m1
    exact hd p hp q hq' m2
  refine ⟨g', h1, ?_, ?_, ?_, hno, ?_, ?_⟩
  · unfold history
    rw [hq, hex]
    simp only [List.append_nil, List.append_assoc]
    rfl
  · rw [snapshot_eq]
    simp only [List.mem_map, not_exists, not_and]
    intro e he
    exact (hent e he).1
  · rw [snapshot_eq]
    simp only [List.mem_map, not_exists, not_and]
    intro e he
    exact (hent e he).2
  · intro x k
    show (runAll (stepExec x _) _).poll_list = _
    rw [runAll_poll_list _ _ (fun c hc => hno c (List.mem_of_mem_take hc))]
    rfl
  · intro a'
    rw [snapshot_eq]
    simp only [List.mem_map, not_exists, not_and]
    exact ⟨fun e he => (hlater a' e he).1, fun e he => (hlater a' e he).2⟩

set_option maxRecDepth 100000 in
/-- C26 (witness): `NicDel(n1)` on the graph that holds `n1` and `n2`; the
snapshot lists the tail 22 and the firewall 20 of `n2` only. -/
theorem C26_witness :
    ∃ g', NicDel globals g2 n1 = some g' ∧
      history g' = history g2 ++
        [RpcQueue.UPDATE_POLL
          (snapshot globals { g2 with vnis_ := NicDel_disabled g2 vni42Two gn1 n1 })] ++
        (NicDel_cmds g2 vni42Two gn1 n1 ++
          [RpcQueue.BRICK_DESTROY gn1.firewall, RpcQueue.NOTHING]) ∧
      gn1.vhost ∉
        (snapshot globals { g2 with vnis_ := NicDel_disabled g2 vni42Two gn1 n1 }).pollables ∧
      gn1.firewall ∉
        (snapshot globals { g2 with vnis_ := NicDel_disabled g2 vni42Two gn1 n1 }).firewalls ∧
      (∀ c ∈ NicDel_cmds g2 vni42Two gn1 n1 ++
          [RpcQueue.BRICK_DESTROY gn1.firewall, RpcQueue.NOTHING], isUpdatePoll c = false) ∧
      (∀ (x : Graph) (k : Nat),
        (runAll x (RpcQueue.UPDATE_POLL
            (snapshot globals { g2 with vnis_ := NicDel_disabled g2 vni42Two gn1 n1 }) ::
          (NicDel_cmds g2 vni42Two gn1 n1 ++
            [RpcQueue.BRICK_DESTROY gn1.firewall, RpcQueue.NOTHING]).take k)).poll_list =
        some (snapshot globals { g2 with vnis_ := NicDel_disabled g2 vni42Two gn1 n1 })) ∧
      (∀ a' : App, gn1.vhost ∉ (snapshot a' g').pollables ∧
        gn1.firewall ∉ (snapshot a' g').firewalls) :=
  C26_NicDel_snapshot_precedes_unlink globals g2 n1 vni42Two gn1
    ⟨by decide, by decide⟩ (by unfold WF; decide) (by decide) (by decide) (by decide)

set_option maxRecDepth 100000 in
/-- C27 (counterexample): on the started graph `g0`, whose `vnis_` is empty, a
`NicAdd(n1)` in which the firewall creation fails returns `false`, and `vnis_`
then holds the entry of VNI 42 that the call has created, without NIC and
without switch. -/
theorem C27_NicAdd_false_leaves_vni_entry :
    g0.started = true ∧ g0.vnis_ = [] ∧
    NicAdd globals env1NoFirewall g0 n1 = some (false, gEmptyVni) ∧
    gEmptyVni.vnis_ = [(42, { vni := 42, sw := none, nics := [] })] := by
  decide

/-- C27 (amended): when `NicAdd` returns `false`, no NIC entry has been added or
removed and no entry of another VNI has changed.  On a graph that is not
started nothing at all has changed.  On a started graph `vnis_` has an entry
for `nic.vni`: when it had none, `vnis_` is what it was with the new entry,
without NIC and without switch, inserted; when it had one that did not hold
exactly one NIC, `vnis_` is exactly as it was.  In both of these cases the
switch handle of the VNI is as it was. -/
theorem C27_NicAdd_false_frame (a : App) (env : NicAddEnv) (g : Graph) (nic : app.Nic)
    (g' : Graph) (h : NicAdd a env g nic = some (false, g')) :
    (g.started = false → g' = g) ∧
    (∀ k, k ≠ nic.vni → mapFind g'.vnis_ k = mapFind g.vnis_ k) ∧
    nicsOf g' nic.vni = nicsOf g nic.vni ∧
    (g.started = true → mapFind g'.vnis_ nic.vni ≠ none) ∧
    (g.started = true → mapFind g.vnis_ nic.vni = none →
      g'.vnis_ = mapInsert natLt (nic.vni, { vni := nic.vni, sw := none, nics := [] })
        g.vnis_) ∧
    (∀ v, mapFind g.vnis_ nic.vni = some v → v.nics.length ≠ 1 → g'.vnis_ = g.vnis_) ∧
    ((nicsOf g nic.vni).length ≠ 1 → switchOf g' nic.vni = switchOf g nic.vni) := by
  obtain ⟨_, _, _, _, _, _, _, v8⟩ := NicAdd_vni_fields g nic
  have hother : ∀ k, k ≠ nic.vni →
      mapFind (NicAdd_vni g nic).vnis_ k = mapFind g.vnis_ k := by
    intro k hk
    unfold NicAdd_vni
    cases hm : mapFind g.vnis_ nic.vni with
    | none =>
      simp only [mapInsert, hm]
      exact mapFind_mapPlace_of_ne _ _ _ _ _ hk
    | some v => rfl
  have hnone : mapFind g.vnis_ nic.vni = none →
      (NicAdd_vni g nic).vnis_ =
        mapInsert natLt (nic.vni, { vni := nic.vni, sw := none, nics := [] }) g.vnis_ := by
    intro hm
    unfold NicAdd_vni
    rw [hm]
  have hsome : ∀ v, mapFind g.vnis_ nic.vni = some v → NicAdd_vni g nic = g := by
    intro v hm
    unfold NicAdd_vni
    rw [hm]
  have hentry : ∀ v, mapFind g.vnis_ nic.vni = some v → entryOf g nic.vni = v := by
    intro v hm
    unfold entryOf
    rw [hm]
  have hentry0 : mapFind g.vnis_ nic.vni = none → (entryOf g nic.vni).nics = [] := by
    intro hm
    unfold entryOf
    rw [hm]
  rcases NicAdd_false_vnis a env g nic g' h with ⟨hs, he⟩ | ⟨hs, hv | ⟨first, hf, hv⟩⟩
  · refine ⟨fun _ => he, fun k _ => by rw [he], by rw [he], ?_, ?_, ?_, ?_⟩
    · intro ht; rw [hs] at ht; cases ht
    · intro ht; rw [hs] at ht; cases ht
    · intro v _ _; rw [he]
    · intro _; rw [he]
  · have hfind : mapFind g'.vnis_ nic.vni = some (entryOf g nic.vni) := by rw [hv, v8]
    refine ⟨?_, ?_, ?_, ?_, ?_, ?_, ?_⟩
    · intro hf; rw [hs] at hf; cases hf
    · intro k hk; rw [hv]; exact hother k hk
    · rw [nicsOf_eq g]
      unfold nicsOf
      rw [hfind]
    · intro _; rw [hfind]; simp
    · intro _ hm; rw [hv]; exact hnone hm
    · intro v hm _; rw [hv, hsome v hm]
    · intro _
      rw [switchOf_eq g]
      unfold switchOf
      rw [hfind]
  · have hfind : mapFind g'.vnis_ nic.vni =
        some { entryOf g nic.vni with sw := env.sw } := by
      rw [hv, mapFind_mapSet_self (NicAdd_vni g nic).vnis_ nic.vni, v8]
      rfl
    refine ⟨?_, ?_, ?_, ?_, ?_, ?_, ?_⟩
    · intro hf'; rw [hs] at hf'; cases hf'
    · intro k hk
      rw [hv, mapFind_mapSet_of_ne _ _ _ _ hk]
      exact hother k hk
    · rw [nicsOf_eq g]
      unfold nicsOf
      rw [hfind]
    · intro _; rw [hfind]; simp
    · intro _ hm
      rw [hentry0 hm] at hf
      cases hf
    · intro v hm hl
      rw [hentry v hm] at hf
      rw [hf] at hl
      exact absurd rfl hl
    · intro hl
      rw [nicsOf_eq, hf] at hl
      exact absurd rfl hl

set_option maxRecDepth 100000 in
/-- C27 (witness): the `NicAdd(n1)` on `g0` in which the firewall creation
fails. -/
theorem C27_witness :
    NicAdd globals env1NoFirewall g0 n1 = some (false, gEmptyVni) ∧
    ((g0.started = false → gEmptyVni = g0) ∧
    (∀ k, k ≠ n1.vni → mapFind gEmptyVni.vnis_ k = mapFind g0.vnis_ k) ∧
    nicsOf gEmptyVni n1.vni = nicsOf g0 n1.vni ∧
    (g0.started = true → mapFind gEmptyVni.vnis_ n1.vni ≠ none) ∧
    (g0.started = true → mapFind g0.vnis_ n1.vni = none →
      gEmptyVni.vnis_ = mapInsert natLt (n1.vni, { vni := n1.vni, sw := none, nics := [] })
        g0.vnis_) ∧
    (∀ v, mapFind g0.vnis_ n1.vni = some v → v.nics.length ≠ 1 →
      gEmptyVni.vnis_ = g0.vnis_) ∧
    ((nicsOf g0 n1.vni).length ≠ 1 → switchOf gEmptyVni n1.vni = switchOf g0 n1.vni)) :=
  ⟨by decide, C27_NicAdd_false_frame globals env1NoFirewall g0 n1 gEmptyVni (by decide)⟩

set_option maxRecDepth 100000 in
/-- C28 (fails on the code): `FwBuildSg` reads `back()` of the string that its
loop has built exactly when no rule of the group compiles, and that string is
then empty; `FwUpdate` reads `back()` of an empty `in_rules` for a NIC that
references no security group.  So it happens for the group `sgEmpty`, which has
no rule, for the group `sgOutbound`, whose only rule compiles to the empty
string, and for the NIC `n1NoSg`. -/
theorem C28_back_read_on_empty_string :
    (∀ (a : App) (sg : app.Sg), FwBuildSg a sg = none ↔ FwBuildSg_loop a sg.rules "" = "") ∧
    (∀ (a : App) (sg : app.Sg), FwBuildSg a sg = none ↔ compiledRules a sg.rules = []) ∧
    (∀ (a : App) (nic : app.Nic),
      FwUpdate_in_loop a ({ nic with security_groups := [] } : app.Nic).security_groups "" =
        some "" ∧
      FwUpdate_in_rules a { nic with security_groups := [] } = none) ∧
    strBack (FwBuildSg_loop globals sgEmpty.rules "") = none ∧
    strBack (FwBuildSg_loop globals sgOutbound.rules "") = none ∧
    (FwUpdate_in_loop globals n1NoSg.security_groups "").map strBack = some none := by
  refine ⟨?_, ?_, ?_, by decide, by decide, by decide⟩
  · intro a sg
    unfold FwBuildSg trimTrailing strBack
    constructor
    · intro h
      cases hd : (FwBuildSg_loop a sg.rules "").data with
      | nil =>
        apply String.ext
        rw [hd]
      | cons c cs =>
        rw [hd] at h
        have hl : (c :: cs).getLast? ≠ none := by simp
        cases hg : (c :: cs).getLast? with
        | none => exact absurd hg hl
        | some x =>
          rw [hg] at h
          simp only at h
          split at h <;> cases h
    · intro h
      rw [h]
      rfl
  · intro a sg
    constructor
    · intro h
      by_contra hne
      rw [FwBuildSg_of_compiled a sg hne] at h
      cases h
    · exact FwBuildSg_of_not_compiled a sg
  · intro a nic
    exact ⟨rfl, rfl⟩

/-- C29: whatever the device answers to `pg_nic_set_mtu` (monotone or not), the
search loop of `SetConfigMtu` for `nic_mtu = "max"` ends (within 17
evaluations of its condition) after at most 16 probes; every probed value `m`
satisfies `1400 < m < 65536` and lies strictly between the bounds current when
it is probed; the loop ends on the bounds `(lo, lo + 1)` and the value `lo`
passed to the final call of `pg_nic_set_mtu` lies in `[1400, 65535]`. -/
theorem C29_SetConfigMtu_terminates (set_mtu : Int → Bool) (stoi : String → Option Int)
    (fuel : Nat) (hf : 17 ≤ fuel) (s : MtuState) :
    ∃ lo s1 s2 probes,
      SetConfigMtu_loop set_mtu fuel 1400 65536 s = some (lo, lo + 1, s1) ∧
      s1.calls = s.calls ++ probes ∧ probes.length ≤ 16 ∧
      (∀ m ∈ probes, 1400 < m ∧ m < 65536) ∧
      probesBetween set_mtu 1400 65536 probes = true ∧
      SetConfigMtu "max" stoi set_mtu fuel s = some s2 ∧
      s2.calls = s.calls ++ probes ++ [lo] ∧ 1400 ≤ lo ∧ lo ≤ 65535 := by
  obtain ⟨lo, s1, new, e1, e2, e3, e4, e5, e6, e7⟩ :=
    SetConfigMtu_loop_total set_mtu 16 fuel 1400 65536 s (by omega) (by decide)
      (by decide) (by norm_num)
  refine ⟨lo, s1, (pg_nic_set_mtu set_mtu s1 lo).2, new, e1, e2, e3, e5, e4, ?_, ?_, e6,
    by omega⟩
  · unfold SetConfigMtu
    rw [if_neg (by decide), if_pos rfl, e1]
  · rw [← e2]
    unfold pg_nic_set_mtu
    split <;> rfl

/-- C29 (witness): a device that accepts the even values only. -/
theorem C29_witness :
    ∃ lo s1 s2 probes,
      SetConfigMtu_loop (fun m => decide (m % 2 = 0)) 17 1400 65536
        { calls := [], mtu := none } = some (lo, lo + 1, s1) ∧
      s1.calls = ([] : List Int) ++ probes ∧ probes.length ≤ 16 ∧
      (∀ m ∈ probes, 1400 < m ∧ m < 65536) ∧
      probesBetween (fun m => decide (m % 2 = 0)) 1400 65536 probes = true ∧
      SetConfigMtu "max" (fun _ => none) (fun m => decide (m % 2 = 0)) 17
        { calls := [], mtu := none } = some s2 ∧
      s2.calls = ([] : List Int) ++ probes ++ [lo] ∧ 1400 ≤ lo ∧ lo ≤ 65535 :=
  C29_SetConfigMtu_terminates (fun m => decide (m % 2 = 0)) (fun _ => none) 17
    (by decide) { calls := [], mtu := none }

/-- C30: distinct VNIs get distinct multicast groups: for `v1 ≠ v2` below
`2^24`, `BuildMulticastIp4` returns different addresses; for `v1 ≠ v2` below
`2^32`, `BuildMulticastIp6` writes different addresses; and so the `ADD_VNI`
commands that `add_vni` enqueues for two distinct VNIs below `2^24` carry
different multicast addresses, whatever the mode of the VTEP. -/
theorem C30_multicast_injective (v1 v2 : Nat) :
    (v1 < 2 ^ 24 → v2 < 2 ^ 24 → v1 ≠ v2 → BuildMulticastIp4 v1 ≠ BuildMulticastIp4 v2) ∧
    (v1 < 2 ^ 32 → v2 < 2 ^ 32 → v1 ≠ v2 → BuildMulticastIp6 v1 ≠ BuildMulticastIp6 v2) ∧
    (∀ g : Graph, v1 < 2 ^ 24 → v2 < 2 ^ 24 → v1 ≠ v2 → mcastOf g v1 ≠ mcastOf g v2) := by
  have h4 : v1 < 2 ^ 24 → v2 < 2 ^ 24 → v1 ≠ v2 →
      BuildMulticastIp4 v1 ≠ BuildMulticastIp4 v2 := by
    intro a1 a2 hne h
    simp only [BuildMulticastIp4, htonlBytes, List.set_cons_zero, List.cons.injEq,
      true_and, and_true] at h
    obtain ⟨e1, e2, e3⟩ := h
    apply hne
    omega
  have h6 : v1 < 2 ^ 32 → v2 < 2 ^ 32 → v1 ≠ v2 →
      BuildMulticastIp6 v1 ≠ BuildMulticastIp6 v2 := by
    intro a1 a2 hne h
    have e : [v1 / 2 ^ 24 % 256, v1 / 2 ^ 16 % 256, v1 / 2 ^ 8 % 256, v1 % 256] =
        [v2 / 2 ^ 24 % 256, v2 / 2 ^ 16 % 256, v2 / 2 ^ 8 % 256, v2 % 256] :=
      congrArg (List.drop 12) h
    simp only [List.cons.injEq, and_true] at e
    obtain ⟨e0, e1, e2, e3⟩ := e
    apply hne
    omega
  refine ⟨h4, h6, ?_⟩
  intro g a1 a2 hne
  unfold mcastOf
  by_cases hv : g.isVtep6_ = false
  · rw [if_pos hv, if_pos hv]; exact h4 a1 a2 hne
  · rw [if_neg hv, if_neg hv]
    exact h6 (by omega) (by omega) hne

/-- C30 (witness): the VNIs 42 and 43. -/
theorem C30_witness :
    BuildMulticastIp4 42 ≠ BuildMulticastIp4 43 ∧
    BuildMulticastIp6 42 ≠ BuildMulticastIp6 43 ∧
    mcastOf g0 42 ≠ mcastOf g0 43 :=
  ⟨(C30_multicast_injective 42 43).1 (by decide) (by decide) (by decide),
   (C30_multicast_injective 42 43).2.1 (by decide) (by decide) (by decide),
   (C30_multicast_injective 42 43).2.2 g0 (by decide) (by decide) (by decide)⟩
